import Mathlib

/-!
# Package `env`: binding environment variables to a configuration record

A shallow embedding of `src/env/envvars.go` (`gatherInfo`, `Load`,
`processField`, `setterFrom`, `textUnmarshaler`, `isTrue`) together with the
parts of the Go standard library the package calls.

Conventions of the embedding.

* Go's reflection handles (`reflect.Value`) are pairs of a type descriptor
  `Ty` and a value `Val`.  The heap is modelled by value: a pointer is
  `Val.ptr none` (nil) or `Val.ptr (some v)`; distinct pointers never alias.
* The process environment is a function `Env`; every call of `os.LookupEnv`
  is recorded in a trace, tagged with the index of the struct field on whose
  behalf it is made.
* A call either returns an `error` (possibly `nil`) or panics; `Outcome`
  has the three cases.
* The Unicode case table, the size of `int`, `strconv.ParseFloat` and
  `time.ParseDuration` are parameters (`Stdlib`).  The other library
  functions are transcribed.
* Values of interface kind are taken to hold no dynamic value that itself
  implements `Setter` or `TextUnmarshaler`.
-/

namespace EnvVars

/-! ## Errors and outcomes -/

/-- Go `error` values produced by the package or passed through it. -/
inductive GoError where
  /-- The value of `ErrNeedPrefix`: "a prefix must be provided". -/
  | ErrNeedPrefix
  /-- The value of `ErrBadSpec`: "specification must be a struct pointer". -/
  | ErrBadSpec
  /-- From `fmt.Errorf("struct types require a setter or textUnmarshaler method: %v", info.Name)`. -/
  | structNeedsSetter (Name : String)
  /-- From `fmt.Errorf("required key %s missing value", info.Key)`. -/
  | requiredKeyMissing (Key : String)
  /-- From `fmt.Errorf("invalid map item: %q", pair)`. -/
  | invalidMapItem (pair : String)
  /-- A `*strconv.NumError`; `isRange` tells `ErrRange` from `ErrSyntax`. -/
  | numError (Func Num : String) (isRange : Bool)
  /-- An error value made by user code or by a library function that is a parameter here. -/
  | foreign (msg : String)
  /-- The package's `*ParseError`. -/
  | ParseError (KeyName FieldName TypeName Value : String) (Err : GoError)
  deriving DecidableEq, Repr

/-- How a call ends: it returns the `nil` error, returns an error, or panics. -/
inductive Outcome where
  | nil
  | err (e : GoError)
  | panic
  deriving DecidableEq, Repr

/-! ## Values and types -/

/-- Go values, by value.  `other` stands for values of the kinds the package
never looks into (complex numbers, arrays, channels, functions, interfaces,
`uintptr`, unsafe pointers); `other 0` is their zero value.  A float is its
IEEE-754 binary64 bit pattern. -/
inductive Val where
  | bool (b : Bool)
  | int (i : Int)
  | uint (n : Nat)
  | float (bits : Nat)
  | str (s : String)
  | ptr (target : Option Val)
  | slice (elems : Option (List Val))
  | map (entries : Option (List (Val × Val)))
  | struct (fields : List Val)
  | other (id : Nat)

/-- A user-defined method `Set(string) error` or `UnmarshalText([]byte) error`.
`call raw recv` is the effect of the method on a non-nil receiver holding
`recv`: the value held afterwards and the outcome.  For a value receiver the
method runs on a copy, and the value returned here is what the field holds
afterwards (the same, up to what the method changes through maps and
pointers it shares).  `callNil` is the outcome on a nil pointer receiver. -/
structure Method where
  ptrRecv : Bool
  call : String → Val → Val × Outcome
  callNil : String → Outcome

/-- What `reflect.Type` reports about a type besides its kind: `PkgPath()`,
`Name()`, `String()`, and the two methods the package asks for, when the type
declares (or, for a struct, promotes) them. -/
structure TypeMeta where
  PkgPath : String
  Name : String
  Str : String
  Set : Option Method
  UnmarshalText : Option Method

/-- A struct tag, as the list of its `key:"value"` pairs in order. -/
structure StructTag where
  pairs : List (String × String)

/-- Go `StructTag.Get`: the value of the first pair with this key, else `""`. -/
def StructTag.Get (tag : StructTag) (key : String) : String :=
  match tag.pairs.find? (fun p => p.1 == key) with
  | some p => p.2
  | none => ""

/-- Go `reflect.StructField`, with the field type left open.  `exported` is
what decides `CanSet` for a field reached through a struct pointer. -/
structure StructFieldOf (τ : Type) where
  Name : String
  exported : Bool
  Tag : StructTag
  Typ : τ

inductive IntKind where
  | Int | Int8 | Int16 | Int32 | Int64
  deriving DecidableEq, Repr

inductive UintKind where
  | Uint | Uint8 | Uint16 | Uint32 | Uint64
  deriving DecidableEq, Repr

inductive FloatKind where
  | Float32 | Float64
  deriving DecidableEq, Repr

/-- The kinds that `processField` has no case for. -/
inductive OtherKind where
  | Uintptr | Complex64 | Complex128 | Array | Chan | Func | Interface | UnsafePointer
  deriving DecidableEq, Repr

/-- Type descriptors (`reflect.Type`), one constructor per kind the package
tells apart. -/
inductive Ty where
  | bool (m : TypeMeta)
  | int (m : TypeMeta) (k : IntKind)
  | uint (m : TypeMeta) (k : UintKind)
  | float (m : TypeMeta) (k : FloatKind)
  | string (m : TypeMeta)
  | ptr (m : TypeMeta) (elem : Ty)
  | slice (m : TypeMeta) (elem : Ty)
  | map (m : TypeMeta) (key elem : Ty)
  | struct (m : TypeMeta) (fields : List (StructFieldOf Ty))
  | other (m : TypeMeta) (k : OtherKind)

abbrev StructField := StructFieldOf Ty

/-- The descriptor data of a type. -/
def Ty.meta : Ty → TypeMeta
  | .bool m => m
  | .int m _ => m
  | .uint m _ => m
  | .float m _ => m
  | .string m => m
  | .ptr m _ => m
  | .slice m _ => m
  | .map m _ _ => m
  | .struct m _ => m
  | .other m _ => m

/-- Go `Type.String()`. -/
def Ty.String (t : Ty) : String := t.meta.Str

/-- Whether `Kind() == reflect.Struct`. -/
def Ty.isStruct : Ty → Bool
  | .struct _ _ => true
  | _ => false

/-- Whether `Kind() == reflect.Ptr`. -/
def Ty.isPtr : Ty → Bool
  | .ptr _ _ => true
  | _ => false

mutual
/-- The zero value of a type (`reflect.New(t).Elem()`, `reflect.MakeSlice` elements). -/
def zero : Ty → Val
  | .bool _ => .bool false
  | .int _ _ => .int 0
  | .uint _ _ => .uint 0
  | .float _ _ => .float 0
  | .string _ => .str ""
  | .ptr _ _ => .ptr none
  | .slice _ _ => .slice none
  | .map _ _ _ => .map none
  | .struct _ fs => .struct (zeroFields fs)
  | .other _ _ => .other 0
/-- The zero values of the fields of a struct type. -/
def zeroFields : List (StructFieldOf Ty) → List Val
  | [] => []
  | f :: fs => zero f.Typ :: zeroFields fs
end

/-- A reflection handle as passed to `Load`: a type and a value of it. -/
structure Value where
  typ : Ty
  val : Val

/-- The library and platform facts the package relies on that are not
transcribed here: the rune map of `unicode.ToUpper`, `strconv.IntSize`,
`strconv.ParseFloat(s, bitSize)` (its result as binary64 bits) and
`time.ParseDuration` (its result in nanoseconds). -/
structure Stdlib where
  toUpperRune : Char → Char
  IntSize : Nat
  ParseFloat : String → Nat → Except GoError Nat
  ParseDuration : String → Except GoError Int

/-- Go `Type.Bits()` for the signed integer kinds. -/
def IntKind.Bits (intSize : Nat) : IntKind → Nat
  | .Int => intSize
  | .Int8 => 8
  | .Int16 => 16
  | .Int32 => 32
  | .Int64 => 64

/-- Go `Type.Bits()` for the unsigned integer kinds. -/
def UintKind.Bits (intSize : Nat) : UintKind → Nat
  | .Uint => intSize
  | .Uint8 => 8
  | .Uint16 => 16
  | .Uint32 => 32
  | .Uint64 => 64

/-- Go `Type.Bits()` for the floating-point kinds. -/
def FloatKind.Bits : FloatKind → Nat
  | .Float32 => 32
  | .Float64 => 64

/-! ## Package `strings` -/

/-- Go `strings.ToUpper`: the rune map applied to every rune. -/
def ToUpper (up : Char → Char) (s : String) : String := ⟨s.data.map up⟩

/-- Splitting a rune list at every occurrence of `sep`. -/
def splitChars (sep : Char) : List Char → List (List Char)
  | [] => [[]]
  | c :: cs =>
    if c = sep then [] :: splitChars sep cs
    else
      match splitChars sep cs with
      | [] => [[c]]
      | p :: ps => (c :: p) :: ps

/-- Go `strings.Split(s, sep)` for a one-character separator. -/
def Split (s : String) (sep : Char) : List String :=
  (splitChars sep s.data).map String.mk

/-- Go `unicode.IsSpace`. -/
def isSpace (c : Char) : Bool :=
  let n := c.toNat
  (9 ≤ n && n ≤ 13) || n == 32 || n == 0x85 || n == 0xA0 || n == 0x1680 ||
  (0x2000 ≤ n && n ≤ 0x200a) || n == 0x2028 || n == 0x2029 || n == 0x202f ||
  n == 0x205f || n == 0x3000

/-- Go `strings.TrimSpace`. -/
def TrimSpace (s : String) : String :=
  ⟨((s.data.dropWhile isSpace).reverse.dropWhile isSpace).reverse⟩

/-! ## Package `strconv` -/

/-- Go `strconv.ParseBool`. -/
def ParseBool (str : String) : Except GoError Bool :=
  if str = "1" ∨ str = "t" ∨ str = "T" ∨ str = "true" ∨ str = "TRUE" ∨ str = "True" then
    .ok true
  else if str = "0" ∨ str = "f" ∨ str = "F" ∨ str = "false" ∨ str = "FALSE" ∨ str = "False" then
    .ok false
  else .error (.numError "ParseBool" str false)

/-- The helper `lower` of strconv: `c | ('x' - 'X')`. -/
def lower (c : Nat) : Nat := c ||| 32

/-- What `underscoreOK` remembers of the last character: `'^'`, `'0'`, `'_'`, `'!'`. -/
inductive Saw where
  | start | digit | underscore | nondigit
  deriving DecidableEq, Repr

/-- The main loop of strconv's `underscoreOK`. -/
def underscoreLoop (hex : Bool) : List Char → Saw → Bool
  | [], saw => saw != .underscore
  | c :: cs, saw =>
    let n := c.toNat
    if (48 ≤ n && n ≤ 57) || (hex && 97 ≤ lower n && lower n ≤ 102) then
      underscoreLoop hex cs .digit
    else if n == 95 then
      if saw != .digit then false else underscoreLoop hex cs .underscore
    else if saw == .underscore then false
    else underscoreLoop hex cs .nondigit

/-- Go strconv `underscoreOK`: underscores only between digits, or between a
base marker and a digit. -/
def underscoreOK (s : String) : Bool :=
  let s1 : List Char :=
    match s.data with
    | c :: rest => if c = '-' ∨ c = '+' then rest else s.data
    | [] => []
  match s1 with
  | c0 :: c1 :: rest =>
    if c0 = '0' ∧ (lower c1.toNat = 98 ∨ lower c1.toNat = 111 ∨ lower c1.toNat = 120) then
      underscoreLoop (lower c1.toNat == 120) rest .digit
    else underscoreLoop false s1 .start
  | _ => underscoreLoop false s1 .start

/-- The digit loop of `strconv.ParseUint` called with base 0: the accumulated
value and whether an underscore was seen, or an error (`true` for `ErrRange`,
`false` for `ErrSyntax`). -/
def parseDigits (base maxVal : Nat) : List Char → Nat → Bool → Except Bool (Nat × Bool)
  | [], n, underscores => .ok (n, underscores)
  | c :: cs, n, underscores =>
    let b := c.toNat
    if b == 95 then parseDigits base maxVal cs n true
    else
      let d : Option Nat :=
        if 48 ≤ b && b ≤ 57 then some (b - 48)
        else if 97 ≤ lower b && lower b ≤ 122 then some (lower b - 97 + 10)
        else none
      match d with
      | none => .error false
      | some d =>
        if d ≥ base then .error false
        else if n ≥ (2 ^ 64 - 1) / base + 1 then .error true
        else
          let n1 := (n * base + d) % 2 ^ 64
          if n1 < n * base || n1 > maxVal then .error true
          else parseDigits base maxVal cs n1 underscores

/-- Go `strconv.ParseUint(s, 0, bitSize)` up to the shape of the error
(`true` for `ErrRange`, `false` for `ErrSyntax`); `bitSize` is one of 8, 16,
32, 64 at every call here. -/
def parseUintBase0 (s : String) (bitSize : Nat) : Except Bool Nat :=
  match s.data with
  | [] => .error false
  | c0 :: rest =>
    let bd : Nat × List Char :=
      if c0 = '0' then
        match rest with
        | c1 :: _ :: _ =>
          if lower c1.toNat = 98 then (2, rest.tail)
          else if lower c1.toNat = 111 then (8, rest.tail)
          else if lower c1.toNat = 120 then (16, rest.tail)
          else (8, rest)
        | _ => (8, rest)
      else (10, s.data)
    match parseDigits bd.1 (2 ^ bitSize - 1) bd.2 0 false with
    | .error e => .error e
    | .ok (n, underscores) =>
      if underscores && !underscoreOK s then .error false else .ok n

/-- Go `strconv.ParseUint(s, 0, bitSize)`. -/
def ParseUint (s : String) (bitSize : Nat) : Except GoError Nat :=
  match parseUintBase0 s bitSize with
  | .ok n => .ok n
  | .error e => .error (.numError "ParseUint" s e)

/-- Go `strconv.ParseInt(s, 0, bitSize)`. -/
def ParseInt (s : String) (bitSize : Nat) : Except GoError Int :=
  match s.data with
  | [] => .error (.numError "ParseInt" s false)
  | c0 :: rest =>
    let neg : Bool := c0 = '-'
    let body : List Char := if c0 = '+' ∨ c0 = '-' then rest else s.data
    match parseUintBase0 ⟨body⟩ bitSize with
    | .error false => .error (.numError "ParseInt" s false)
    | r =>
      let un : Nat :=
        match r with
        | .ok n => n
        | .error _ => 2 ^ bitSize - 1
      let cutoff : Nat := 2 ^ (bitSize - 1)
      if !neg && un ≥ cutoff then .error (.numError "ParseInt" s true)
      else if neg && un > cutoff then .error (.numError "ParseInt" s true)
      else .ok (if neg then -(un : Int) else (un : Int))

/-! ## The package -/

def A_ALIAS : String := "alias"
def A_DEFAULT : String := "default"
def A_REQUIRE : String := "require"
def A_IGNORE : String := "ignore"

/-- The function `isTrue` of the package: `b, _ := strconv.ParseBool(s); return b`. -/
def isTrue (s : String) : Bool :=
  match ParseBool s with
  | .ok b => b
  | .error _ => false

/-- The method that `interfaceFrom` finds for a handle of type `typ`, all
handles here being addressable: a method of the type itself (through the
value or through its address), or, for an unnamed pointer type, a method of
the type pointed to.  Pointer and interface types declare no methods, and a
pointer to one has none. -/
def methodFrom (sel : TypeMeta → Option Method) : Ty → Option Method
  | .ptr m elem =>
    if m.Name = "" then
      match elem with
      | .ptr _ _ => none
      | .other _ .Interface => none
      | e => sel e.meta
    else none
  | .other _ .Interface => none
  | t => sel t.meta

/-- The function `setterFrom` of the package. -/
def setterFrom (typ : Ty) : Option Method := methodFrom TypeMeta.Set typ

/-- The function `textUnmarshaler` of the package. -/
def textUnmarshaler (typ : Ty) : Option Method := methodFrom TypeMeta.UnmarshalText typ

/-- Calling a method found by `interfaceFrom` on a handle of type `typ`
holding `field`.  Through a nil pointer a value-receiver method panics before
it runs. -/
def invoke (meth : Method) (typ : Ty) (value : String) (field : Val) : Val × Outcome :=
  match typ with
  | .ptr _ _ =>
    match field with
    | .ptr (some p) =>
      let r := meth.call value p
      (.ptr (some r.1), r.2)
    | _ => if meth.ptrRecv then (field, meth.callNil value) else (field, .panic)
  | _ => meth.call value field

/-- IEEE-754 binary64: the bit pattern is a NaN. -/
def float64IsNaN (bits : Nat) : Bool :=
  (bits / 2 ^ 52) % 2 ^ 11 == 2047 && bits % 2 ^ 52 != 0

/-- Go `==` on two float64 values given by their bits. -/
def float64Eq (a b : Nat) : Bool :=
  !float64IsNaN a && !float64IsNaN b && (a == b || (a % 2 ^ 63 == 0 && b % 2 ^ 63 == 0))

mutual
/-- Go `==` on map keys.  Two non-nil pointers made by separate allocations
are different keys. -/
def keyEq : Val → Val → Bool
  | .bool a, .bool b => a == b
  | .int a, .int b => a == b
  | .uint a, .uint b => a == b
  | .float a, .float b => float64Eq a b
  | .str a, .str b => a == b
  | .ptr none, .ptr none => true
  | .struct a, .struct b => keyEqList a b
  | .other a, .other b => a == b
  | _, _ => false
/-- Field-wise key equality of two structs. -/
def keyEqList : List Val → List Val → Bool
  | [], [] => true
  | a :: as, b :: bs => keyEq a b && keyEqList as bs
  | _, _ => false
end

/-- Go `mp.SetMapIndex(k, v)` on the entry list of a map. -/
def SetMapIndex : List (Val × Val) → Val → Val → List (Val × Val)
  | [], k, v => [(k, v)]
  | (k0, v0) :: rest, k, v =>
    if keyEq k0 k then (k0, v) :: rest else (k0, v0) :: SetMapIndex rest k v

/-- The loop of the `reflect.Slice` case: every piece is coerced into a fresh
element by `pe`; the first failure ends the loop. -/
def processElems (pe : String → Val → Val × Outcome) (z : Val) : List String → List Val × Outcome
  | [] => ([], .nil)
  | val :: rest =>
    match pe val z with
    | (v, .nil) =>
      let r := processElems pe z rest
      (v :: r.1, r.2)
    | (_, o) => ([], o)

/-- The loop of the `reflect.Map` case over the comma-separated pairs. -/
def processPairs (pk pe : String → Val → Val × Outcome) (zk zv : Val) :
    List String → List (Val × Val) → List (Val × Val) × Outcome
  | [], mp => (mp, .nil)
  | pair :: rest, mp =>
    match Split pair ':' with
    | [ks, vs] =>
      match pk ks zk with
      | (k, .nil) =>
        match pe vs zv with
        | (v, .nil) => processPairs pk pe zk zv rest (SetMapIndex mp k v)
        | (_, o) => (mp, o)
      | (_, o) => (mp, o)
    | _ => (mp, .err (.invalidMapItem pair))

/-- The `switch typ.Kind()` of `processField`.  `pk` and `pe` are
`processField` at the key and element types of `typ`, used by the slice and
map cases. -/
def kindSwitch (lib : Stdlib) (typ : Ty) (pk pe : String → Val → Val × Outcome)
    (value : String) (field : Val) : Val × Outcome :=
  match typ with
  | .string _ => (.str value, .nil)
  | .int m k =>
    if k = .Int64 ∧ m.PkgPath = "time" ∧ m.Name = "Duration" then
      match lib.ParseDuration value with
      | .error e => (field, .err e)
      | .ok d => (.int d, .nil)
    else
      match ParseInt value (k.Bits lib.IntSize) with
      | .error e => (field, .err e)
      | .ok i => (.int i, .nil)
  | .uint _ k =>
    match ParseUint value (k.Bits lib.IntSize) with
    | .error e => (field, .err e)
    | .ok n => (.uint n, .nil)
  | .bool _ =>
    match ParseBool value with
    | .error e => (field, .err e)
    | .ok b => (.bool b, .nil)
  | .float _ k =>
    match lib.ParseFloat value k.Bits with
    | .error e => (field, .err e)
    | .ok x => (.float x, .nil)
  | .slice _ elem =>
    match processElems pe (zero elem) (Split value ',') with
    | (sl, .nil) => (.slice (some sl), .nil)
    | (_, o) => (field, o)
  | .map _ key elem =>
    if TrimSpace value ≠ "" then
      match processPairs pk pe (zero key) (zero elem) (Split value ',') [] with
      | (mp, .nil) => (.map (some mp), .nil)
      | (_, o) => (field, o)
    else (.map (some []), .nil)
  | _ => (field, .nil)

/-- The element coercion handed to `kindSwitch` for kinds without elements. -/
def noElem (_ : String) (v : Val) : Val × Outcome := (v, .nil)

/-- The function `processField` of the package, on a handle of type `typ`
holding `field`: the value held afterwards and the outcome. -/
def processField (lib : Stdlib) : Ty → String → Val → Val × Outcome
  | typ, value, field =>
    match setterFrom typ with
    | some setter => invoke setter typ value field
    | none =>
      match textUnmarshaler typ with
      | some t => invoke t typ value field
      | none =>
        match typ with
        | .ptr _ elem =>
          let pointee : Val :=
            match field with
            | .ptr (some p) => p
            | _ => zero elem
          let r : Val × Outcome :=
            match elem with
            | .slice _ e => kindSwitch lib elem noElem (processField lib e) value pointee
            | .map _ k e =>
              kindSwitch lib elem (processField lib k) (processField lib e) value pointee
            | _ => kindSwitch lib elem noElem noElem value pointee
          (.ptr (some r.1), r.2)
        | .slice _ e => kindSwitch lib typ noElem (processField lib e) value field
        | .map _ k e => kindSwitch lib typ (processField lib k) (processField lib e) value field
        | _ => kindSwitch lib typ noElem noElem value field

/-- The field `Field reflect.Value` of a descriptor: the struct field it
belongs to, how many pointers were followed from it, and the type reached. -/
structure FieldRef where
  index : Nat
  derefs : Nat
  typ : Ty

/-- The type `varInfo` of the package. -/
structure varInfo where
  Name : String
  Alt : String
  Key : String
  Field : FieldRef
  Tags : StructTag

/-- The loop `for f.Kind() == reflect.Ptr` of `gatherInfo` on a field of type
`typ` holding `f`: the value the field holds afterwards (nil pointers to
structs replaced by pointers to zero structs), the type reached, and the
number of pointers followed. -/
def derefLoop : Ty → Val → Val × Ty × Nat
  | .ptr m elem, f =>
    match f with
    | .ptr (some p) =>
      let r := derefLoop elem p
      (.ptr (some r.1), r.2.1, r.2.2 + 1)
    | _ =>
      if elem.isStruct then
        let r := derefLoop elem (zero elem)
        (.ptr (some r.1), r.2.1, r.2.2 + 1)
      else (f, .ptr m elem, 0)
  | typ, f => (f, typ, 0)

/-- The body of the field loop of `gatherInfo` from field `i` on: the field
values, the descriptors and the error it ends with. -/
def gatherLoop (lib : Stdlib) (pfx : String) :
    List StructField → Nat → List Val → List varInfo → List Val × List varInfo × Option GoError
  | [], _, vals, infos => (vals, infos, none)
  | ftype :: rest, i, vals, infos =>
    if !ftype.exported || isTrue (ftype.Tag.Get A_IGNORE) then
      gatherLoop lib pfx rest (i + 1) vals infos
    else
      let d := derefLoop ftype.Typ (vals.getD i (zero ftype.Typ))
      let alt := ToUpper lib.toUpperRune (ftype.Tag.Get A_ALIAS)
      let key := ToUpper lib.toUpperRune (pfx ++ "_" ++ (if alt ≠ "" then alt else ftype.Name))
      let info : varInfo :=
        { Name := ftype.Name, Field := ⟨i, d.2.2, d.2.1⟩, Tags := ftype.Tag, Alt := alt, Key := key }
      if d.2.1.isStruct && (setterFrom d.2.1).isNone && (textUnmarshaler d.2.1).isNone then
        (vals.set i d.1, [], some (.structNeedsSetter info.Name))
      else gatherLoop lib pfx rest (i + 1) (vals.set i d.1) (infos ++ [info])

/-- A non-nil pointer to a struct with the given declared fields and field values. -/
def recordPtr (m ms : TypeMeta) (fields : List StructField) (vals : List Val) : Option Value :=
  some ⟨.ptr m (.struct ms fields), .ptr (some (.struct vals))⟩

/-- The function `gatherInfo` of the package.  `spec` is the `interface{}`
argument (`none` for the nil interface); the result is the argument after the
call, the descriptors and the error.  The tests `s.Kind() != reflect.Ptr`
and, after `s = s.Elem()`, `s.Kind() != reflect.Struct` both pass exactly for
a non-nil pointer to a struct: the nil interface and the `Elem()` of a nil
pointer are the zero `reflect.Value`, of kind `Invalid`. -/
def gatherInfo (lib : Stdlib) (pfx : String) (spec : Option Value) :
    Option Value × List varInfo × Option GoError :=
  if pfx = "" then (spec, [], some .ErrNeedPrefix)
  else
    match spec with
    | some ⟨.ptr m (.struct ms fields), .ptr (some (.struct vals))⟩ =>
      let r := gatherLoop lib pfx fields 0 vals []
      (recordPtr m ms fields r.1, r.2.1, r.2.2)
    | _ => (spec, [], some .ErrBadSpec)

/-- The process environment, as `os.LookupEnv` sees it. -/
abbrev Env := String → Option String

/-- One call of `os.LookupEnv`: the field on whose behalf it is made and the name looked up. -/
abbrev Lookup := Nat × String

/-- Running `f` on the value reached from `v` through `n` pointers.  A
descriptor made by `gatherInfo` always reaches its value; a handle that does
not is a fault. -/
def throughPtrs : Nat → (Val → Val × Outcome) → Val → Val × Outcome
  | 0, f, v => f v
  | n + 1, f, v =>
    match v with
    | .ptr (some p) =>
      let r := throughPtrs n f p
      (.ptr (some r.1), r.2)
    | _ => (v, .panic)

/-- Running `f` on the value a descriptor's handle refers to. -/
def updateField (ref : FieldRef) (f : Val → Val × Outcome) (spec : Option Value) :
    Option Value × Outcome :=
  match spec with
  | some ⟨typ, .ptr (some (.struct vals))⟩ =>
    match vals.get? ref.index with
    | some v =>
      let r := throughPtrs ref.derefs f v
      (some ⟨typ, .ptr (some (.struct (vals.set ref.index r.1)))⟩, r.2)
    | none => (spec, .panic)
  | _ => (spec, .panic)

/-- The end of the loop body of `Load`: `processField(value, info.Field)` and
the wrapping of its error into a `*ParseError`. -/
def assign (lib : Stdlib) (info : varInfo) (value : String) (spec : Option Value) :
    Option Value × Outcome :=
  let r := updateField info.Field (processField lib info.Field.typ value) spec
  match r.2 with
  | .err e => (r.1, .err (.ParseError info.Key info.Name info.Field.typ.String value e))
  | o => (r.1, o)

/-- The two lookups of the loop body of `Load`:
`value, ok := os.LookupEnv(info.Key)` and, when that fails and `info.Alt` is
not empty, `value, ok = os.LookupEnv(info.Alt)`.  The result is `some value`
when `ok`, with the lookups made. -/
def lookupVar (env : Env) (info : varInfo) : Option String × List Lookup :=
  match env info.Key with
  | some v => (some v, [(info.Field.index, info.Key)])
  | none =>
    if info.Alt ≠ "" then
      (env info.Alt, [(info.Field.index, info.Key), (info.Field.index, info.Alt)])
    else (none, [(info.Field.index, info.Key)])

/-- The body of the loop of `Load` for one descriptor: the record afterwards,
the lookups made, and the outcome (`nil` when the loop goes on). -/
def bindField (lib : Stdlib) (env : Env) (info : varInfo) (spec : Option Value) :
    Option Value × List Lookup × Outcome :=
  let found := lookupVar env info
  let ok : Bool := found.1.isSome
  let def_ := info.Tags.Get A_DEFAULT
  let value : String := if def_ ≠ "" ∧ ok = false then def_ else found.1.getD ""
  let req := info.Tags.Get A_REQUIRE
  if ok = false ∧ def_ = "" then
    if isTrue req then (spec, found.2, .err (.requiredKeyMissing info.Key))
    else (spec, found.2, .nil)
  else
    let r := assign lib info value spec
    (r.1, found.2, r.2)

/-- The loop `for _, info := range infos` of `Load`. -/
def loadLoop (lib : Stdlib) (env : Env) :
    List varInfo → Option Value → List Lookup → Option Value × List Lookup × Outcome
  | [], spec, trace => (spec, trace, .nil)
  | info :: rest, spec, trace =>
    let r := bindField lib env info spec
    match r.2.2 with
    | .nil => loadLoop lib env rest r.1 (trace ++ r.2.1)
    | o => (r.1, trace ++ r.2.1, o)

/-- What a call of `Load` leaves behind: the argument after the call, the
environment lookups it made, and its outcome. -/
structure LoadResult where
  spec : Option Value
  lookups : List Lookup
  err : Outcome

/-- The function `Load` of the package. -/
def Load (lib : Stdlib) (env : Env) (pfx : String) (spec : Option Value) : LoadResult :=
  let g := gatherInfo lib pfx spec
  let r := loadLoop lib env g.2.1 g.1 []
  match r.2.2 with
  | .nil =>
    match g.2.2 with
    | none => ⟨r.1, r.2.1, .nil⟩
    | some e => ⟨r.1, r.2.1, .err e⟩
  | o => ⟨r.1, r.2.1, o⟩

/-! ## Vocabulary of the statements -/

/-- A field that `gatherInfo` describes: settable and not ignored. -/
def eligible (f : StructField) : Bool := f.exported && !isTrue (f.Tag.Get A_IGNORE)

/-- The lookup key in the words of the specification:
`uppercase(prefix + "_" + (alias if present else field name))`. -/
def specKey (up : Char → Char) (p n a : String) : String :=
  ToUpper up (p ++ "_" ++ (if a ≠ "" then a else n))

/-- The alias `gatherInfo` stores for a field declared as `f`: its alias
annotation, upper-cased. -/
def altOf (lib : Stdlib) (f : StructField) : String :=
  ToUpper lib.toUpperRune (f.Tag.Get A_ALIAS)

/-- The key `gatherInfo` computes for a field declared as `f`. -/
def keyOf (lib : Stdlib) (pfx : String) (f : StructField) : String :=
  ToUpper lib.toUpperRune (pfx ++ "_" ++ (if altOf lib f ≠ "" then altOf lib f else f.Name))

/-- The descriptor `gatherInfo` builds for field `i`, declared as `f` and holding `v`. -/
def descriptorOf (lib : Stdlib) (pfx : String) (i : Nat) (f : StructField) (v : Val) : varInfo :=
  { Name := f.Name, Field := ⟨i, (derefLoop f.Typ v).2.2, (derefLoop f.Typ v).2.1⟩,
    Tags := f.Tag, Alt := altOf lib f, Key := keyOf lib pfx f }

/-- The descriptors of the eligible fields among `fs`, the first of which has index `i`. -/
def descriptors (lib : Stdlib) (pfx : String) : List StructField → Nat → List Val → List varInfo
  | [], _, _ => []
  | f :: rest, i, vals =>
    if eligible f then
      descriptorOf lib pfx i f (vals.getD i (zero f.Typ)) :: descriptors lib pfx rest (i + 1) vals
    else descriptors lib pfx rest (i + 1) vals

/-- The field values after introspection of the fields `fs`, the first of which has index `i`. -/
def gathered : List StructField → Nat → List Val → List Val
  | [], _, vals => vals
  | f :: rest, i, vals =>
    if eligible f then
      gathered rest (i + 1) (vals.set i (derefLoop f.Typ (vals.getD i (zero f.Typ))).1)
    else gathered rest (i + 1) vals

/-- The value of field `i` of the record that `spec` points to. -/
def fieldAt (spec : Option Value) (i : Nat) : Option Val :=
  match spec with
  | some ⟨_, .ptr (some (.struct vals))⟩ => vals.get? i
  | _ => none

/-- Binding reaches the descriptor `info` with the record in state `st`:
introspection succeeds, and every descriptor before `info` is bound without
an error. -/
def Reaches (lib : Stdlib) (env : Env) (pfx : String) (spec : Option Value) (info : varInfo)
    (st : Option Value) : Prop :=
  (gatherInfo lib pfx spec).2.2 = none ∧
  ∃ pre post trace, (gatherInfo lib pfx spec).2.1 = pre ++ info :: post ∧
    loadLoop lib env pre (gatherInfo lib pfx spec).1 [] = (st, trace, .nil)

/-! ## Example types and environments -/

/-- Descriptor data of a type without methods whose `String()` is `name`. -/
def um (name : String) : TypeMeta := ⟨"", name, name, none, none⟩

def tString : Ty := .string (um "string")
def tInt : Ty := .int (um "int") .Int
def tBool : Ty := .bool (um "bool")
def tPtr (e : Ty) : Ty := .ptr ⟨"", "", "*" ++ e.String, none, none⟩ e
def tSlice (e : Ty) : Ty := .slice ⟨"", "", "[]" ++ e.String, none, none⟩ e
def tMap (k e : Ty) : Ty := .map ⟨"", "", "map[" ++ k.String ++ "]" ++ e.String, none, none⟩ k e

/-- A library instance for the examples: the case table on ASCII letters and a
64-bit `int`.  The examples have no float or duration field and never reach
the two parsers, which report an error on every string here. -/
def refLib : Stdlib :=
  { toUpperRune := Char.toUpper, IntSize := 64,
    ParseFloat := fun _ _ => .error (.foreign "float"),
    ParseDuration := fun _ => .error (.foreign "duration") }

/-- The environment holding exactly the listed variables. -/
def envOf (l : List (String × String)) : Env :=
  fun k => (l.find? (fun p => p.1 == k)).map (·.2)

/-- A record in the style of the test suite's `Specification`. -/
def altFields : List StructField :=
  [ ⟨"MultiWordVar", true, ⟨[]⟩, tString⟩,
    ⟨"MultiWordVarWithLowerCaseAlt", true, ⟨[("alias", "multi_word_var_with_lower_case_alt")]⟩, tString⟩,
    ⟨"hidden", false, ⟨[]⟩, tString⟩,
    ⟨"Ignored", true, ⟨[("ignore", "true")]⟩, tString⟩,
    ⟨"NoPrefixWithAlt", true, ⟨[("alias", "SERVICE_HOST")]⟩, tString⟩ ]

/-- The value a field of type `typ` holding `x` has once `gatherInfo` has
described it and `Load` has coerced `raw` into it through the descriptor. -/
def boundValue (lib : Stdlib) (typ : Ty) (raw : String) (x : Val) : Val :=
  (throughPtrs (derefLoop typ x).2.2 (processField lib (derefLoop typ x).2.1 raw)
    (derefLoop typ x).1).1

/-- The type `setterStruct` of the test suite, a struct with one string field
and `func (ss *setterStruct) Set(value string) error` (for raw strings that
`%q` leaves as they are). -/
def setterStruct : Ty :=
  .struct
    { PkgPath := "github.com/lavaorg/lrt/env", Name := "setterStruct", Str := "env.setterStruct",
      Set := some
        { ptrRecv := true,
          call := fun value _ => (.struct [.str ("setterstruct\x7b\"" ++ value ++ "\"\x7d")], .nil),
          callNil := fun _ => .panic },
      UnmarshalText := none }
    [⟨"Inner", true, ⟨[]⟩, tString⟩]

/-- A record with the annotations of the test suite's `Specification`. -/
def demoFields : List StructField :=
  [ ⟨"Port", true, ⟨[]⟩, tInt⟩,
    ⟨"RequiredVar", true, ⟨[("require", "True")]⟩, tString⟩,
    ⟨"NoPrefixDefault", true, ⟨[("alias", "BROKER"), ("default", "127.0.0.1")]⟩, tString⟩,
    ⟨"User", true, ⟨[]⟩, tString⟩,
    ⟨"Ignored", true, ⟨[("ignore", "true"), ("require", "true")]⟩, tString⟩,
    ⟨"MapField", true, ⟨[("default", "one:two,three:four")]⟩, tMap tString tString⟩,
    ⟨"SomePointer", true, ⟨[]⟩, tPtr tString⟩,
    ⟨"MultiWordVarWithLowerCaseAlt", true, ⟨[("alias", "multi_word_var_with_lower_case_alt")]⟩,
      tString⟩ ]

/-- A fresh `demoFields` record, by pointer. -/
def demoSpec : Option Value :=
  recordPtr (um "*env.Specification") (um "env.Specification") demoFields (zeroFields demoFields)

/-- A required field of type `*setterStruct`, and a record whose only field it is. -/
def requiredPtrField : StructField := ⟨"Struct", true, ⟨[("require", "true")]⟩, tPtr setterStruct⟩

/-- A fresh record with the single field `requiredPtrField`, by pointer. -/
def requiredPtrSpec : Option Value :=
  recordPtr (um "") (um "") [requiredPtrField] [zero requiredPtrField.Typ]

/-- A required string field annotated with the empty default. -/
def emptyDefaultField : StructField :=
  ⟨"RequiredDefault", true, ⟨[("require", "true"), ("default", "")]⟩, tString⟩

/-- A record with the single field `emptyDefaultField`, holding `"old"`, by pointer. -/
def emptyDefaultSpec : Option Value :=
  recordPtr (um "") (um "") [emptyDefaultField] [.str "old"]

/-- A string field whose alias annotation is written in lower case. -/
def lowerAliasField : StructField :=
  ⟨"MultiWordVarWithLowerCaseAlt", true, ⟨[("alias", "multi_word_var_with_lower_case_alt")]⟩,
    tString⟩

/-- A fresh record with the single field `lowerAliasField`, by pointer. -/
def lowerAliasSpec : Option Value :=
  recordPtr (um "") (um "") [lowerAliasField] [zero lowerAliasField.Typ]

/-- A field of type `*setterStruct` without annotations. -/
def optionalPtrField : StructField := ⟨"Struct", true, ⟨[]⟩, tPtr setterStruct⟩

/-- A fresh record with the single field `optionalPtrField`, by pointer. -/
def optionalPtrSpec : Option Value :=
  recordPtr (um "") (um "") [optionalPtrField] [zero optionalPtrField.Typ]

/-! ## Vocabulary for coercion -/

/-- The coercion `processField` hands to the map case for the keys of `typ`. -/
def keyCoercion (lib : Stdlib) : Ty → String → Val → Val × Outcome
  | .map _ k _ => processField lib k
  | _ => noElem

/-- The coercion `processField` hands to the slice and map cases for the elements of `typ`. -/
def elemCoercion (lib : Stdlib) : Ty → String → Val → Val × Outcome
  | .slice _ e => processField lib e
  | .map _ _ e => processField lib e
  | _ => noElem

/-- The built-in rule for a type: the `switch typ.Kind()` of `processField`,
with `processField` at the key and element types for the recursive cases. -/
def builtinRule (lib : Stdlib) (typ : Ty) (value : String) (field : Val) : Val × Outcome :=
  kindSwitch lib typ (keyCoercion lib typ) (elemCoercion lib typ) value field

/-- What a handle of pointer type refers to after `processField` has made
sure the pointer is not nil: the value pointed to, or a zero `elem`. -/
def pointeeOf (elem : Ty) (field : Val) : Val :=
  match field with
  | .ptr (some p) => p
  | _ => zero elem

/-- The type `bracketed` of the test suite: a string type with
`func (b *bracketed) Set(value string) error`. -/
def bracketed : Ty :=
  .string
    { PkgPath := "github.com/lavaorg/lrt/env", Name := "bracketed", Str := "env.bracketed",
      Set := some
        { ptrRecv := true,
          call := fun value _ => (.str ("[" ++ value ++ "]"), .nil),
          callNil := fun _ => .panic },
      UnmarshalText := none }

/-- The string the loop body of `Load` hands to `processField` for a
descriptor: the value found by `lookupVar`, else the `default` annotation
when it is not empty; `none` when the body assigns nothing. -/
def resolve (env : Env) (info : varInfo) : Option String :=
  match (lookupVar env info).1 with
  | some v => some v
  | none => if info.Tags.Get A_DEFAULT ≠ "" then some (info.Tags.Get A_DEFAULT) else none

/-- The value the handle of a descriptor refers to, for a field of type `typ`
that held `f` before `gatherInfo`: what the loop `for f.Kind() == reflect.Ptr`
ends on. -/
def reachedValue : Ty → Val → Val
  | .ptr _ elem, f =>
    match f with
    | .ptr (some p) => reachedValue elem p
    | _ => if elem.isStruct then reachedValue elem (zero elem) else f
  | _, f => f

/-- A field `Count *int`, and a record whose only field it is, pointing to 7. -/
def countPtrField : StructField := ⟨"Count", true, ⟨[]⟩, tPtr tInt⟩

/-- A record with the single field `countPtrField`, which points to 7, by pointer. -/
def countPtrSpec : Option Value :=
  recordPtr (um "*env.Counted") (um "env.Counted") [countPtrField] [.ptr (some (.int 7))]

/-- A record with a required string field followed by a `*setterStruct` field. -/
def stopFields : List StructField :=
  [ ⟨"Name", true, ⟨[("require", "true")]⟩, tString⟩,
    ⟨"Struct", true, ⟨[]⟩, tPtr setterStruct⟩ ]

/-- A fresh `stopFields` record, by pointer. -/
def stopSpec : Option Value :=
  recordPtr (um "*env.Stop") (um "env.Stop") stopFields (zeroFields stopFields)

/-- A record with one field `Ints []int`, by pointer, the field being nil. -/
def intsSpec : Option Value :=
  recordPtr (um "*env.Ints") (um "env.Ints") [⟨"Ints", true, ⟨[]⟩, tSlice tInt⟩] [.slice none]

/-- A record with one field `Names []string`, by pointer, the field being nil. -/
def namesSpec : Option Value :=
  recordPtr (um "*env.Names") (um "env.Names") [⟨"Names", true, ⟨[]⟩, tSlice tString⟩]
    [.slice none]

/-! ## Package `time`: `ParseDuration` -/

/-- The test `'0' <= c && c <= '9'` on a byte. -/
def isDigitByte (c : Char) : Bool := 48 ≤ c.toNat && c.toNat ≤ 57

/-- The function `leadingInt` of package time on the rest `s` with the value
`x` read so far: the value of the leading digits and what follows them, or
`none` for `errLeadingInt` (overflow). -/
def leadingInt : List Char → Nat → Option (Nat × List Char)
  | [], x => some (x, [])
  | c :: cs, x =>
    if !isDigitByte c then some (x, c :: cs)
    else if x > 2 ^ 63 / 10 then none
    else
      let x1 := (x * 10 + c.toNat - 48) % 2 ^ 64
      if x1 > 2 ^ 63 then none else leadingInt cs x1

/-- The function `leadingFraction` of package time: the value of the leading
digits, the number `k` of digits taken (the `scale` is `10 ^ k`), and what
follows the digits. -/
def leadingFraction : List Char → Nat → Nat → Bool → Nat × Nat × List Char
  | [], x, k, _ => (x, k, [])
  | c :: cs, x, k, overflow =>
    if !isDigitByte c then (x, k, c :: cs)
    else if overflow then leadingFraction cs x k true
    else if x > (2 ^ 63 - 1) / 10 then leadingFraction cs x k true
    else
      let y := (x * 10 + c.toNat - 48) % 2 ^ 64
      if y > 2 ^ 63 then leadingFraction cs x k true
      else leadingFraction cs y (k + 1) false

/-- The table `unitMap` of package time, in nanoseconds. -/
def unitMap (u : String) : Option Nat :=
  if u = "ns" then some 1
  else if u = "us" ∨ u = "µs" ∨ u = "μs" then some 1000
  else if u = "ms" then some 1000000
  else if u = "s" then some 1000000000
  else if u = "m" then some 60000000000
  else if u = "h" then some 3600000000000
  else none

/-- The loop `for s != ""` of `time.ParseDuration` on the rest `s` with the
sum `d` so far.  `quote` is the helper `quote` of package time and `frac f
unit k` stands for `uint64(float64(f) * (float64(unit) / scale))` with
`scale = 10 ^ k`; `withFraction` is the block `if f > 0`, `none` when it
returns the error.  Every round consumes at least the first character of a
unit, so a fuel of the length of `s` is never used up; `none` is the fuel
running out. -/
def durationLoop (quote : String → String) (frac : Nat → Nat → Nat → Nat) (orig : String) :
    Nat → List Char → Nat → Option (Except GoError Nat)
  | _, [], d => some (.ok d)
  | 0, _ :: _, _ => none
  | fuel + 1, c :: cs, d =>
    if !(c = '.' || isDigitByte c) then
      some (.error (.foreign ("time: invalid duration " ++ quote orig)))
    else
      match leadingInt (c :: cs) 0 with
      | none => some (.error (.foreign ("time: invalid duration " ++ quote orig)))
      | some (v, s1) =>
        let pre : Bool := s1.length != (c :: cs).length
        let fr : Nat × Nat × List Char × Bool :=
          match s1 with
          | c1 :: r =>
            if c1 = '.' then
              let lf := leadingFraction r 0 0 false
              (lf.1, lf.2.1, lf.2.2, lf.2.2.length != r.length)
            else (0, 0, s1, false)
          | [] => (0, 0, s1, false)
        if !pre && !fr.2.2.2 then
          some (.error (.foreign ("time: invalid duration " ++ quote orig)))
        else
          let u := fr.2.2.1.takeWhile (fun b => !(b = '.' || isDigitByte b))
          let s3 := fr.2.2.1.dropWhile (fun b => !(b = '.' || isDigitByte b))
          if u = [] then
            some (.error (.foreign ("time: missing unit in duration " ++ quote orig)))
          else
            match unitMap ⟨u⟩ with
            | none =>
              some (.error (.foreign
                ("time: unknown unit " ++ quote ⟨u⟩ ++ " in duration " ++ quote orig)))
            | some unit =>
              if v > 2 ^ 63 / unit then
                some (.error (.foreign ("time: invalid duration " ++ quote orig)))
              else
                let v1 := (v * unit) % 2 ^ 64
                let withFraction : Option Nat :=
                  if fr.1 > 0 then
                    if (v1 + frac fr.1 unit fr.2.1) % 2 ^ 64 > 2 ^ 63 then none
                    else some ((v1 + frac fr.1 unit fr.2.1) % 2 ^ 64)
                  else some v1
                match withFraction with
                | none => some (.error (.foreign ("time: invalid duration " ++ quote orig)))
                | some v2 =>
                  let d1 := (d + v2) % 2 ^ 64
                  if d1 > 2 ^ 63 then
                    some (.error (.foreign ("time: invalid duration " ++ quote orig)))
                  else durationLoop quote frac orig fuel s3 d1

/-- Go `time.ParseDuration` (as of Go 1.15 and later): the duration in
nanoseconds. -/
def ParseDuration (quote : String → String) (frac : Nat → Nat → Nat → Nat) (s : String) :
    Except GoError Int :=
  let neg : Bool := match s.data with
    | c :: _ => c = '-'
    | [] => false
  let body : List Char := match s.data with
    | c :: rest => if c = '-' ∨ c = '+' then rest else s.data
    | [] => []
  if body = ['0'] then .ok 0
  else if body = [] then .error (.foreign ("time: invalid duration " ++ quote s))
  else
    match durationLoop quote frac s body.length body 0 with
    | none => .error (.foreign "time: unreachable")
    | some (.error e) => .error e
    | some (.ok d) =>
      if neg then .ok (-(d : Int))
      else if d > 2 ^ 63 - 1 then .error (.foreign ("time: invalid duration " ++ quote s))
      else .ok (d : Int)

/-- The type `time.Duration`. -/
def tDuration : Ty := .int ⟨"time", "Duration", "time.Duration", none, none⟩ .Int64

/-- A library instance with `time.ParseDuration` for the examples, which have
no fraction and nothing to escape in a quoted string. -/
def timeLib : Stdlib :=
  { toUpperRune := Char.toUpper, IntSize := 64,
    ParseFloat := fun _ _ => .error (.foreign "float"),
    ParseDuration := ParseDuration (fun s => "\"" ++ s ++ "\"") (fun _ _ _ => 0) }

/-- A record with one field `Timeout time.Duration`, by pointer. -/
def timeoutSpec : Option Value :=
  recordPtr (um "*env.Timed") (um "env.Timed") [⟨"Timeout", true, ⟨[]⟩, tDuration⟩] [.int 0]

/-! ## Vocabulary for introspection failures and maps -/

/-- The test that makes `gatherInfo` fail on a handle of type `t`:
`f.Kind() == reflect.Struct` with `setterFrom(f) == nil` and
`textUnmarshaler(f) == nil`. -/
def bareStruct (t : Ty) : Bool :=
  t.isStruct && (setterFrom t).isNone && (textUnmarshaler t).isNone

/-- A field, holding `v`, at which `gatherInfo` fails: described, and reaching
a struct without `Set` and `UnmarshalText`. -/
def offending (f : StructField) (v : Val) : Bool :=
  eligible f && bareStruct (derefLoop f.Typ v).2.1

/-- The anonymous struct type of the field `NestedSpecification` of the test
suite's `BadSpecHasStruct`. -/
def nestedSpecification : Ty :=
  .struct
    (um "struct \x7b Property string \"alias:\\\"inner\\\"\"; PropertyWithDefault string \x7d")
    [⟨"Property", true, ⟨[("alias", "inner")]⟩, tString⟩,
     ⟨"PropertyWithDefault", true, ⟨[]⟩, tString⟩]

/-- The fields of a record in the style of the test suite's `BadSpecHasStruct`,
with a settable field before the nested struct. -/
def badFields : List StructField :=
  [ ⟨"Foo", true, ⟨[]⟩, tString⟩,
    ⟨"bar", false, ⟨[]⟩, tString⟩,
    ⟨"NestedSpecification", true, ⟨[("alias", "outer")]⟩, nestedSpecification⟩,
    ⟨"AfterNested", true, ⟨[]⟩, tString⟩ ]

/-- A fresh `badFields` record, by pointer. -/
def badSpec : Option Value :=
  recordPtr (um "*env.BadSpecHasStruct") (um "env.BadSpecHasStruct") badFields
    (zeroFields badFields)

/-- A record whose only field is a string annotated `require:"tRuE"`, by pointer. -/
def mixedCaseSpec : Option Value :=
  recordPtr (um "*env.Mixed") (um "env.Mixed")
    [⟨"Name", true, ⟨[("require", "tRuE")]⟩, tString⟩] [.str ""]

/-- The kinds for which the switch of `processField` has no case: struct,
pointer, and the kinds gathered in `OtherKind` (`uintptr`, complex number,
array, channel, function, interface, unsafe pointer). -/
def noRuleKind : Ty → Bool
  | .struct _ _ => true
  | .ptr _ _ => true
  | .other _ _ => true
  | _ => false

/-- The type `complex128`. -/
def tComplex128 : Ty := .other (um "complex128") .Complex128

/-- The empty interface type `interface{}`. -/
def tEmptyInterface : Ty := .other (um "interface {}") .Interface

/-- A record with one field `Count *int`, which is nil, by pointer. -/
def countNilSpec : Option Value :=
  recordPtr (um "*env.Counted") (um "env.Counted") [countPtrField] [.ptr none]

/-- The declared fields of a struct type. -/
def Ty.fields : Ty → List StructField
  | .struct _ fs => fs
  | _ => []

/-- Whether an outcome is `nil`. -/
def Outcome.isNil : Outcome → Bool
  | .nil => true
  | _ => false

/-- A map item of the form `k:v` whose two sides are coerced without error
into a fresh key and a fresh element. -/
def pairOK (lib : Stdlib) (key elem : Ty) (pair : String) : Bool :=
  match Split pair ':' with
  | [ks, vs] =>
    (processField lib key ks (zero key)).2.isNil && (processField lib elem vs (zero elem)).2.isNil
  | _ => false

/-- The entry a map item `k:v` stands for: the coerced key and the coerced element. -/
def coercePair (lib : Stdlib) (key elem : Ty) (pair : String) : Val × Val :=
  match Split pair ':' with
  | [ks, vs] =>
    ((processField lib key ks (zero key)).1, (processField lib elem vs (zero elem)).1)
  | _ => (zero key, zero elem)

/-- Storing the entries `ps` into the map `mp`, one `SetMapIndex` after the other. -/
def insertAll (mp : List (Val × Val)) (ps : List (Val × Val)) : List (Val × Val) :=
  ps.foldl (fun acc p => SetMapIndex acc p.1 p.2) mp

/-- Go `mp[k]` (`reflect.Value.MapIndex`) on the entry list of a map: the
element stored under the key equal to `k`, if there is one. -/
def MapIndex (mp : List (Val × Val)) (k : Val) : Option Val :=
  (mp.find? (fun e => keyEq e.1 k)).map (fun e => e.2)

/-! ## Integer literals, in the words of the specification -/

/-- The value of a character as a digit: `0` to `9`, then the letters in
either case. -/
def digitOf (c : Char) : Option Nat :=
  if 48 ≤ c.toNat ∧ c.toNat ≤ 57 then some (c.toNat - 48)
  else if 97 ≤ c.toNat ∧ c.toNat ≤ 122 then some (c.toNat - 97 + 10)
  else if 65 ≤ c.toNat ∧ c.toNat ≤ 90 then some (c.toNat - 65 + 10)
  else none

/-- The number that the digits `cs` denote in base `base` after the digits
read so far, whose value is `n`; underscores are skipped.  `none` when a
character is not a digit of the base. -/
def literalDigits (base : Nat) : List Char → Nat → Option Nat
  | [], n => some n
  | c :: cs, n =>
    if c = '_' then literalDigits base cs n
    else
      match digitOf c with
      | some d => if d < base then literalDigits base cs (n * base + d) else none
      | none => none

/-- The base that the start of an unsigned literal announces, and its digits:
`0b`, `0o`, `0x` (in either case) before at least one more character are
base 2, 8, 16; another leading `0` is base 8; everything else is base 10. -/
def literalBase (cs : List Char) : Nat × List Char :=
  match cs with
  | c0 :: c1 :: c2 :: rest =>
    if c0 = '0' then
      if c1 = 'b' ∨ c1 = 'B' then (2, c2 :: rest)
      else if c1 = 'o' ∨ c1 = 'O' then (8, c2 :: rest)
      else if c1 = 'x' ∨ c1 = 'X' then (16, c2 :: rest)
      else (8, c1 :: c2 :: rest)
    else (10, cs)
  | c0 :: rest => if c0 = '0' then (8, rest) else (10, cs)
  | [] => (10, [])

/-- The value of `s` read as a base-prefix-aware unsigned integer literal;
`none` when `s` is not one.  Underscores must stand where Go allows them. -/
def uintLiteral (s : String) : Option Nat :=
  if s.data = [] then none
  else if (literalBase s.data).2.any (fun c => c == '_') && !underscoreOK s then none
  else literalDigits (literalBase s.data).1 (literalBase s.data).2 0

/-- The value of `s` read as a base-prefix-aware signed integer literal: an
optional sign before an unsigned literal. -/
def intLiteral (s : String) : Option Int :=
  match s.data with
  | [] => none
  | c :: rest =>
    if c = '-' then (uintLiteral ⟨rest⟩).map (fun (n : Nat) => -(n : Int))
    else if c = '+' then (uintLiteral ⟨rest⟩).map (fun (n : Nat) => (n : Int))
    else (uintLiteral s).map (fun (n : Nat) => (n : Int))

/-! ## Strings -/

theorem ToUpper_append (up : Char → Char) (a b : String) :
    ToUpper up (a ++ b) = ToUpper up a ++ ToUpper up b := by
  simp [ToUpper, String.ext_iff]

theorem ToUpper_idem (up : Char → Char) (hup : ∀ c, up (up c) = up c) (a : String) :
    ToUpper up (ToUpper up a) = ToUpper up a := by
  have h : up ∘ up = up := funext hup
  simp [ToUpper, h]

theorem ToUpper_eq_empty (up : Char → Char) (a : String) : ToUpper up a = "" ↔ a = "" := by
  simp [ToUpper, String.ext_iff]

theorem key_eq_specKey (up : Char → Char) (hup : ∀ c, up (up c) = up c) (p n a : String) :
    ToUpper up (p ++ "_" ++ (if ToUpper up a ≠ "" then ToUpper up a else n)) = specKey up p n a := by
  unfold specKey
  by_cases h : a = ""
  · simp [h, ToUpper_eq_empty]
  · have h2 : ToUpper up a ≠ "" := by simpa [ToUpper_eq_empty] using h
    simp only [h, h2, ne_eq, not_false_eq_true, if_true]
    rw [ToUpper_append, ToUpper_append _ (p ++ "_") a, ToUpper_idem up hup]

theorem toNat_ofNat_small (n : Nat) (h : n < 0xd800) : (Char.ofNat n).toNat = n := by
  have hv : n.isValidChar := Or.inl h
  unfold Char.ofNat
  rw [dif_pos hv]
  simp [Char.ofNatAux, Char.toNat, UInt32.toNat]

theorem refLib_upper_idem (c : Char) :
    refLib.toUpperRune (refLib.toUpperRune c) = refLib.toUpperRune c := by
  show Char.toUpper (Char.toUpper c) = Char.toUpper c
  unfold Char.toUpper
  by_cases h : c.toNat ≥ 97 ∧ c.toNat ≤ 122
  · have h1 : (Char.ofNat (c.toNat - 32)).toNat = c.toNat - 32 :=
      toNat_ofNat_small _ (by omega)
    have h2 : ¬ ((Char.ofNat (c.toNat - 32)).toNat ≥ 97 ∧
        (Char.ofNat (c.toNat - 32)).toNat ≤ 122) := by
      rw [h1]; omega
    simp only [h, and_self, if_true, h2, if_false]
  · simp only [h, if_false]

/-! ## Introspection -/

theorem descriptors_congr (lib : Stdlib) (pfx : String) (fs : List StructField) :
    ∀ (i : Nat) (vals vals' : List Val), (∀ j, i ≤ j → vals[j]? = vals'[j]?) →
      descriptors lib pfx fs i vals = descriptors lib pfx fs i vals' := by
  induction fs with
  | nil => intros; rfl
  | cons f rest ih =>
    intro i vals vals' h
    have h1 : ∀ d, vals.getD i d = vals'.getD i d := by
      intro d
      simp [List.getD_eq_getElem?_getD, h i (le_refl i)]
    have h2 := ih (i + 1) vals vals' (fun j hj => h j (by omega))
    simp only [descriptors, h1, h2]

theorem eligible_cond (f : StructField) :
    (!f.exported || isTrue (f.Tag.Get A_IGNORE)) = !eligible f := by
  simp only [eligible]
  cases f.exported <;> cases isTrue (f.Tag.Get A_IGNORE) <;> rfl

theorem gatherLoop_ok (lib : Stdlib) (pfx : String) (fs : List StructField) :
    ∀ (i : Nat) (vals : List Val) (acc : List varInfo),
      (gatherLoop lib pfx fs i vals acc).2.2 = none →
      gatherLoop lib pfx fs i vals acc =
        (gathered fs i vals, acc ++ descriptors lib pfx fs i vals, none) := by
  induction fs with
  | nil => intro i vals acc _; simp [gatherLoop, gathered, descriptors]
  | cons f rest ih =>
    intro i vals acc h
    unfold gatherLoop at h ⊢
    rw [eligible_cond] at h ⊢
    by_cases he : eligible f = true
    · simp only [he, Bool.not_true, Bool.false_eq_true, if_false] at h ⊢
      split at h
      · simp at h
      · rename_i hs
        rw [if_neg hs]
        rw [ih _ _ _ h]
        simp only [gathered, descriptors, he, if_true, descriptorOf, keyOf, altOf,
          List.append_assoc, List.singleton_append]
        rw [descriptors_congr lib pfx rest (i + 1)
          (vals.set i (derefLoop f.Typ (vals.getD i (zero f.Typ))).1) vals
          (fun j hj => List.getElem?_set_ne (by omega))]
    · simp only [he, Bool.not_false, if_true] at h ⊢
      rw [ih _ _ _ h]
      simp [gathered, descriptors, he]

theorem gatherInfo_ok (lib : Stdlib) (pfx : String) (m ms : TypeMeta) (fields : List StructField)
    (vals : List Val) (h : (gatherInfo lib pfx (recordPtr m ms fields vals)).2.2 = none) :
    gatherInfo lib pfx (recordPtr m ms fields vals) =
      (recordPtr m ms fields (gathered fields 0 vals), descriptors lib pfx fields 0 vals, none) := by
  unfold gatherInfo at h ⊢
  by_cases hp : pfx = ""
  · simp [hp] at h
  · simp only [hp, if_false, recordPtr] at h ⊢
    rw [gatherLoop_ok lib pfx fields 0 vals [] h]
    simp

theorem gatherInfo_bad (lib : Stdlib) (pfx : String) (spec : Option Value) (hp : pfx ≠ "")
    (hs : ∀ m ms fields vals, spec ≠ recordPtr m ms fields vals) :
    gatherInfo lib pfx spec = (spec, [], some .ErrBadSpec) := by
  unfold gatherInfo
  rw [if_neg hp]
  split
  · rename_i m ms fields vals
    exact absurd rfl (hs m ms fields vals)
  · rfl

theorem descriptors_keys (lib : Stdlib)
    (hup : ∀ c, lib.toUpperRune (lib.toUpperRune c) = lib.toUpperRune c) (pfx : String)
    (fs : List StructField) : ∀ (i : Nat) (vals : List Val),
    (descriptors lib pfx fs i vals).map (fun info => (info.Field.index, info.Name, info.Key)) =
      ((fs.enumFrom i).filter (fun p => p.2.exported && !isTrue (p.2.Tag.Get A_IGNORE))).map
        (fun p => (p.1, p.2.Name, specKey lib.toUpperRune pfx p.2.Name (p.2.Tag.Get A_ALIAS))) := by
  induction fs with
  | nil => intros; rfl
  | cons f rest ih =>
    intro i vals
    by_cases he : (f.exported && !isTrue (f.Tag.Get A_IGNORE)) = true
    · simp only [descriptors, List.enumFrom, List.filter, eligible, he, if_true, List.map_cons,
        ih (i + 1) vals, descriptorOf, keyOf, altOf, key_eq_specKey lib.toUpperRune hup]
    · simp only [Bool.not_eq_true] at he
      simp only [descriptors, List.enumFrom, List.filter, eligible, he, Bool.false_eq_true,
        if_false, ih (i + 1) vals]


/-! ## The binding loop -/

theorem loadLoop_append (lib : Stdlib) (env : Env) (pre rest : List varInfo) :
    ∀ (s : Option Value) (t : List Lookup),
      loadLoop lib env (pre ++ rest) s t =
        (match (loadLoop lib env pre s t).2.2 with
         | .nil => loadLoop lib env rest (loadLoop lib env pre s t).1 (loadLoop lib env pre s t).2.1
         | _ => loadLoop lib env pre s t) := by
  induction pre with
  | nil => intro s t; simp [loadLoop]
  | cons info pre ih =>
    intro s t
    rw [List.cons_append, loadLoop, loadLoop]
    cases h : (bindField lib env info s).2.2 with
    | nil => exact ih _ _
    | err e => rfl
    | panic => rfl

theorem fieldAt_recordPtr (m ms : TypeMeta) (fields : List StructField) (vals : List Val) (j : Nat) :
    fieldAt (recordPtr m ms fields vals) j = vals[j]? := by
  simp [fieldAt, recordPtr]

theorem updateField_recordPtr (ref : FieldRef) (f : Val → Val × Outcome) (m ms : TypeMeta)
    (fields : List StructField) (vals : List Val) :
    updateField ref f (recordPtr m ms fields vals) =
      (match vals[ref.index]? with
       | some v => (recordPtr m ms fields (vals.set ref.index (throughPtrs ref.derefs f v).1),
                    (throughPtrs ref.derefs f v).2)
       | none => (recordPtr m ms fields vals, .panic)) := by
  simp only [updateField, recordPtr, List.get?_eq_getElem?]

theorem updateField_shape (ref : FieldRef) (f : Val → Val × Outcome) (m ms : TypeMeta)
    (fields : List StructField) (vals : List Val) :
    ∃ vs, (updateField ref f (recordPtr m ms fields vals)).1 = recordPtr m ms fields vs ∧
      (∀ j, j ≠ ref.index → vs[j]? = vals[j]?) ∧
      vs[ref.index]? = (vals[ref.index]?).map (fun v => (throughPtrs ref.derefs f v).1) := by
  rw [updateField_recordPtr]
  cases h : vals[ref.index]? with
  | none => exact ⟨vals, rfl, fun _ _ => rfl, by simp [h]⟩
  | some v =>
    refine ⟨_, rfl, fun j hj => List.getElem?_set_ne (Ne.symm hj), ?_⟩
    have hlt : ref.index < vals.length := by
      by_contra hge
      rw [List.getElem?_eq_none (by omega)] at h
      cases h
    simp [List.getElem?_set_self hlt]

theorem assign_fst (lib : Stdlib) (info : varInfo) (value : String) (spec : Option Value) :
    (assign lib info value spec).1 =
      (updateField info.Field (processField lib info.Field.typ value) spec).1 := by
  unfold assign
  simp only
  split <;> rfl

theorem bindField_shape (lib : Stdlib) (env : Env) (info : varInfo) (m ms : TypeMeta)
    (fields : List StructField) (vals : List Val) :
    ∃ vs, (bindField lib env info (recordPtr m ms fields vals)).1 = recordPtr m ms fields vs ∧
      (∀ j, j ≠ info.Field.index → vs[j]? = vals[j]?) := by
  unfold bindField
  simp only
  by_cases h : (lookupVar env info).1.isSome = false ∧ info.Tags.Get A_DEFAULT = ""
  · rw [if_pos h]
    split <;> exact ⟨vals, rfl, fun _ _ => rfl⟩
  · rw [if_neg h, assign_fst]
    obtain ⟨vs, h1, h2, _⟩ := updateField_shape info.Field
      (processField lib info.Field.typ
        (if info.Tags.Get A_DEFAULT ≠ "" ∧ (lookupVar env info).1.isSome = false
          then info.Tags.Get A_DEFAULT else (lookupVar env info).1.getD "")) m ms fields vals
    exact ⟨vs, h1, h2⟩

theorem loadLoop_shape (lib : Stdlib) (env : Env) (m ms : TypeMeta) (fields : List StructField)
    (infos : List varInfo) : ∀ (vals : List Val) (t : List Lookup),
    ∃ vs, (loadLoop lib env infos (recordPtr m ms fields vals) t).1 = recordPtr m ms fields vs ∧
      (∀ j, (∀ info ∈ infos, info.Field.index ≠ j) → vs[j]? = vals[j]?) := by
  induction infos with
  | nil => intro vals t; exact ⟨vals, rfl, fun _ _ => rfl⟩
  | cons info rest ih =>
    intro vals t
    obtain ⟨vs, h1, h2⟩ := bindField_shape lib env info m ms fields vals
    simp only [loadLoop]
    cases h : (bindField lib env info (recordPtr m ms fields vals)).2.2 with
    | nil =>
      simp only
      rw [h1]
      obtain ⟨ws, h3, h4⟩ := ih vs (t ++ (bindField lib env info (recordPtr m ms fields vals)).2.1)
      refine ⟨ws, h3, fun j hj => ?_⟩
      rw [h4 j (fun i hi => hj i (List.mem_cons_of_mem _ hi))]
      exact h2 j (Ne.symm (hj info (List.mem_cons_self _ _)))
    | err e =>
      simp only
      exact ⟨vs, h1, fun j hj => h2 j (Ne.symm (hj info (List.mem_cons_self _ _)))⟩
    | panic =>
      simp only
      exact ⟨vs, h1, fun j hj => h2 j (Ne.symm (hj info (List.mem_cons_self _ _)))⟩

/-! ## Descriptors and the record after introspection -/

theorem descriptors_mem (lib : Stdlib) (pfx : String) (fs : List StructField) :
    ∀ (i : Nat) (vals : List Val) (info : varInfo), info ∈ descriptors lib pfx fs i vals →
      i ≤ info.Field.index ∧ ∃ f, fs[info.Field.index - i]? = some f ∧ eligible f = true ∧
        info = descriptorOf lib pfx info.Field.index f (vals.getD info.Field.index (zero f.Typ)) := by
  induction fs with
  | nil => intro i vals info h; simp [descriptors] at h
  | cons f rest ih =>
    intro i vals info h
    have hrec : info ∈ descriptors lib pfx rest (i + 1) vals →
        i ≤ info.Field.index ∧ ∃ f', (f :: rest)[info.Field.index - i]? = some f' ∧
          eligible f' = true ∧
          info = descriptorOf lib pfx info.Field.index f'
            (vals.getD info.Field.index (zero f'.Typ)) := by
      intro h'
      obtain ⟨h1, f', h2, h3, h4⟩ := ih (i + 1) vals info h'
      refine ⟨by omega, f', ?_, h3, h4⟩
      have : info.Field.index - i = (info.Field.index - (i + 1)) + 1 := by omega
      rw [this, List.getElem?_cons_succ]
      exact h2
    unfold descriptors at h
    by_cases he : eligible f = true
    · rw [if_pos he] at h
      rcases List.mem_cons.mp h with h | h
      · have hidx : info.Field.index = i := by rw [h]; rfl
        refine ⟨by omega, f, ?_, he, ?_⟩
        · simp [hidx]
        · rw [hidx]; exact h
      · exact hrec h
    · rw [if_neg he] at h
      exact hrec h

theorem descriptors_pairwise (lib : Stdlib) (pfx : String) (fs : List StructField) :
    ∀ (i : Nat) (vals : List Val),
      (descriptors lib pfx fs i vals).Pairwise (fun a b => a.Field.index < b.Field.index) := by
  induction fs with
  | nil => intro i vals; simp [descriptors]
  | cons f rest ih =>
    intro i vals
    unfold descriptors
    by_cases he : eligible f = true
    · rw [if_pos he]
      refine List.pairwise_cons.mpr ⟨fun b hb => ?_, ih (i + 1) vals⟩
      have := (descriptors_mem lib pfx rest (i + 1) vals b hb).1
      show i < b.Field.index
      omega
    · rw [if_neg he]
      exact ih (i + 1) vals

theorem gathered_lt (fs : List StructField) : ∀ (i : Nat) (vals : List Val) (j : Nat), j < i →
    (gathered fs i vals)[j]? = vals[j]? := by
  induction fs with
  | nil => intros; rfl
  | cons f rest ih =>
    intro i vals j hj
    unfold gathered
    split
    · rw [ih (i + 1) _ j (by omega), List.getElem?_set_ne (by omega)]
    · exact ih (i + 1) _ j (by omega)

theorem set_getD_getElem? (vals : List Val) (i : Nat) (z : Val) (g : Val → Val) :
    (vals.set i (g (vals.getD i z)))[i]? = (vals[i]?).map g := by
  by_cases h : i < vals.length
  · simp [List.getElem?_set_self h, List.getD_eq_getElem?_getD, List.getElem?_eq_getElem h]
  · have h' : vals.length ≤ i := Nat.le_of_not_lt h
    rw [List.getElem?_eq_none h', List.getElem?_eq_none (by simpa using h')]
    rfl

theorem gathered_eligible (fs : List StructField) :
    ∀ (i : Nat) (vals : List Val) (j : Nat) (f : StructField), i ≤ j → fs[j - i]? = some f →
      eligible f = true →
      (gathered fs i vals)[j]? = (vals[j]?).map (fun v => (derefLoop f.Typ v).1) := by
  induction fs with
  | nil => intro i vals j f _ h; simp at h
  | cons f0 rest ih =>
    intro i vals j f hij hf he
    unfold gathered
    by_cases hji : j = i
    · subst hji
      simp only [Nat.sub_self, List.getElem?_cons_zero, Option.some.injEq] at hf
      subst hf
      rw [if_pos he, gathered_lt rest (j + 1) _ j (by omega)]
      exact set_getD_getElem? vals j (zero f0.Typ) (fun v => (derefLoop f0.Typ v).1)
    · have hstep : j - i = (j - (i + 1)) + 1 := by omega
      rw [hstep, List.getElem?_cons_succ] at hf
      split
      · rw [ih (i + 1) _ j f (by omega) hf he, List.getElem?_set_ne (by omega)]
      · exact ih (i + 1) _ j f (by omega) hf he

theorem Load_of_gathered (lib : Stdlib) (env : Env) (pfx : String) (spec : Option Value)
    (h : (gatherInfo lib pfx spec).2.2 = none) :
    Load lib env pfx spec =
      ⟨(loadLoop lib env (gatherInfo lib pfx spec).2.1 (gatherInfo lib pfx spec).1 []).1,
       (loadLoop lib env (gatherInfo lib pfx spec).2.1 (gatherInfo lib pfx spec).1 []).2.1,
       (loadLoop lib env (gatherInfo lib pfx spec).2.1 (gatherInfo lib pfx spec).1 []).2.2⟩ := by
  unfold Load
  simp only [h]
  split <;> simp_all

/-- What reaching a descriptor gives: the field it describes, the state of
that field, and how the outcome of `Load` follows from the outcome of the
descriptor's own pass through the loop body. -/
theorem Load_of_reaches (lib : Stdlib) (env : Env) (pfx : String) (m ms : TypeMeta)
    (fields : List StructField) (vals : List Val) (info : varInfo) (st : Option Value)
    (h : Reaches lib env pfx (recordPtr m ms fields vals) info st) :
    ∃ f vs trace, fields[info.Field.index]? = some f ∧ eligible f = true ∧
      info = descriptorOf lib pfx info.Field.index f
        (vals.getD info.Field.index (zero f.Typ)) ∧
      st = recordPtr m ms fields vs ∧
      vs[info.Field.index]? = (vals[info.Field.index]?).map (fun v => (derefLoop f.Typ v).1) ∧
      ((bindField lib env info st).2.2 ≠ .nil →
        Load lib env pfx (recordPtr m ms fields vals) =
          ⟨(bindField lib env info st).1, trace ++ (bindField lib env info st).2.1,
           (bindField lib env info st).2.2⟩) ∧
      fieldAt (Load lib env pfx (recordPtr m ms fields vals)).spec info.Field.index =
        fieldAt (bindField lib env info st).1 info.Field.index := by
  obtain ⟨hok, pre, post, trace, hinfos, hloop⟩ := h
  have hL := Load_of_gathered lib env pfx _ hok
  rw [gatherInfo_ok lib pfx m ms fields vals hok] at hinfos hloop hL
  simp only at hinfos hloop hL
  have hmem : info ∈ descriptors lib pfx fields 0 vals := by
    rw [hinfos]; simp
  obtain ⟨_, f, hf, he, hinfo⟩ := descriptors_mem lib pfx fields 0 vals info hmem
  simp only [Nat.sub_zero] at hf
  have hpw := descriptors_pairwise lib pfx fields 0 vals
  rw [hinfos, List.pairwise_append] at hpw
  obtain ⟨_, hpw2, hpw3⟩ := hpw
  have hpre : ∀ x ∈ pre, x.Field.index ≠ info.Field.index := fun x hx =>
    Nat.ne_of_lt (hpw3 x hx info (List.mem_cons_self _ _))
  have hpost : ∀ x ∈ post, x.Field.index ≠ info.Field.index := fun x hx =>
    Ne.symm (Nat.ne_of_lt ((List.pairwise_cons.mp hpw2).1 x hx))
  obtain ⟨vs, hvs1, hvs2⟩ := loadLoop_shape lib env m ms fields pre (gathered fields 0 vals) []
  rw [hloop] at hvs1
  simp only at hvs1
  have hvs3 : vs[info.Field.index]? =
      (vals[info.Field.index]?).map (fun v => (derefLoop f.Typ v).1) := by
    rw [hvs2 _ hpre]
    exact gathered_eligible fields 0 vals _ f (Nat.zero_le _) (by simpa using hf) he
  have hrun : loadLoop lib env (descriptors lib pfx fields 0 vals)
      (recordPtr m ms fields (gathered fields 0 vals)) [] =
      (match (bindField lib env info st).2.2 with
       | .nil => loadLoop lib env post (bindField lib env info st).1
           (trace ++ (bindField lib env info st).2.1)
       | o => ((bindField lib env info st).1, trace ++ (bindField lib env info st).2.1, o)) := by
    rw [hinfos, loadLoop_append, hloop]
    simp only
    rw [loadLoop]
  refine ⟨f, vs, trace, hf, he, hinfo, hvs1, hvs3, ?_, ?_⟩
  · intro hne
    rw [hL, hrun]
    cases hb : (bindField lib env info st).2.2 with
    | nil => exact absurd hb hne
    | err e => rfl
    | panic => rfl
  · rw [hL, hrun]
    cases hb : (bindField lib env info st).2.2 with
    | nil =>
      simp only
      obtain ⟨ws, hws1, _⟩ := bindField_shape lib env info m ms fields vs
      rw [← hvs1] at hws1
      rw [hws1]
      obtain ⟨us, hus1, hus2⟩ := loadLoop_shape lib env m ms fields post ws
        (trace ++ (bindField lib env info st).2.1)
      rw [hus1, fieldAt_recordPtr, fieldAt_recordPtr]
      exact hus2 _ hpost
    | err e => rfl
    | panic => rfl

/-! ## One pass through the loop body -/

theorem lookupVar_key (env : Env) (info : varInfo) (v : String) (h : env info.Key = some v) :
    lookupVar env info = (some v, [(info.Field.index, info.Key)]) := by
  simp [lookupVar, h]

theorem lookupVar_alt (env : Env) (info : varInfo) (h : env info.Key = none)
    (ha : info.Alt ≠ "") :
    lookupVar env info =
      (env info.Alt, [(info.Field.index, info.Key), (info.Field.index, info.Alt)]) := by
  simp [lookupVar, h, ha]

theorem lookupVar_absent (env : Env) (info : varInfo) (h : env info.Key = none)
    (ha : info.Alt ≠ "" → env info.Alt = none) : (lookupVar env info).1 = none := by
  unfold lookupVar
  rw [h]
  simp only
  split
  · rename_i hne; exact ha hne
  · rfl

theorem bindField_found (lib : Stdlib) (env : Env) (info : varInfo) (spec : Option Value)
    (v : String) (h : (lookupVar env info).1 = some v) :
    bindField lib env info spec =
      ((assign lib info v spec).1, (lookupVar env info).2, (assign lib info v spec).2) := by
  simp [bindField, h]

theorem bindField_default (lib : Stdlib) (env : Env) (info : varInfo) (spec : Option Value)
    (h : (lookupVar env info).1 = none) (hd : info.Tags.Get A_DEFAULT ≠ "") :
    bindField lib env info spec =
      ((assign lib info (info.Tags.Get A_DEFAULT) spec).1, (lookupVar env info).2,
       (assign lib info (info.Tags.Get A_DEFAULT) spec).2) := by
  simp [bindField, h, hd]

theorem bindField_required (lib : Stdlib) (env : Env) (info : varInfo) (spec : Option Value)
    (h : (lookupVar env info).1 = none) (hd : info.Tags.Get A_DEFAULT = "")
    (hr : isTrue (info.Tags.Get A_REQUIRE) = true) :
    bindField lib env info spec =
      (spec, (lookupVar env info).2, .err (.requiredKeyMissing info.Key)) := by
  simp [bindField, h, hd, hr]

theorem bindField_skip (lib : Stdlib) (env : Env) (info : varInfo) (spec : Option Value)
    (h : (lookupVar env info).1 = none) (hd : info.Tags.Get A_DEFAULT = "")
    (hr : isTrue (info.Tags.Get A_REQUIRE) = false) :
    bindField lib env info spec = (spec, (lookupVar env info).2, .nil) := by
  simp [bindField, h, hd, hr]

theorem assign_outcome (lib : Stdlib) (info : varInfo) (raw : String) (spec : Option Value) :
    (assign lib info raw spec).2 = .nil ∨ (assign lib info raw spec).2 = .panic ∨
      ∃ e, (assign lib info raw spec).2 =
        .err (.ParseError info.Key info.Name info.Field.typ.String raw e) := by
  unfold assign
  simp only
  cases h : (updateField info.Field (processField lib info.Field.typ raw) spec).2 with
  | nil => exact Or.inl rfl
  | err e => exact Or.inr (Or.inr ⟨e, rfl⟩)
  | panic => exact Or.inr (Or.inl rfl)

theorem assign_not_required (lib : Stdlib) (info : varInfo) (raw : String) (spec : Option Value)
    (k : String) : (assign lib info raw spec).2 ≠ .err (.requiredKeyMissing k) := by
  rcases assign_outcome lib info raw spec with h | h | ⟨e, h⟩ <;> rw [h] <;> simp

theorem derefLoop_nonptr (t : Ty) (v : Val) (h : t.isPtr = false) : derefLoop t v = (v, t, 0) := by
  cases t <;> first | rfl | simp [Ty.isPtr] at h

theorem derefLoop_nil_nonstruct (m : TypeMeta) (elem : Ty) (h : elem.isStruct = false) :
    derefLoop (.ptr m elem) (.ptr none) = (.ptr none, .ptr m elem, 0) := by
  simp [derefLoop, h]

theorem fieldAt_assign_described (lib : Stdlib) (pfx : String) (m ms : TypeMeta)
    (fields : List StructField) (vals vs : List Val) (i : Nat) (f : StructField) (raw : String)
    (hvs : vs[i]? = (vals[i]?).map (fun v => (derefLoop f.Typ v).1)) :
    fieldAt (assign lib (descriptorOf lib pfx i f (vals.getD i (zero f.Typ))) raw
        (recordPtr m ms fields vs)).1 i =
      (vals[i]?).map (boundValue lib f.Typ raw) := by
  rw [assign_fst]
  obtain ⟨ws, h1, _, h3⟩ := updateField_shape
    (descriptorOf lib pfx i f (vals.getD i (zero f.Typ))).Field
    (processField lib (descriptorOf lib pfx i f (vals.getD i (zero f.Typ))).Field.typ raw)
    m ms fields vs
  rw [h1, fieldAt_recordPtr]
  simp only [descriptorOf] at h3 ⊢
  rw [h3, hvs]
  cases hv : vals[i]? with
  | none => rfl
  | some x =>
    simp only [Option.map_some', boundValue, List.getD_eq_getElem?_getD, hv, Option.getD_some]

/-- When the pass for a reached descriptor assigns the string `raw`, the
field ends as the coercion of `raw` leaves it, and a failure of the coercion
is the outcome of `Load`. -/
theorem Load_bound (lib : Stdlib) (env : Env) (pfx : String) (m ms : TypeMeta)
    (fields : List StructField) (vals : List Val) (i : Nat) (f : StructField)
    (info : varInfo) (st : Option Value) (raw : String) (looks : List Lookup)
    (hf : fields[i]? = some f)
    (hreach : Reaches lib env pfx (recordPtr m ms fields vals) info st)
    (hidx : info.Field.index = i)
    (hb : bindField lib env info st =
      ((assign lib info raw st).1, looks, (assign lib info raw st).2)) :
    fieldAt (Load lib env pfx (recordPtr m ms fields vals)).spec i =
      (vals[i]?).map (boundValue lib f.Typ raw) ∧
    ((bindField lib env info st).2.2 ≠ .nil →
      (Load lib env pfx (recordPtr m ms fields vals)).err = (bindField lib env info st).2.2) := by
  obtain ⟨f', vs, trace, hf', _, hinfo, hst, hvs, hfail, hfield⟩ :=
    Load_of_reaches lib env pfx m ms fields vals info st hreach
  rw [hidx] at hf' hvs hfield hinfo
  rw [hf] at hf'
  cases hf'
  refine ⟨?_, fun hne => by rw [hfail hne]⟩
  rw [hfield, hb, hst, hinfo]
  exact fieldAt_assign_described lib pfx m ms fields vals vs i f raw hvs

theorem described_tags (lib : Stdlib) (env : Env) (pfx : String) (m ms : TypeMeta)
    (fields : List StructField) (vals : List Val) (i : Nat) (f : StructField)
    (info : varInfo) (st : Option Value)
    (hf : fields[i]? = some f)
    (hreach : Reaches lib env pfx (recordPtr m ms fields vals) info st)
    (hidx : info.Field.index = i) :
    info = descriptorOf lib pfx i f (vals.getD i (zero f.Typ)) ∧
      ∃ vs, st = recordPtr m ms fields vs ∧
        vs[i]? = (vals[i]?).map (fun v => (derefLoop f.Typ v).1) := by
  obtain ⟨f', vs, trace, hf', _, hinfo, hst, hvs, _, _⟩ :=
    Load_of_reaches lib env pfx m ms fields vals info st hreach
  rw [hidx] at hf' hvs hinfo
  rw [hf] at hf'
  cases hf'
  exact ⟨hinfo, vs, hst, hvs⟩

theorem processField_string (lib : Stdlib) (mt : TypeMeta) (hs : mt.Set = none)
    (hu : mt.UnmarshalText = none) (raw : String) (x : Val) :
    processField lib (.string mt) raw x = (.str raw, .nil) := by
  simp [processField, setterFrom, textUnmarshaler, methodFrom, Ty.meta, hs, hu, kindSwitch]

theorem TrimSpace_empty : TrimSpace "" = "" := by decide

theorem processField_map_empty (lib : Stdlib) (mt : TypeMeta) (k e : Ty) (hs : mt.Set = none)
    (hu : mt.UnmarshalText = none) (x : Val) :
    processField lib (.map mt k e) "" x = (.map (some []), .nil) := by
  simp [processField, setterFrom, textUnmarshaler, methodFrom, Ty.meta, hs, hu, kindSwitch,
    TrimSpace_empty]

theorem assign_direct (lib : Stdlib) (info : varInfo) (raw : String) (m ms : TypeMeta)
    (fields : List StructField) (vs : List Val) (x y : Val)
    (hx : vs[info.Field.index]? = some x) (hd : info.Field.derefs = 0)
    (hp : processField lib info.Field.typ raw x = (y, .nil)) :
    (assign lib info raw (recordPtr m ms fields vs)).2 = .nil := by
  unfold assign
  rw [updateField_recordPtr, hx, hd]
  simp [throughPtrs, hp]

/-- The handle of a descriptor reaches its value: following the pointers that
`gatherInfo` followed never faults, so the outcome of running `f` through the
handle is the outcome of `f` on the value reached. -/
theorem throughPtrs_derefLoop : ∀ (t : Ty) (x : Val) (f : Val → Val × Outcome),
    ∃ leaf, (throughPtrs (derefLoop t x).2.2 f (derefLoop t x).1).2 = (f leaf).2
  | .ptr m elem, x, f => by
    unfold derefLoop
    split
    · rename_i p
      obtain ⟨leaf, h⟩ := throughPtrs_derefLoop elem p f
      exact ⟨leaf, by simpa [throughPtrs] using h⟩
    · split
      · obtain ⟨leaf, h⟩ := throughPtrs_derefLoop elem (zero elem) f
        exact ⟨leaf, by simpa [throughPtrs] using h⟩
      · exact ⟨x, rfl⟩
  | .bool _, x, _ => ⟨x, rfl⟩
  | .int _ _, x, _ => ⟨x, rfl⟩
  | .uint _ _, x, _ => ⟨x, rfl⟩
  | .float _ _, x, _ => ⟨x, rfl⟩
  | .string _, x, _ => ⟨x, rfl⟩
  | .slice _ _, x, _ => ⟨x, rfl⟩
  | .map _ _ _, x, _ => ⟨x, rfl⟩
  | .struct _ _, x, _ => ⟨x, rfl⟩
  | .other _ _, x, _ => ⟨x, rfl⟩

/-! ## Fields without a descriptor -/

theorem gatherLoop_err (lib : Stdlib) (pfx : String) (fs : List StructField) :
    ∀ (i : Nat) (vals : List Val) (acc : List varInfo) (e : GoError),
      (gatherLoop lib pfx fs i vals acc).2.2 = some e →
      (gatherLoop lib pfx fs i vals acc).2.1 = [] ∧ ∃ n, e = .structNeedsSetter n := by
  induction fs with
  | nil => intro i vals acc e h; simp [gatherLoop] at h
  | cons f rest ih =>
    intro i vals acc e h
    unfold gatherLoop at h ⊢
    split at h
    · rename_i hc
      rw [if_pos hc]
      exact ih _ _ _ e h
    · rename_i hc
      rw [if_neg hc]
      simp only at h ⊢
      split at h
      · rename_i hs
        rw [if_pos hs]
        simp only [Option.some.injEq] at h
        exact ⟨rfl, _, h.symm⟩
      · rename_i hs
        rw [if_neg hs]
        exact ih _ _ _ e h

theorem gatherLoop_frame (lib : Stdlib) (pfx : String) (fs : List StructField) :
    ∀ (i : Nat) (vals : List Val) (acc : List varInfo) (j : Nat),
      (j < i ∨ ∀ f, fs[j - i]? = some f → eligible f = false) →
      (gatherLoop lib pfx fs i vals acc).1[j]? = vals[j]? := by
  induction fs with
  | nil => intros; rfl
  | cons f0 rest ih =>
    intro i vals acc j hj
    have hrest : j < i + 1 ∨ ∀ f, rest[j - (i + 1)]? = some f → eligible f = false := by
      by_cases hlt : j < i + 1
      · exact Or.inl hlt
      · right
        intro f hf
        rcases hj with hj | hj
        · omega
        · apply hj f
          have : j - i = (j - (i + 1)) + 1 := by omega
          rw [this, List.getElem?_cons_succ]
          exact hf
    unfold gatherLoop
    rw [eligible_cond]
    by_cases he : eligible f0 = true
    · have hne : i ≠ j := by
        intro hij
        rcases hj with hj | hj
        · omega
        · have := hj f0 (by simp [hij])
          rw [he] at this
          cases this
      simp only [he, Bool.not_true, Bool.false_eq_true, if_false]
      split
      · exact List.getElem?_set_ne hne
      · rw [ih _ _ _ j hrest]
        exact List.getElem?_set_ne hne
    · simp only [he, Bool.not_false, if_true]
      exact ih _ _ _ j hrest

theorem gatherLoop_cases (lib : Stdlib) (pfx : String) (fs : List StructField) :
    ∀ (i : Nat) (vals : List Val) (acc : List varInfo) (j : Nat) (f : StructField),
      i ≤ j → fs[j - i]? = some f →
      (gatherLoop lib pfx fs i vals acc).1[j]? = vals[j]? ∨
      (gatherLoop lib pfx fs i vals acc).1[j]? =
        (vals[j]?).map (fun v => (derefLoop f.Typ v).1) := by
  induction fs with
  | nil => intro i vals acc j f _ h; simp at h
  | cons f0 rest ih =>
    intro i vals acc j f hij hf
    unfold gatherLoop
    rw [eligible_cond]
    by_cases hji : j = i
    · subst hji
      simp only [Nat.sub_self, List.getElem?_cons_zero, Option.some.injEq] at hf
      subst hf
      by_cases he : eligible f0 = true
      · simp only [he, Bool.not_true, Bool.false_eq_true, if_false]
        right
        split
        · exact set_getD_getElem? vals j (zero f0.Typ) (fun v => (derefLoop f0.Typ v).1)
        · rw [gatherLoop_frame lib pfx rest (j + 1) _ _ j (Or.inl (by omega))]
          exact set_getD_getElem? vals j (zero f0.Typ) (fun v => (derefLoop f0.Typ v).1)
      · simp only [he, Bool.not_false, if_true]
        left
        exact gatherLoop_frame lib pfx rest (j + 1) _ _ j (Or.inl (by omega))
    · have hstep : j - i = (j - (i + 1)) + 1 := by omega
      rw [hstep, List.getElem?_cons_succ] at hf
      by_cases he : eligible f0 = true
      · simp only [he, Bool.not_true, Bool.false_eq_true, if_false]
        split
        · left
          exact List.getElem?_set_ne (by omega)
        · have := ih (i + 1) (vals.set i (derefLoop f0.Typ (vals.getD i (zero f0.Typ))).1)
            (acc ++ [{ Name := f0.Name,
                       Field := ⟨i, (derefLoop f0.Typ (vals.getD i (zero f0.Typ))).2.2,
                         (derefLoop f0.Typ (vals.getD i (zero f0.Typ))).2.1⟩,
                       Tags := f0.Tag,
                       Alt := ToUpper lib.toUpperRune (f0.Tag.Get A_ALIAS),
                       Key := ToUpper lib.toUpperRune (pfx ++ "_" ++
                         (if ToUpper lib.toUpperRune (f0.Tag.Get A_ALIAS) ≠ "" then
                           ToUpper lib.toUpperRune (f0.Tag.Get A_ALIAS) else f0.Name)) }])
            j f (by omega) hf
          rw [List.getElem?_set_ne (by omega)] at this
          exact this
      · simp only [he, Bool.not_false, if_true]
        exact ih (i + 1) vals acc j f (by omega) hf

theorem gatherInfo_record (lib : Stdlib) (pfx : String) (m ms : TypeMeta)
    (fields : List StructField) (vals : List Val) :
    ∃ vs, (gatherInfo lib pfx (recordPtr m ms fields vals)).1 = recordPtr m ms fields vs ∧
      (∀ j : Nat, (∀ f, fields[j]? = some f → eligible f = false) → vs[j]? = vals[j]?) ∧
      (∀ (j : Nat) (f : StructField), fields[j]? = some f →
        vs[j]? = vals[j]? ∨ vs[j]? = (vals[j]?).map (fun v => (derefLoop f.Typ v).1)) ∧
      (∀ info ∈ (gatherInfo lib pfx (recordPtr m ms fields vals)).2.1,
        ∃ f, fields[info.Field.index]? = some f ∧ eligible f = true ∧
          info = descriptorOf lib pfx info.Field.index f
            (vals.getD info.Field.index (zero f.Typ))) ∧
      (∀ e k, (gatherInfo lib pfx (recordPtr m ms fields vals)).2.2 = some e →
        e ≠ .requiredKeyMissing k) := by
  unfold gatherInfo
  by_cases hp : pfx = ""
  · rw [if_pos hp]
    refine ⟨vals, rfl, fun _ _ => rfl, fun _ _ _ => Or.inl rfl, ?_, ?_⟩
    · intro info h; simp at h
    · intro e k h
      simp only [Option.some.injEq] at h
      rw [← h]; simp
  · rw [if_neg hp]
    simp only [recordPtr]
    refine ⟨_, rfl, ?_, ?_, ?_, ?_⟩
    · intro j hj
      exact gatherLoop_frame lib pfx fields 0 vals [] j (Or.inr (by simpa using hj))
    · intro j f hf
      exact gatherLoop_cases lib pfx fields 0 vals [] j f (Nat.zero_le _) (by simpa using hf)
    · intro info hmem
      cases herr : (gatherLoop lib pfx fields 0 vals []).2.2 with
      | none =>
        rw [gatherLoop_ok lib pfx fields 0 vals [] herr] at hmem
        simp only [List.nil_append] at hmem
        obtain ⟨_, f, h1, h2, h3⟩ := descriptors_mem lib pfx fields 0 vals info hmem
        exact ⟨f, by simpa using h1, h2, h3⟩
      | some e =>
        rw [(gatherLoop_err lib pfx fields 0 vals [] e herr).1] at hmem
        simp at hmem
    · intro e k h
      obtain ⟨_, n, hn⟩ := gatherLoop_err lib pfx fields 0 vals [] e h
      rw [hn]; simp

theorem bindField_lookups (lib : Stdlib) (env : Env) (info : varInfo) (spec : Option Value) :
    ∀ l ∈ (bindField lib env info spec).2.1,
      l.1 = info.Field.index ∧ (l.2 = info.Key ∨ l.2 = info.Alt) := by
  have h1 : (bindField lib env info spec).2.1 = (lookupVar env info).2 := by
    unfold bindField
    simp only
    split
    · split <;> rfl
    · rfl
  rw [h1]
  unfold lookupVar
  intro l hl
  split at hl
  · simp at hl; rw [hl]; exact ⟨rfl, Or.inl rfl⟩
  · split at hl
    · simp at hl
      rcases hl with hl | hl <;> rw [hl]
      · exact ⟨rfl, Or.inl rfl⟩
      · exact ⟨rfl, Or.inr rfl⟩
    · simp at hl; rw [hl]; exact ⟨rfl, Or.inl rfl⟩

theorem bindField_required_key (lib : Stdlib) (env : Env) (info : varInfo) (spec : Option Value)
    (k : String) (h : (bindField lib env info spec).2.2 = .err (.requiredKeyMissing k)) :
    info.Key = k := by
  unfold bindField at h
  simp only at h
  split at h
  · split at h
    · simpa using h
    · simp at h
  · exact absurd h (assign_not_required lib info _ spec k)

theorem loadLoop_trace (lib : Stdlib) (env : Env) (infos : List varInfo) :
    ∀ (s : Option Value) (t : List Lookup),
      (∀ l ∈ (loadLoop lib env infos s t).2.1,
        l ∈ t ∨ ∃ info ∈ infos, l.1 = info.Field.index ∧ (l.2 = info.Key ∨ l.2 = info.Alt)) ∧
      (∀ k, (loadLoop lib env infos s t).2.2 = .err (.requiredKeyMissing k) →
        ∃ info ∈ infos, info.Key = k) := by
  induction infos with
  | nil =>
    intro s t
    simp [loadLoop]
  | cons info rest ih =>
    intro s t
    have hl := bindField_lookups lib env info s
    have hk := bindField_required_key lib env info s
    have hstop : ∀ l ∈ t ++ (bindField lib env info s).2.1,
        l ∈ t ∨ ∃ x ∈ info :: rest, l.1 = x.Field.index ∧ (l.2 = x.Key ∨ l.2 = x.Alt) := by
      intro l hmem
      rcases List.mem_append.mp hmem with h | h
      · exact Or.inl h
      · exact Or.inr ⟨info, List.mem_cons_self _ _, hl l h⟩
    rw [loadLoop]
    cases hb : (bindField lib env info s).2.2 with
    | nil =>
      simp only
      obtain ⟨ih1, ih2⟩ := ih (bindField lib env info s).1 (t ++ (bindField lib env info s).2.1)
      constructor
      · intro l hmem
        rcases ih1 l hmem with h | ⟨x, hx, hxl⟩
        · exact hstop l h
        · exact Or.inr ⟨x, List.mem_cons_of_mem _ hx, hxl⟩
      · intro k h
        obtain ⟨x, hx, hxk⟩ := ih2 k h
        exact ⟨x, List.mem_cons_of_mem _ hx, hxk⟩
    | err e =>
      simp only
      refine ⟨hstop, fun k h => ⟨info, List.mem_cons_self _ _, hk k ?_⟩⟩
      rw [hb]; exact h
    | panic =>
      simp only
      exact ⟨hstop, fun k h => by simp at h⟩

theorem loadLoop_untouched (lib : Stdlib) (env : Env) (m ms : TypeMeta)
    (fields : List StructField) (infos : List varInfo) (j : Nat) :
    ∀ (vals : List Val) (t : List Lookup),
      (∀ info ∈ infos, info.Field.index = j → ∀ s, (bindField lib env info s).1 = s) →
      ∃ ws, (loadLoop lib env infos (recordPtr m ms fields vals) t).1 = recordPtr m ms fields ws ∧
        ws[j]? = vals[j]? := by
  induction infos with
  | nil => intro vals t _; exact ⟨vals, rfl, rfl⟩
  | cons info rest ih =>
    intro vals t h
    have hstep : ∃ vs, (bindField lib env info (recordPtr m ms fields vals)).1 =
        recordPtr m ms fields vs ∧ vs[j]? = vals[j]? := by
      by_cases hidx : info.Field.index = j
      · exact ⟨vals, h info (List.mem_cons_self _ _) hidx _, rfl⟩
      · obtain ⟨vs, h1, h2⟩ := bindField_shape lib env info m ms fields vals
        exact ⟨vs, h1, h2 j (Ne.symm hidx)⟩
    obtain ⟨vs, h1, h2⟩ := hstep
    rw [loadLoop]
    cases hb : (bindField lib env info (recordPtr m ms fields vals)).2.2 with
    | nil =>
      simp only
      rw [h1]
      obtain ⟨ws, h3, h4⟩ := ih vs
        (t ++ (bindField lib env info (recordPtr m ms fields vals)).2.1)
        (fun x hx => h x (List.mem_cons_of_mem _ hx))
      exact ⟨ws, h3, by rw [h4, h2]⟩
    | err e => exact ⟨vs, h1, h2⟩
    | panic => exact ⟨vs, h1, h2⟩

theorem loadLoop_fails (lib : Stdlib) (env : Env) (infos : List varInfo) (info : varInfo)
    (hmem : info ∈ infos) (hfail : ∀ s, (bindField lib env info s).2.2 ≠ .nil) :
    ∀ (s : Option Value) (t : List Lookup), (loadLoop lib env infos s t).2.2 ≠ .nil := by
  induction infos with
  | nil => simp at hmem
  | cons x rest ih =>
    intro s t
    rw [loadLoop]
    cases hb : (bindField lib env x s).2.2 with
    | nil =>
      simp only
      rcases List.mem_cons.mp hmem with h | h
      · rw [← h] at hb
        exact absurd hb (hfail s)
      · exact ih h _ _
    | err e => simp
    | panic => simp

theorem descriptors_complete (lib : Stdlib) (pfx : String) (fs : List StructField) :
    ∀ (i : Nat) (vals : List Val) (j : Nat) (f : StructField), i ≤ j → fs[j - i]? = some f →
      eligible f = true →
      descriptorOf lib pfx j f (vals.getD j (zero f.Typ)) ∈ descriptors lib pfx fs i vals := by
  induction fs with
  | nil => intro i vals j f _ h; simp at h
  | cons f0 rest ih =>
    intro i vals j f hij hf he
    unfold descriptors
    by_cases hji : j = i
    · subst hji
      simp only [Nat.sub_self, List.getElem?_cons_zero, Option.some.injEq] at hf
      subst hf
      rw [if_pos he]
      exact List.mem_cons_self _ _
    · have hstep : j - i = (j - (i + 1)) + 1 := by omega
      rw [hstep, List.getElem?_cons_succ] at hf
      have := ih (i + 1) vals j f (by omega) hf he
      split
      · exact List.mem_cons_of_mem _ this
      · exact this

theorem Load_spec (lib : Stdlib) (env : Env) (pfx : String) (spec : Option Value) :
    (Load lib env pfx spec).spec =
      (loadLoop lib env (gatherInfo lib pfx spec).2.1 (gatherInfo lib pfx spec).1 []).1 ∧
    (Load lib env pfx spec).lookups =
      (loadLoop lib env (gatherInfo lib pfx spec).2.1 (gatherInfo lib pfx spec).1 []).2.1 := by
  unfold Load
  simp only
  split
  · split <;> exact ⟨rfl, rfl⟩
  · exact ⟨rfl, rfl⟩

/-- A field whose pass through the loop body never changes the record ends
either as it was or as introspection leaves it. -/
theorem Load_field_cases (lib : Stdlib) (env : Env) (pfx : String) (m ms : TypeMeta)
    (fields : List StructField) (vals : List Val) (i : Nat) (f : StructField)
    (hf : fields[i]? = some f)
    (hpass : ∀ v s, (bindField lib env (descriptorOf lib pfx i f v) s).1 = s) :
    fieldAt (Load lib env pfx (recordPtr m ms fields vals)).spec i = vals[i]? ∨
    fieldAt (Load lib env pfx (recordPtr m ms fields vals)).spec i =
      (vals[i]?).map (fun v => (derefLoop f.Typ v).1) := by
  obtain ⟨vs, hspec, _, hcases, hinfos, _⟩ := gatherInfo_record lib pfx m ms fields vals
  obtain ⟨ws, hws, hwi⟩ := loadLoop_untouched lib env m ms fields
    (gatherInfo lib pfx (recordPtr m ms fields vals)).2.1 i vs []
    (by
      intro info hmem hidx s
      obtain ⟨f', hf', _, hinfo⟩ := hinfos info hmem
      rw [hidx] at hf' hinfo
      rw [hf] at hf'
      cases hf'
      rw [hinfo]
      exact hpass _ s)
  rw [← hspec] at hws
  rw [(Load_spec lib env pfx _).1, hws, fieldAt_recordPtr, hwi]
  exact hcases i f hf

/-- A settable, non-ignored field whose pass through the loop body always
fails makes `Load` fail. -/
theorem Load_fails (lib : Stdlib) (env : Env) (pfx : String) (m ms : TypeMeta)
    (fields : List StructField) (vals : List Val) (i : Nat) (f : StructField)
    (hf : fields[i]? = some f) (he : eligible f = true)
    (hfail : ∀ v s, (bindField lib env (descriptorOf lib pfx i f v) s).2.2 ≠ .nil) :
    (Load lib env pfx (recordPtr m ms fields vals)).err ≠ .nil := by
  cases hg : (gatherInfo lib pfx (recordPtr m ms fields vals)).2.2 with
  | some e =>
    unfold Load
    simp only [hg]
    split
    · simp
    · rename_i o ho
      intro h
      exact ho h
  | none =>
    rw [Load_of_gathered lib env pfx _ hg, gatherInfo_ok lib pfx m ms fields vals hg]
    simp only
    exact loadLoop_fails lib env _ _
      (descriptors_complete lib pfx fields 0 vals i f (Nat.zero_le _) (by simpa using hf) he)
      (hfail _) _ _

/-! ## The dispatch of `processField` -/

/-- The body of `processField`, with the built-in rules named. -/
theorem processField_eq (lib : Stdlib) (typ : Ty) (raw : String) (x : Val) :
    processField lib typ raw x =
      (match setterFrom typ with
       | some s => invoke s typ raw x
       | none =>
         match textUnmarshaler typ with
         | some t => invoke t typ raw x
         | none =>
           match typ with
           | .ptr _ elem =>
             (.ptr (some (builtinRule lib elem raw (pointeeOf elem x)).1),
               (builtinRule lib elem raw (pointeeOf elem x)).2)
           | _ => builtinRule lib typ raw x) := by
  cases typ with
  | ptr m elem =>
    cases elem <;>
      (cases x with
       | ptr t => cases t <;> (simp only [processField]; rfl)
       | _ => (simp only [processField]; rfl))
  | _ => simp only [processField]; rfl

theorem processField_setter (lib : Stdlib) (typ : Ty) (raw : String) (x : Val) (s : Method)
    (hs : setterFrom typ = some s) : processField lib typ raw x = invoke s typ raw x := by
  rw [processField_eq]
  simp only [hs]

theorem processField_unmarshaler (lib : Stdlib) (typ : Ty) (raw : String) (x : Val) (t : Method)
    (hs : setterFrom typ = none) (ht : textUnmarshaler typ = some t) :
    processField lib typ raw x = invoke t typ raw x := by
  rw [processField_eq]
  simp only [hs, ht]

theorem processField_builtin (lib : Stdlib) (typ : Ty) (raw : String) (x : Val)
    (hs : setterFrom typ = none) (ht : textUnmarshaler typ = none) (hp : typ.isPtr = false) :
    processField lib typ raw x = builtinRule lib typ raw x := by
  rw [processField_eq]
  simp only [hs, ht]
  cases typ <;> first | rfl | simp [Ty.isPtr] at hp

theorem processField_ptr (lib : Stdlib) (m : TypeMeta) (elem : Ty) (raw : String) (x : Val)
    (hs : setterFrom (.ptr m elem) = none) (ht : textUnmarshaler (.ptr m elem) = none) :
    processField lib (.ptr m elem) raw x =
      (.ptr (some (builtinRule lib elem raw (pointeeOf elem x)).1),
        (builtinRule lib elem raw (pointeeOf elem x)).2) := by
  rw [processField_eq]
  simp only [hs, ht]

theorem invoke_nonptr (s : Method) (typ : Ty) (raw : String) (x : Val) (hp : typ.isPtr = false) :
    invoke s typ raw x = s.call raw x := by
  cases typ <;> first | rfl | simp [Ty.isPtr] at hp

/-- A built-in rule that does not end well leaves the destination as it was. -/
theorem builtinRule_fail_unchanged (lib : Stdlib) (typ : Ty) (raw : String) (x : Val)
    (h : (builtinRule lib typ raw x).2 ≠ .nil) : (builtinRule lib typ raw x).1 = x := by
  unfold builtinRule kindSwitch at h ⊢
  cases typ with
  | string m => simp at h
  | int m k =>
    simp only at h ⊢
    by_cases hd : k = .Int64 ∧ m.PkgPath = "time" ∧ m.Name = "Duration"
    · rw [if_pos hd] at h ⊢
      generalize lib.ParseDuration raw = r at h ⊢
      cases r <;> simp at h ⊢
    · rw [if_neg hd] at h ⊢
      generalize ParseInt raw (k.Bits lib.IntSize) = r at h ⊢
      cases r <;> simp at h ⊢
  | uint m k =>
    simp only at h ⊢
    generalize ParseUint raw (k.Bits lib.IntSize) = r at h ⊢
    cases r <;> simp at h ⊢
  | bool m =>
    simp only at h ⊢
    generalize ParseBool raw = r at h ⊢
    cases r <;> simp at h ⊢
  | float m k =>
    simp only at h ⊢
    generalize lib.ParseFloat raw k.Bits = r at h ⊢
    cases r <;> simp at h ⊢
  | slice m e =>
    simp only at h ⊢
    generalize processElems (elemCoercion lib (Ty.slice m e)) (zero e) (Split raw ',') = r at h ⊢
    rcases r with ⟨sl, o⟩
    cases o <;> simp at h ⊢
  | map m k e =>
    simp only at h ⊢
    by_cases hb : TrimSpace raw ≠ ""
    · rw [if_pos hb] at h ⊢
      generalize processPairs (keyCoercion lib (Ty.map m k e)) (elemCoercion lib (Ty.map m k e))
        (zero k) (zero e) (Split raw ',') [] = r at h ⊢
      rcases r with ⟨mp, o⟩
      cases o <;> simp at h ⊢
    · rw [if_neg hb] at h
      simp at h
  | ptr m e => simp at h
  | struct m fs => simp at h
  | other m k => simp at h

/-! ## The string assigned and the value reached -/

theorem throughPtrs_reached : ∀ (t : Ty) (x : Val) (g : Val → Val × Outcome),
    (throughPtrs (derefLoop t x).2.2 g (derefLoop t x).1).2 = (g (reachedValue t x)).2
  | .ptr m elem, x, g => by
    unfold derefLoop reachedValue
    split
    · rename_i p
      have h := throughPtrs_reached elem p g
      simpa [throughPtrs] using h
    · split
      · have h := throughPtrs_reached elem (zero elem) g
        simpa [throughPtrs] using h
      · rfl
  | .bool _, _, _ => rfl
  | .int _ _, _, _ => rfl
  | .uint _ _, _, _ => rfl
  | .float _ _, _, _ => rfl
  | .string _, _, _ => rfl
  | .slice _ _, _, _ => rfl
  | .map _ _ _, _, _ => rfl
  | .struct _ _, _, _ => rfl
  | .other _ _, _, _ => rfl

theorem reachedValue_nonptr (t : Ty) (v : Val) (h : t.isPtr = false) : reachedValue t v = v := by
  cases t <;> first | rfl | simp [Ty.isPtr] at h

theorem bindField_resolved (lib : Stdlib) (env : Env) (info : varInfo) (spec : Option Value)
    (raw : String) (h : resolve env info = some raw) :
    bindField lib env info spec =
      ((assign lib info raw spec).1, (lookupVar env info).2, (assign lib info raw spec).2) := by
  unfold resolve at h
  cases hl : (lookupVar env info).1 with
  | some v =>
    rw [hl] at h
    simp only [Option.some.injEq] at h
    rw [← h]
    exact bindField_found lib env info spec v hl
  | none =>
    rw [hl] at h
    simp only at h
    by_cases hd : info.Tags.Get A_DEFAULT ≠ ""
    · rw [if_pos hd] at h
      simp only [Option.some.injEq] at h
      rw [← h]
      exact bindField_default lib env info spec hl hd
    · rw [if_neg hd] at h
      cases h

theorem bindField_unresolved (lib : Stdlib) (env : Env) (info : varInfo) (spec : Option Value)
    (h : resolve env info = none) :
    bindField lib env info spec =
      (spec, (lookupVar env info).2,
        if isTrue (info.Tags.Get A_REQUIRE) = true then .err (.requiredKeyMissing info.Key)
        else .nil) := by
  unfold resolve at h
  cases hl : (lookupVar env info).1 with
  | some v => rw [hl] at h; cases h
  | none =>
    rw [hl] at h
    simp only at h
    by_cases hd : info.Tags.Get A_DEFAULT ≠ ""
    · rw [if_pos hd] at h; cases h
    · have hd' : info.Tags.Get A_DEFAULT = "" := by simpa using hd
      by_cases hr : isTrue (info.Tags.Get A_REQUIRE) = true
      · rw [if_pos hr]; exact bindField_required lib env info spec hl hd' hr
      · rw [if_neg hr]
        exact bindField_skip lib env info spec hl hd' (by simpa using hr)

/-- The outcome of `processField` through the handle of a descriptor is its
outcome on the value the handle refers to. -/
theorem updateField_described (lib : Stdlib) (pfx : String) (m ms : TypeMeta)
    (fields : List StructField) (vals vs : List Val) (i : Nat) (f : StructField) (x : Val)
    (raw : String)
    (hx : vals[i]? = some x)
    (hvs : vs[i]? = (vals[i]?).map (fun v => (derefLoop f.Typ v).1)) :
    (updateField (descriptorOf lib pfx i f (vals.getD i (zero f.Typ))).Field
      (processField lib (descriptorOf lib pfx i f (vals.getD i (zero f.Typ))).Field.typ raw)
      (recordPtr m ms fields vs)).2 =
      (processField lib (derefLoop f.Typ x).2.1 raw (reachedValue f.Typ x)).2 := by
  rw [updateField_recordPtr]
  simp only [descriptorOf, List.getD_eq_getElem?_getD, hx, Option.getD_some]
  rw [hvs, hx]
  simp only [Option.map_some']
  exact throughPtrs_reached f.Typ x _

theorem processField_fail_unchanged (lib : Stdlib) (typ : Ty) (raw : String) (x : Val)
    (hp : typ.isPtr = false) (hs : setterFrom typ = none) (ht : textUnmarshaler typ = none)
    (h : (processField lib typ raw x).2 ≠ .nil) : (processField lib typ raw x).1 = x := by
  rw [processField_builtin lib typ raw x hs ht hp] at h ⊢
  exact builtinRule_fail_unchanged lib typ raw x h

theorem assign_nil_of_update (lib : Stdlib) (info : varInfo) (raw : String) (spec : Option Value)
    (h : (updateField info.Field (processField lib info.Field.typ raw) spec).2 = .nil) :
    (assign lib info raw spec).2 = .nil := by
  simp only [assign, h]

/-! ## Where the loop of `Load` stops -/

/-- When the pass of a descriptor fails, the loop ends there: the record and
the outcome are those of the failing pass, and the lookups are those made up
to and including it. -/
theorem Load_stop (lib : Stdlib) (env : Env) (pfx : String) (spec : Option Value)
    (pre post : List varInfo) (info : varInfo) (st : Option Value) (trace : List Lookup)
    (hok : (gatherInfo lib pfx spec).2.2 = none)
    (hinfos : (gatherInfo lib pfx spec).2.1 = pre ++ info :: post)
    (hloop : loadLoop lib env pre (gatherInfo lib pfx spec).1 [] = (st, trace, .nil))
    (hne : (bindField lib env info st).2.2 ≠ .nil) :
    Load lib env pfx spec =
      ⟨(bindField lib env info st).1, trace ++ (bindField lib env info st).2.1,
       (bindField lib env info st).2.2⟩ := by
  rw [Load_of_gathered lib env pfx spec hok, hinfos, loadLoop_append, hloop]
  simp only
  rw [loadLoop]
  cases hb : (bindField lib env info st).2.2 with
  | nil => exact absurd hb hne
  | err e => rfl
  | panic => rfl

/-- A loop that ends well has ended well on every initial part of its list. -/
theorem loadLoop_prefix_ok (lib : Stdlib) (env : Env) (p1 p2 : List varInfo)
    (s : Option Value) (t : List Lookup)
    (h : (loadLoop lib env (p1 ++ p2) s t).2.2 = .nil) :
    (loadLoop lib env p1 s t).2.2 = .nil := by
  rw [loadLoop_append] at h
  cases hb : (loadLoop lib env p1 s t).2.2 with
  | nil => rfl
  | err e => rw [hb] at h; simp only at h; rw [hb] at h; cases h
  | panic => rw [hb] at h; simp only at h; rw [hb] at h; cases h

/-- Binding reaches every descriptor that stands before a reached one. -/
theorem reaches_earlier (lib : Stdlib) (env : Env) (pfx : String) (m ms : TypeMeta)
    (fields : List StructField) (vals : List Val) (info info' : varInfo) (st : Option Value)
    (h : Reaches lib env pfx (recordPtr m ms fields vals) info st)
    (hmem : info' ∈ (gatherInfo lib pfx (recordPtr m ms fields vals)).2.1)
    (hlt : info'.Field.index < info.Field.index) :
    ∃ st', Reaches lib env pfx (recordPtr m ms fields vals) info' st' := by
  obtain ⟨hok, pre, post, trace, hinfos, hloop⟩ := h
  have hpw := descriptors_pairwise lib pfx fields 0 vals
  have hd : (gatherInfo lib pfx (recordPtr m ms fields vals)).2.1 =
      descriptors lib pfx fields 0 vals := by
    rw [gatherInfo_ok lib pfx m ms fields vals hok]
  rw [← hd, hinfos, List.pairwise_append] at hpw
  obtain ⟨_, hpw2, _⟩ := hpw
  rw [hinfos] at hmem
  have hpre : info' ∈ pre := by
    rcases List.mem_append.mp hmem with h1 | h1
    · exact h1
    · rcases List.mem_cons.mp h1 with h2 | h2
      · rw [h2] at hlt; omega
      · have := (List.pairwise_cons.mp hpw2).1 info' h2
        omega
  obtain ⟨p1, p2, hp⟩ := List.append_of_mem hpre
  have hnil : (loadLoop lib env (p1 ++ info' :: p2)
      (gatherInfo lib pfx (recordPtr m ms fields vals)).1 []).2.2 = .nil := by
    rw [← hp, hloop]
  have h1 := loadLoop_prefix_ok lib env p1 (info' :: p2) _ _ hnil
  refine ⟨(loadLoop lib env p1 (gatherInfo lib pfx (recordPtr m ms fields vals)).1 []).1,
    hok, p1, p2 ++ info :: post,
    (loadLoop lib env p1 (gatherInfo lib pfx (recordPtr m ms fields vals)).1 []).2.1, ?_, ?_⟩
  · rw [hinfos, hp]; simp
  · rw [← h1]

/-- The lookups made before a reached descriptor belong to earlier fields,
and the fields after it are as introspection left them. -/
theorem reaches_frame (lib : Stdlib) (env : Env) (pfx : String) (m ms : TypeMeta)
    (fields : List StructField) (vals : List Val) (info : varInfo) (st : Option Value)
    (pre post : List varInfo) (trace : List Lookup)
    (hok : (gatherInfo lib pfx (recordPtr m ms fields vals)).2.2 = none)
    (hinfos : (gatherInfo lib pfx (recordPtr m ms fields vals)).2.1 = pre ++ info :: post)
    (hloop : loadLoop lib env pre (gatherInfo lib pfx (recordPtr m ms fields vals)).1 [] =
      (st, trace, .nil)) :
    (∀ l ∈ trace, l.1 < info.Field.index) ∧
    (∀ j, info.Field.index < j →
      fieldAt (bindField lib env info st).1 j =
        fieldAt (gatherInfo lib pfx (recordPtr m ms fields vals)).1 j) := by
  have hpw := descriptors_pairwise lib pfx fields 0 vals
  have hg := gatherInfo_ok lib pfx m ms fields vals hok
  rw [hg] at hinfos hloop
  simp only at hinfos hloop
  rw [hinfos, List.pairwise_append] at hpw
  obtain ⟨_, _, hpw3⟩ := hpw
  have hpre : ∀ x ∈ pre, x.Field.index < info.Field.index := fun x hx =>
    hpw3 x hx info (List.mem_cons_self _ _)
  constructor
  · intro l hl
    have htr := (loadLoop_trace lib env pre (recordPtr m ms fields (gathered fields 0 vals)) []).1
    rw [hloop] at htr
    rcases htr l hl with h | ⟨x, hx, hxl, _⟩
    · simp at h
    · rw [hxl]; exact hpre x hx
  · intro j hj
    obtain ⟨vs, hvs1, hvs2⟩ := loadLoop_shape lib env m ms fields pre (gathered fields 0 vals) []
    rw [hloop] at hvs1
    simp only at hvs1
    obtain ⟨ws, hws1, hws2⟩ := bindField_shape lib env info m ms fields vs
    rw [hg, hvs1, hws1, fieldAt_recordPtr, fieldAt_recordPtr, hws2 j (by omega)]
    exact hvs2 j (fun x hx => by have := hpre x hx; omega)

/-- The `ParseError` that `Load` returns when the coercion of the string
resolved for a reached field fails. -/
theorem Load_parse_error (lib : Stdlib) (env : Env) (pfx : String) (m ms : TypeMeta)
    (fields : List StructField) (vals : List Val) (i : Nat) (f : StructField) (x : Val)
    (info : varInfo) (st : Option Value) (raw : String) (e : GoError)
    (hf : fields[i]? = some f) (hx : vals[i]? = some x)
    (hreach : Reaches lib env pfx (recordPtr m ms fields vals) info st)
    (hidx : info.Field.index = i)
    (hraw : resolve env info = some raw)
    (hfail : (processField lib info.Field.typ raw (reachedValue f.Typ x)).2 = .err e) :
    (Load lib env pfx (recordPtr m ms fields vals)).err =
      .err (.ParseError (keyOf lib pfx f) f.Name info.Field.typ.String raw e) ∧
    info.Key = keyOf lib pfx f ∧ info.Name = f.Name ∧
    info.Field.typ = (derefLoop f.Typ x).2.1 ∧
    (f.Typ.isPtr = false → info.Field.typ = f.Typ ∧ reachedValue f.Typ x = x) := by
  obtain ⟨f', vs, trace, hf', _, hinfo, hst, hvs, hstop, _⟩ :=
    Load_of_reaches lib env pfx m ms fields vals info st hreach
  rw [hidx] at hf' hvs hinfo
  rw [hf] at hf'
  cases hf'
  have hgd : vals.getD i (zero f.Typ) = x := by
    simp [List.getD_eq_getElem?_getD, hx]
  have hkey : info.Key = keyOf lib pfx f := by rw [hinfo]; rfl
  have hname : info.Name = f.Name := by rw [hinfo]; rfl
  have htyp : info.Field.typ = (derefLoop f.Typ x).2.1 := by rw [hinfo, hgd]; rfl
  have hupd : (updateField info.Field (processField lib info.Field.typ raw) st).2 = .err e := by
    have h := updateField_described lib pfx m ms fields vals vs i f x raw hx hvs
    rw [← hinfo] at h
    rw [hst, h, ← htyp, hfail]
  have hb : (bindField lib env info st).2.2 =
      .err (.ParseError info.Key info.Name info.Field.typ.String raw e) := by
    rw [bindField_resolved lib env info st raw hraw]
    simp only [assign, hupd]
  refine ⟨?_, hkey, hname, htyp, ?_⟩
  · rw [hstop (by rw [hb]; simp), hb, hkey, hname]
  · intro hp
    exact ⟨by rw [htyp, derefLoop_nonptr f.Typ x hp], reachedValue_nonptr f.Typ x hp⟩


/-- Binding a resolved string to a reached field that is not a pointer: the
field ends as `processField` leaves it, the pass succeeds when `processField`
does, and a failure of `processField` is returned wrapped in a `ParseError`. -/
theorem Load_coerced (lib : Stdlib) (env : Env) (pfx : String) (m ms : TypeMeta)
    (fields : List StructField) (vals : List Val) (i : Nat) (f : StructField) (x : Val)
    (info : varInfo) (st : Option Value) (raw : String)
    (hf : fields[i]? = some f) (hx : vals[i]? = some x) (hp : f.Typ.isPtr = false)
    (hreach : Reaches lib env pfx (recordPtr m ms fields vals) info st)
    (hidx : info.Field.index = i)
    (hraw : resolve env info = some raw) :
    fieldAt (Load lib env pfx (recordPtr m ms fields vals)).spec i =
      some (processField lib f.Typ raw x).1 ∧
    ((processField lib f.Typ raw x).2 = .nil → (bindField lib env info st).2.2 = .nil) ∧
    (∀ e, (processField lib f.Typ raw x).2 = .err e →
      (Load lib env pfx (recordPtr m ms fields vals)).err =
        .err (.ParseError (keyOf lib pfx f) f.Name f.Typ.String raw e)) := by
  have hb := bindField_resolved lib env info st raw hraw
  have h1 := (Load_bound lib env pfx m ms fields vals i f info st raw _ hf hreach hidx hb).1
  obtain ⟨hinfo, vs, hst, hvs⟩ :=
    described_tags lib env pfx m ms fields vals i f info st hf hreach hidx
  have hgd : vals.getD i (zero f.Typ) = x := by
    simp [List.getD_eq_getElem?_getD, hx]
  have htyp : info.Field.typ = f.Typ := by
    rw [hinfo, hgd]
    simp [descriptorOf, derefLoop_nonptr f.Typ x hp]
  refine ⟨?_, ?_, ?_⟩
  · rw [h1, hx]
    simp only [Option.map_some', boundValue, derefLoop_nonptr f.Typ x hp, throughPtrs]
  · intro hnil
    rw [hb]
    apply assign_nil_of_update
    have h := updateField_described lib pfx m ms fields vals vs i f x raw hx hvs
    rw [← hinfo, ← hst] at h
    rw [h, derefLoop_nonptr f.Typ x hp, reachedValue_nonptr f.Typ x hp]
    exact hnil
  · intro e he
    have h := (Load_parse_error lib env pfx m ms fields vals i f x info st raw e hf hx hreach
      hidx hraw (by rw [htyp, reachedValue_nonptr f.Typ x hp]; exact he)).1
    rw [htyp] at h
    exact h

/-! ## Sequences -/

theorem processElems_ok (pe : String → Val → Val × Outcome) (z : Val) (ps : List String)
    (h : ∀ p ∈ ps, (pe p z).2 = .nil) :
    processElems pe z ps = (ps.map (fun p => (pe p z).1), .nil) := by
  induction ps with
  | nil => rfl
  | cons p rest ih =>
    have hp := h p (List.mem_cons_self _ _)
    have hr := ih (fun q hq => h q (List.mem_cons_of_mem _ hq))
    unfold processElems
    rcases hpe : pe p z with ⟨v, o⟩
    rw [hpe] at hp
    simp only at hp
    subst hp
    simp only [hr, List.map_cons, hpe]

theorem processElems_fail (pe : String → Val → Val × Outcome) (z : Val) (ps : List String)
    (h : ∃ p ∈ ps, (pe p z).2 ≠ .nil) : (processElems pe z ps).2 ≠ .nil := by
  induction ps with
  | nil => obtain ⟨p, hp, _⟩ := h; simp at hp
  | cons p rest ih =>
    unfold processElems
    rcases hpe : pe p z with ⟨v, o⟩
    cases o with
    | nil =>
      simp only
      apply ih
      obtain ⟨q, hq, hne⟩ := h
      rcases List.mem_cons.mp hq with h1 | h1
      · rw [h1, hpe] at hne; exact absurd rfl hne
      · exact ⟨q, h1, hne⟩
    | err e => simp
    | panic => simp

theorem builtinRule_slice (lib : Stdlib) (mt : TypeMeta) (elem : Ty) (raw : String) (x : Val) :
    builtinRule lib (.slice mt elem) raw x =
      (match processElems (processField lib elem) (zero elem) (Split raw ',') with
       | (sl, .nil) => (.slice (some sl), .nil)
       | (_, o) => (x, o)) := rfl

/-! ## `time.ParseDuration` returns -/

theorem leadingInt_length : ∀ (cs : List Char) (x v : Nat) (r : List Char),
    leadingInt cs x = some (v, r) → r.length ≤ cs.length := by
  intro cs
  induction cs with
  | nil =>
    intro x v r h
    simp only [leadingInt, Option.some.injEq, Prod.mk.injEq] at h
    rw [← h.2]
  | cons c cs ih =>
    intro x v r h
    unfold leadingInt at h
    split at h
    · simp only [Option.some.injEq, Prod.mk.injEq] at h
      rw [← h.2]
    · split at h
      · cases h
      · simp only at h
        split at h
        · cases h
        · have := ih _ v r h
          simp only [List.length_cons]
          omega

theorem leadingFraction_length : ∀ (cs : List Char) (x k : Nat) (o : Bool),
    (leadingFraction cs x k o).2.2.length ≤ cs.length := by
  intro cs
  induction cs with
  | nil => intro x k o; simp [leadingFraction]
  | cons c cs ih =>
    intro x k o
    unfold leadingFraction
    simp only [List.length_cons]
    split
    · simp
    · split
      · exact Nat.le_succ_of_le (ih _ _ _)
      · split
        · exact Nat.le_succ_of_le (ih _ _ _)
        · split
          · exact Nat.le_succ_of_le (ih _ _ _)
          · exact Nat.le_succ_of_le (ih _ _ _)

theorem dropWhile_length_lt (p : Char → Bool) (l : List Char) (h : l.takeWhile p ≠ []) :
    (l.dropWhile p).length < l.length := by
  have h1 : (l.takeWhile p).length + (l.dropWhile p).length = l.length := by
    rw [← List.length_append, List.takeWhile_append_dropWhile]
  have h2 : 0 < (l.takeWhile p).length := List.length_pos.mpr h
  omega

/-- The loop of `time.ParseDuration` ends within a fuel of the length of its
input: the model of the function returns on every string. -/
theorem durationLoop_returns (quote : String → String) (frac : Nat → Nat → Nat → Nat)
    (orig : String) : ∀ (fuel : Nat) (cs : List Char) (d : Nat), cs.length ≤ fuel →
    (durationLoop quote frac orig fuel cs d).isSome = true := by
  intro fuel
  induction fuel with
  | zero =>
    intro cs d h
    cases cs with
    | nil => rfl
    | cons c cs => simp at h
  | succ fuel ih =>
    intro cs d h
    cases cs with
    | nil => rfl
    | cons c cs =>
      unfold durationLoop
      split
      · rfl
      · split
        · rfl
        · rename_i v s1 hli
          have hs1 := leadingInt_length _ _ _ _ hli
          simp only
          split
          · rfl
          · split
            · rfl
            · rename_i hu
              split
              · rfl
              · rename_i unit hunit
                split
                · rfl
                · split
                  · rfl
                  · rename_i v2 hv2
                    split
                    · rfl
                    · apply ih
                      have hlt := dropWhile_length_lt _ _ hu
                      have hs2 : (match s1 with
                          | c1 :: r =>
                            if c1 = '.' then
                              ((leadingFraction r 0 0 false).1, (leadingFraction r 0 0 false).2.1,
                                (leadingFraction r 0 0 false).2.2,
                                (leadingFraction r 0 0 false).2.2.length != r.length)
                            else (0, 0, s1, false)
                          | [] => ((0 : Nat), (0 : Nat), s1, false)).2.2.1.length ≤ s1.length := by
                        split
                        · split
                          · have := leadingFraction_length (by assumption) 0 0 false
                            simp only [List.length_cons]
                            omega
                          · exact Nat.le_refl _
                        · exact Nat.le_refl _
                      simp only [List.length_cons] at h hs1
                      omega

/-! ## Introspection failures -/

theorem isStruct_not_ptr (t : Ty) (h : t.isStruct = true) : t.isPtr = false := by
  cases t <;> first | rfl | simp [Ty.isStruct] at h

/-- A described field that reaches a struct without methods makes the field
loop of `gatherInfo` fail. -/
theorem gatherLoop_offending (lib : Stdlib) (pfx : String) (fs : List StructField) :
    ∀ (i : Nat) (vals : List Val) (acc : List varInfo) (j : Nat) (f : StructField),
      i ≤ j → fs[j - i]? = some f → offending f (vals.getD j (zero f.Typ)) = true →
      ∃ n, (gatherLoop lib pfx fs i vals acc).2.2 = some (.structNeedsSetter n) := by
  induction fs with
  | nil => intro i vals acc j f _ h; simp at h
  | cons f0 rest ih =>
    intro i vals acc j f hij hf hoff
    have hrec : i < j → ∀ vals' acc', vals'.getD j (zero f.Typ) = vals.getD j (zero f.Typ) →
        ∃ n, (gatherLoop lib pfx rest (i + 1) vals' acc').2.2 = some (.structNeedsSetter n) := by
      intro hlt vals' acc' hv
      have hj : j - i = (j - (i + 1)) + 1 := by omega
      rw [hj, List.getElem?_cons_succ] at hf
      exact ih (i + 1) vals' acc' j f (by omega) hf (by rw [hv]; exact hoff)
    unfold gatherLoop
    split
    · rename_i hc
      rcases Nat.eq_or_lt_of_le hij with h | h
      · subst h
        simp only [Nat.sub_self, List.getElem?_cons_zero, Option.some.injEq] at hf
        subst hf
        simp only [offending, Bool.and_eq_true] at hoff
        rw [eligible_cond, hoff.1] at hc
        simp at hc
      · exact hrec h vals acc rfl
    · simp only
      split
      · exact ⟨_, rfl⟩
      · rename_i hc hs
        rcases Nat.eq_or_lt_of_le hij with h | h
        · subst h
          simp only [Nat.sub_self, List.getElem?_cons_zero, Option.some.injEq] at hf
          subst hf
          simp only [offending, bareStruct, Bool.and_eq_true] at hoff
          exact absurd (by simp only [Bool.and_eq_true]; exact hoff.2) hs
        · refine hrec h _ _ ?_
          simp only [List.getD_eq_getElem?_getD]
          rw [List.getElem?_set_ne (by omega)]

/-- The field loop of `gatherInfo` fails at the first offending field and
names it. -/
theorem gatherLoop_first_offending (lib : Stdlib) (pfx : String) (fs : List StructField) :
    ∀ (i : Nat) (vals : List Val) (acc : List varInfo) (j : Nat) (f : StructField),
      i ≤ j → fs[j - i]? = some f → offending f (vals.getD j (zero f.Typ)) = true →
      (∀ k f', i ≤ k → k < j → fs[k - i]? = some f' →
        offending f' (vals.getD k (zero f'.Typ)) = false) →
      (gatherLoop lib pfx fs i vals acc).2.2 = some (.structNeedsSetter f.Name) := by
  induction fs with
  | nil => intro i vals acc j f _ h; simp at h
  | cons f0 rest ih =>
    intro i vals acc j f hij hf hoff hfirst
    have hrec : i < j → ∀ vals' acc', (∀ k, i < k → vals'.getD k = vals.getD k) →
        (gatherLoop lib pfx rest (i + 1) vals' acc').2.2 = some (.structNeedsSetter f.Name) := by
      intro hlt vals' acc' hv
      have hj : j - i = (j - (i + 1)) + 1 := by omega
      rw [hj, List.getElem?_cons_succ] at hf
      refine ih (i + 1) vals' acc' j f (by omega) hf (by rw [hv j hlt]; exact hoff) ?_
      intro k f' hk1 hk2 hf'
      rw [hv k (by omega)]
      refine hfirst k f' (by omega) hk2 ?_
      have hk : k - i = (k - (i + 1)) + 1 := by omega
      rw [hk, List.getElem?_cons_succ]
      exact hf'
    unfold gatherLoop
    split
    · rename_i hc
      rcases Nat.eq_or_lt_of_le hij with h | h
      · subst h
        simp only [Nat.sub_self, List.getElem?_cons_zero, Option.some.injEq] at hf
        subst hf
        simp only [offending, Bool.and_eq_true] at hoff
        rw [eligible_cond, hoff.1] at hc
        simp at hc
      · exact hrec h vals acc (fun _ _ => rfl)
    · rename_i hc
      simp only
      rcases Nat.eq_or_lt_of_le hij with h | h
      · subst h
        simp only [Nat.sub_self, List.getElem?_cons_zero, Option.some.injEq] at hf
        subst hf
        simp only [offending, bareStruct, Bool.and_eq_true] at hoff
        rw [if_pos (by simp only [Bool.and_eq_true]; exact hoff.2)]
      · have he : eligible f0 = true := by
          rw [eligible_cond] at hc
          simpa using hc
        have hno := hfirst i f0 (Nat.le_refl _) h (by simp)
        simp only [offending, he, Bool.true_and, bareStruct] at hno
        rw [if_neg (by rw [hno]; simp)]
        refine hrec h _ _ ?_
        intro k hk
        funext z
        simp only [List.getD_eq_getElem?_getD]
        rw [List.getElem?_set_ne (by omega)]

theorem gatherInfo_err_infos (lib : Stdlib) (pfx : String) (spec : Option Value) (e : GoError)
    (h : (gatherInfo lib pfx spec).2.2 = some e) : (gatherInfo lib pfx spec).2.1 = [] := by
  unfold gatherInfo at h ⊢
  by_cases hp : pfx = ""
  · rw [if_pos hp]
  · rw [if_neg hp] at h ⊢
    split
    · rename_i m ms fields vals
      exact (gatherLoop_err lib pfx fields 0 vals [] e h).1
    · rfl

/-- When introspection fails, `Load` returns its error at once: the loop over
the descriptors has nothing to run over. -/
theorem Load_of_gather_err (lib : Stdlib) (env : Env) (pfx : String) (spec : Option Value)
    (e : GoError) (h : (gatherInfo lib pfx spec).2.2 = some e) :
    Load lib env pfx spec = ⟨(gatherInfo lib pfx spec).1, [], .err e⟩ := by
  unfold Load
  simp only [gatherInfo_err_infos lib pfx spec e h, loadLoop, h]

theorem gatherInfo_err_of_loop (lib : Stdlib) (pfx : String) (m ms : TypeMeta)
    (fields : List StructField) (vals : List Val) (hp : pfx ≠ "") :
    (gatherInfo lib pfx (recordPtr m ms fields vals)).2.2 =
      (gatherLoop lib pfx fields 0 vals []).2.2 := by
  simp [gatherInfo, hp, recordPtr]

/-! ## What a field holds after `Load` -/

theorem throughPtrs_id : ∀ (n : Nat) (v : Val), (throughPtrs n (fun v => (v, .nil)) v).1 = v
  | 0, _ => rfl
  | n + 1, v => by
    unfold throughPtrs
    split
    · rename_i p
      simp only [throughPtrs_id n p]
    · rfl

/-- A field that `gatherInfo` does not describe is as it was after `Load`. -/
theorem Load_ineligible (lib : Stdlib) (env : Env) (pfx : String) (m ms : TypeMeta)
    (fields : List StructField) (vals : List Val) (i : Nat) (f : StructField)
    (hf : fields[i]? = some f) (he : eligible f = false) :
    fieldAt (Load lib env pfx (recordPtr m ms fields vals)).spec i = vals[i]? := by
  obtain ⟨vs, hspec, hframe, _, hinfos, _⟩ := gatherInfo_record lib pfx m ms fields vals
  have hidx : ∀ info ∈ (gatherInfo lib pfx (recordPtr m ms fields vals)).2.1,
      info.Field.index ≠ i := by
    intro info hmem hi
    obtain ⟨f', hf', he', _⟩ := hinfos info hmem
    rw [hi, hf] at hf'
    cases hf'
    rw [he] at he'
    cases he'
  obtain ⟨ws, hws, hwframe⟩ := loadLoop_shape lib env m ms fields
    (gatherInfo lib pfx (recordPtr m ms fields vals)).2.1 vs []
  rw [← hspec] at hws
  rw [(Load_spec lib env pfx (recordPtr m ms fields vals)).1, hws, fieldAt_recordPtr,
    hwframe i hidx]
  exact hframe i (fun f' hf' => by rw [hf] at hf'; cases hf'; exact he)

/-- After a `Load` whose introspection succeeds, a described field holds what
`gatherInfo` made of it, with some function run on the value its handle
refers to. -/
theorem Load_field_value (lib : Stdlib) (env : Env) (pfx : String) (m ms : TypeMeta)
    (fields : List StructField) (vals : List Val) (i : Nat) (f : StructField)
    (hok : (gatherInfo lib pfx (recordPtr m ms fields vals)).2.2 = none)
    (hf : fields[i]? = some f) (he : eligible f = true) :
    ∃ g : Val → Val × Outcome,
      fieldAt (Load lib env pfx (recordPtr m ms fields vals)).spec i =
        (vals[i]?).map
          (fun v => (throughPtrs (derefLoop f.Typ v).2.2 g (derefLoop f.Typ v).1).1) := by
  have hg := gatherInfo_ok lib pfx m ms fields vals hok
  have hmem := descriptors_complete lib pfx fields 0 vals i f (Nat.zero_le _)
    (by simpa using hf) he
  obtain ⟨pre, post, hdec⟩ := List.append_of_mem hmem
  have hinfos : (gatherInfo lib pfx (recordPtr m ms fields vals)).2.1 =
      pre ++ descriptorOf lib pfx i f (vals.getD i (zero f.Typ)) :: post := by
    rw [hg]; exact hdec
  have hidg : (vals[i]?).map (fun v => (derefLoop f.Typ v).1) =
      (vals[i]?).map (fun v => (throughPtrs (derefLoop f.Typ v).2.2 (fun v => (v, .nil))
        (derefLoop f.Typ v).1).1) := by
    cases vals[i]? with
    | none => rfl
    | some v => simp only [Option.map_some', throughPtrs_id]
  cases hpre : (loadLoop lib env pre (gatherInfo lib pfx (recordPtr m ms fields vals)).1 []).2.2 with
  | nil =>
    have hreach : Reaches lib env pfx (recordPtr m ms fields vals)
        (descriptorOf lib pfx i f (vals.getD i (zero f.Typ)))
        (loadLoop lib env pre (gatherInfo lib pfx (recordPtr m ms fields vals)).1 []).1 :=
      ⟨hok, pre, post, _, hinfos, by rw [← hpre]⟩
    obtain ⟨hinfo, vs, hst, hvs⟩ := described_tags lib env pfx m ms fields vals i f _ _ hf
      hreach rfl
    obtain ⟨_, _, _, _, _, _, _, _, _, hfield⟩ :=
      Load_of_reaches lib env pfx m ms fields vals _ _ hreach
    have hfield' : fieldAt (Load lib env pfx (recordPtr m ms fields vals)).spec i =
        fieldAt (bindField lib env (descriptorOf lib pfx i f (vals.getD i (zero f.Typ)))
          (loadLoop lib env pre (gatherInfo lib pfx (recordPtr m ms fields vals)).1 []).1).1 i :=
      hfield
    cases hr : resolve env (descriptorOf lib pfx i f (vals.getD i (zero f.Typ))) with
    | none =>
      refine ⟨fun v => (v, .nil), ?_⟩
      rw [hfield', bindField_unresolved lib env _ _ hr, hst, fieldAt_recordPtr, hvs, hidg]
    | some raw =>
      refine ⟨processField lib
        (derefLoop f.Typ (vals.getD i (zero f.Typ))).2.1 raw, ?_⟩
      rw [hfield', bindField_resolved lib env _ _ raw hr, hst,
        fieldAt_assign_described lib pfx m ms fields vals vs i f raw hvs]
      cases hv : vals[i]? with
      | none => rfl
      | some v =>
        simp only [Option.map_some', boundValue, List.getD_eq_getElem?_getD, hv,
          Option.getD_some]
  | err e =>
    refine ⟨fun v => (v, .nil), ?_⟩
    rw [(Load_spec lib env pfx _).1, hinfos, loadLoop_append, hpre]
    simp only
    have hpw := descriptors_pairwise lib pfx fields 0 vals
    rw [hdec, List.pairwise_append] at hpw
    obtain ⟨_, _, hpw3⟩ := hpw
    obtain ⟨vs, hvs1, hvs2⟩ := loadLoop_shape lib env m ms fields pre (gathered fields 0 vals) []
    rw [hg]
    simp only
    rw [hvs1, fieldAt_recordPtr, hvs2 i (fun x hx => Nat.ne_of_lt
      (hpw3 x hx _ (List.mem_cons_self _ _))), ← hidg]
    exact gathered_eligible fields 0 vals i f (Nat.zero_le _) (by simpa using hf) he
  | panic =>
    refine ⟨fun v => (v, .nil), ?_⟩
    rw [(Load_spec lib env pfx _).1, hinfos, loadLoop_append, hpre]
    simp only
    have hpw := descriptors_pairwise lib pfx fields 0 vals
    rw [hdec, List.pairwise_append] at hpw
    obtain ⟨_, _, hpw3⟩ := hpw
    obtain ⟨vs, hvs1, hvs2⟩ := loadLoop_shape lib env m ms fields pre (gathered fields 0 vals) []
    rw [hg]
    simp only
    rw [hvs1, fieldAt_recordPtr, hvs2 i (fun x hx => Nat.ne_of_lt
      (hpw3 x hx _ (List.mem_cons_self _ _))), ← hidg]
    exact gathered_eligible fields 0 vals i f (Nat.zero_le _) (by simpa using hf) he

/-! ## Maps -/

theorem Outcome.isNil_iff (o : Outcome) : o.isNil = true ↔ o = .nil := by
  cases o <;> simp [Outcome.isNil]

theorem pairOK_iff (lib : Stdlib) (key elem : Ty) (q : String) :
    pairOK lib key elem q = true ↔
      ∃ ks vs, Split q ':' = [ks, vs] ∧ (processField lib key ks (zero key)).2 = .nil ∧
        (processField lib elem vs (zero elem)).2 = .nil := by
  unfold pairOK
  rcases Split q ':' with _ | ⟨a, _ | ⟨b, _ | ⟨c, t⟩⟩⟩
  · simp
  · simp
  · simp only [Bool.and_eq_true, Outcome.isNil_iff]
    constructor
    · intro hh
      exact ⟨a, b, rfl, hh⟩
    · rintro ⟨ks', vs', h', hh⟩
      simp only [List.cons.injEq, and_true] at h'
      rw [h'.1, h'.2]
      exact hh
  · simp

theorem length_two (l : List String) (h : l.length ≠ 2) : ∀ ks vs, l ≠ [ks, vs] := by
  intro ks vs hl
  rw [hl] at h
  simp at h

theorem processPairs_ok (lib : Stdlib) (key elem : Ty) : ∀ (pairs : List String)
    (mp : List (Val × Val)), (∀ q ∈ pairs, pairOK lib key elem q = true) →
    processPairs (processField lib key) (processField lib elem) (zero key) (zero elem) pairs mp =
      (insertAll mp (pairs.map (coercePair lib key elem)), .nil) := by
  intro pairs
  induction pairs with
  | nil => intro mp _; rfl
  | cons q rest ih =>
    intro mp h
    obtain ⟨ks, vs, hsp, hk, hv⟩ := (pairOK_iff lib key elem q).mp (h q (List.mem_cons_self _ _))
    unfold processPairs
    rw [hsp]
    simp only
    rcases hpk : processField lib key ks (zero key) with ⟨k, ok⟩
    rcases hpe : processField lib elem vs (zero elem) with ⟨v, ov⟩
    rw [hpk] at hk
    rw [hpe] at hv
    simp only at hk hv
    subst hk
    subst hv
    simp only
    rw [ih _ (fun x hx => h x (List.mem_cons_of_mem _ hx))]
    simp only [List.map_cons, insertAll, List.foldl_cons, coercePair, hsp, hpk, hpe]

theorem processPairs_bad (pk pe : String → Val → Val × Outcome) (zk zv : Val) :
    ∀ (pairs : List String) (mp : List (Val × Val)),
      (∃ q ∈ pairs, (Split q ':').length ≠ 2) → (processPairs pk pe zk zv pairs mp).2 ≠ .nil := by
  intro pairs
  induction pairs with
  | nil => intro mp h; obtain ⟨q, hq, _⟩ := h; simp at hq
  | cons q rest ih =>
    intro mp h
    unfold processPairs
    rcases hsp : Split q ':' with _ | ⟨ks, _ | ⟨vs, _ | ⟨c, t⟩⟩⟩
    · simp
    · simp
    · have hrest : ∃ q' ∈ rest, (Split q' ':').length ≠ 2 := by
        obtain ⟨q', hq', hne⟩ := h
        rcases List.mem_cons.mp hq' with h1 | h1
        · rw [h1, hsp] at hne; simp at hne
        · exact ⟨q', h1, hne⟩
      simp only
      rcases pk ks zk with ⟨k, ok⟩
      cases ok with
      | nil =>
        simp only
        rcases pe vs zv with ⟨v, ov⟩
        cases ov with
        | nil => simp only; exact ih _ hrest
        | err e => simp
        | panic => simp
      | err e => simp
      | panic => simp
    · simp

theorem processPairs_first_bad (lib : Stdlib) (key elem : Ty) : ∀ (pre : List String)
    (pair : String) (post : List String) (mp : List (Val × Val)),
    (∀ q ∈ pre, pairOK lib key elem q = true) → (Split pair ':').length ≠ 2 →
    (processPairs (processField lib key) (processField lib elem) (zero key) (zero elem)
      (pre ++ pair :: post) mp).2 = .err (.invalidMapItem pair) := by
  intro pre
  induction pre with
  | nil =>
    intro pair post mp _ hne
    simp only [List.nil_append]
    unfold processPairs
    split
    · rename_i ks vs hsp
      exact absurd hsp (length_two _ hne ks vs)
    · rfl
  | cons q rest ih =>
    intro pair post mp h hne
    obtain ⟨ks, vs, hsp, hk, hv⟩ := (pairOK_iff lib key elem q).mp (h q (List.mem_cons_self _ _))
    rw [List.cons_append]
    unfold processPairs
    rw [hsp]
    simp only
    rcases hpk : processField lib key ks (zero key) with ⟨k, ok⟩
    rcases hpe : processField lib elem vs (zero elem) with ⟨v, ov⟩
    rw [hpk] at hk
    rw [hpe] at hv
    simp only at hk hv
    subst hk
    subst hv
    simp only
    exact ih pair post _ (fun x hx => h x (List.mem_cons_of_mem _ hx)) hne

theorem builtinRule_map (lib : Stdlib) (mt : TypeMeta) (key elem : Ty) (raw : String) (x : Val) :
    builtinRule lib (.map mt key elem) raw x =
      (if TrimSpace raw ≠ "" then
        (match processPairs (processField lib key) (processField lib elem) (zero key) (zero elem)
            (Split raw ',') [] with
         | (mp, .nil) => (.map (some mp), .nil)
         | (_, o) => (x, o))
       else (.map (some []), .nil)) := rfl

/-! ## Maps: the first pair that does not coerce -/

theorem processPairs_append_ok (lib : Stdlib) (key elem : Ty) : ∀ (pre rest : List String)
    (mp : List (Val × Val)), (∀ q ∈ pre, pairOK lib key elem q = true) →
    processPairs (processField lib key) (processField lib elem) (zero key) (zero elem)
        (pre ++ rest) mp =
      processPairs (processField lib key) (processField lib elem) (zero key) (zero elem)
        rest (insertAll mp (pre.map (coercePair lib key elem))) := by
  intro pre
  induction pre with
  | nil => intro rest mp _; rfl
  | cons q tl ih =>
    intro rest mp h
    obtain ⟨ks, vs, hsp, hk, hv⟩ := (pairOK_iff lib key elem q).mp (h q (List.mem_cons_self _ _))
    rw [List.cons_append]
    rw [processPairs]
    rw [hsp]
    simp only
    rcases hpk : processField lib key ks (zero key) with ⟨k, ok⟩
    rcases hpe : processField lib elem vs (zero elem) with ⟨v, ov⟩
    rw [hpk] at hk
    rw [hpe] at hv
    simp only at hk hv
    subst hk
    subst hv
    simp only
    rw [ih rest _ (fun x hx => h x (List.mem_cons_of_mem _ hx))]
    simp only [List.map_cons, insertAll, List.foldl_cons, coercePair, hsp, hpk, hpe]

theorem processPairs_key_fail (pk pe : String → Val → Val × Outcome) (zk zv : Val)
    (pair : String) (post : List String) (mp : List (Val × Val)) (ks vs : String)
    (hsp : Split pair ':' = [ks, vs]) (hk : (pk ks zk).2 ≠ .nil) :
    processPairs pk pe zk zv (pair :: post) mp = (mp, (pk ks zk).2) := by
  rw [processPairs, hsp]
  rcases hpk : pk ks zk with ⟨k, ok⟩
  rw [hpk] at hk
  cases ok with
  | nil => exact absurd rfl hk
  | err e => simp only [hpk]
  | panic => simp only [hpk]

theorem processPairs_elem_fail (pk pe : String → Val → Val × Outcome) (zk zv : Val)
    (pair : String) (post : List String) (mp : List (Val × Val)) (ks vs : String)
    (hsp : Split pair ':' = [ks, vs]) (hk : (pk ks zk).2 = .nil) (hv : (pe vs zv).2 ≠ .nil) :
    processPairs pk pe zk zv (pair :: post) mp = (mp, (pe vs zv).2) := by
  rw [processPairs, hsp]
  rcases hpk : pk ks zk with ⟨k, ok⟩
  rw [hpk] at hk
  simp only at hk
  subst hk
  rcases hpe : pe vs zv with ⟨v, ov⟩
  rw [hpe] at hv
  cases ov with
  | nil => exact absurd rfl hv
  | err e => simp only [hpk, hpe]
  | panic => simp only [hpk, hpe]

theorem builtinRule_map_fail (lib : Stdlib) (mt : TypeMeta) (key elem : Ty) (raw : String)
    (x : Val) (mp : List (Val × Val)) (o : Outcome) (hb : TrimSpace raw ≠ "")
    (hp : processPairs (processField lib key) (processField lib elem) (zero key) (zero elem)
      (Split raw ',') [] = (mp, o)) (ho : o ≠ .nil) :
    builtinRule lib (.map mt key elem) raw x = (x, o) := by
  rw [builtinRule_map, if_pos hb, hp]
  cases o with
  | nil => exact absurd rfl ho
  | err e => rfl
  | panic => rfl

theorem first_failing {α : Type} (p : α → Bool) : ∀ (l : List α), (∃ q ∈ l, p q = false) →
    ∃ pre a post, l = pre ++ a :: post ∧ (∀ q ∈ pre, p q = true) ∧ p a = false := by
  intro l
  induction l with
  | nil => intro h; obtain ⟨q, hq, _⟩ := h; simp at hq
  | cons a tl ih =>
    intro h
    by_cases ha : p a = true
    · have htl : ∃ q ∈ tl, p q = false := by
        obtain ⟨q, hq, hf⟩ := h
        rcases List.mem_cons.mp hq with h1 | h1
        · rw [h1, ha] at hf; cases hf
        · exact ⟨q, h1, hf⟩
      obtain ⟨pre, b, post, hl, hpre, hb⟩ := ih htl
      refine ⟨a :: pre, b, post, ?_, ?_, hb⟩
      · rw [hl]; rfl
      · intro q hq
        rcases List.mem_cons.mp hq with h1 | h1
        · rw [h1]; exact ha
        · exact hpre q h1
    · refine ⟨[], a, tl, rfl, ?_, ?_⟩
      · intro q hq; cases hq
      · cases hp : p a
        · rfl
        · exact absurd hp ha

theorem pairOK_malformed (lib : Stdlib) (key elem : Ty) (q : String)
    (h : (Split q ':').length ≠ 2) : pairOK lib key elem q = false := by
  cases hp : pairOK lib key elem q
  · rfl
  · obtain ⟨ks, vs, hsp, _, _⟩ := (pairOK_iff lib key elem q).mp hp
    exact absurd hsp (length_two _ h ks vs)

theorem pairOK_false_cases (lib : Stdlib) (key elem : Ty) (q : String)
    (h : pairOK lib key elem q = false) :
    (Split q ':').length ≠ 2 ∨
    ∃ ks vs, Split q ':' = [ks, vs] ∧
      ((processField lib key ks (zero key)).2 ≠ .nil ∨
       ((processField lib key ks (zero key)).2 = .nil ∧
        (processField lib elem vs (zero elem)).2 ≠ .nil)) := by
  by_cases hlen : (Split q ':').length = 2
  · right
    rcases hsp : Split q ':' with _ | ⟨a, _ | ⟨b, _ | ⟨c, t⟩⟩⟩
    · rw [hsp] at hlen; simp at hlen
    · rw [hsp] at hlen; simp at hlen
    · refine ⟨a, b, rfl, ?_⟩
      by_cases hk : (processField lib key a (zero key)).2 = .nil
      · right
        refine ⟨hk, ?_⟩
        intro hv
        have : pairOK lib key elem q = true := (pairOK_iff lib key elem q).mpr ⟨a, b, hsp, hk, hv⟩
        rw [h] at this
        cases this
      · left; exact hk
    · rw [hsp] at hlen; simp at hlen
  · left; exact hlen

/-! ## Key equality is symmetric and transitive -/

theorem float64Eq_symm (a b : Nat) : float64Eq a b = float64Eq b a := by
  unfold float64Eq
  rw [Bool.eq_iff_iff]
  simp only [Bool.and_eq_true, Bool.not_eq_true', Bool.or_eq_true, beq_iff_eq]
  constructor
  · rintro ⟨⟨ha, hb⟩, h | h⟩
    · exact ⟨⟨hb, ha⟩, Or.inl h.symm⟩
    · exact ⟨⟨hb, ha⟩, Or.inr ⟨h.2, h.1⟩⟩
  · rintro ⟨⟨ha, hb⟩, h | h⟩
    · exact ⟨⟨hb, ha⟩, Or.inl h.symm⟩
    · exact ⟨⟨hb, ha⟩, Or.inr ⟨h.2, h.1⟩⟩

theorem float64Eq_trans (a b c : Nat) (h1 : float64Eq a b = true) (h2 : float64Eq b c = true) :
    float64Eq a c = true := by
  unfold float64Eq at *
  simp only [Bool.and_eq_true, Bool.not_eq_true', Bool.or_eq_true, beq_iff_eq] at *
  obtain ⟨⟨ha, hb⟩, h1⟩ := h1
  obtain ⟨⟨_, hc⟩, h2⟩ := h2
  refine ⟨⟨ha, hc⟩, ?_⟩
  rcases h1 with h1 | h1 <;> rcases h2 with h2 | h2
  · left; omega
  · right; subst h1; exact h2
  · right; subst h2; exact h1
  · right; exact ⟨h1.1, h2.2⟩

theorem keyEq_struct (as bs : List Val) : keyEq (.struct as) (.struct bs) = keyEqList as bs := by
  simp [keyEq]

theorem keyEq_struct_left (as : List Val) (b : Val) (h : keyEq (.struct as) b = true) :
    ∃ bs, b = .struct bs := by
  cases b with
  | struct bs => exact ⟨bs, rfl⟩
  | ptr x => cases x <;> simp [keyEq] at h
  | _ => simp [keyEq] at h

theorem keyEq_struct_right (a : Val) (bs : List Val) (h : keyEq a (.struct bs) = true) :
    ∃ as, a = .struct as := by
  cases a with
  | struct as => exact ⟨as, rfl⟩
  | ptr x => cases x <;> simp [keyEq] at h
  | _ => simp [keyEq] at h

theorem keyEq_symm_flat (a b : Val) (h : ∀ as bs, a = .struct as → b = .struct bs → False) :
    keyEq a b = keyEq b a := by
  cases a with
  | struct as =>
    cases b with
    | struct bs => exact absurd rfl (fun e => h as bs rfl e)
    | ptr y => cases y <;> simp [keyEq]
    | _ => simp [keyEq]
  | float x =>
    cases b with
    | ptr y => cases y <;> simp [keyEq]
    | _ => simp [keyEq, float64Eq_symm]
  | bool x =>
    cases b with
    | ptr y => cases y <;> simp [keyEq]
    | _ => simp [keyEq, eq_comm]
  | int x =>
    cases b with
    | ptr y => cases y <;> simp [keyEq]
    | _ => simp [keyEq, eq_comm]
  | uint x =>
    cases b with
    | ptr y => cases y <;> simp [keyEq]
    | _ => simp [keyEq, eq_comm]
  | str x =>
    cases b with
    | ptr y => cases y <;> simp [keyEq]
    | _ => simp [keyEq, eq_comm]
  | other x =>
    cases b with
    | ptr y => cases y <;> simp [keyEq]
    | _ => simp [keyEq, eq_comm]
  | ptr x =>
    cases b with
    | ptr y => cases x <;> cases y <;> simp [keyEq]
    | _ => cases x <;> simp [keyEq]
  | slice x =>
    cases b with
    | ptr y => cases y <;> simp [keyEq]
    | _ => simp [keyEq]
  | map x =>
    cases b with
    | ptr y => cases y <;> simp [keyEq]
    | _ => simp [keyEq]

theorem keyEq_trans_flat (a b c : Val) (hns : ∀ as, a ≠ .struct as)
    (h1 : keyEq a b = true) (h2 : keyEq b c = true) : keyEq a c = true := by
  cases a with
  | struct as => exact absurd rfl (hns as)
  | float x =>
    cases b with
    | float y =>
      cases c with
      | float z =>
        simp only [keyEq] at h1 h2 ⊢
        exact float64Eq_trans x y z h1 h2
      | ptr z => cases z <;> simp [keyEq] at h2
      | _ => simp [keyEq] at h2
    | ptr y => cases y <;> simp [keyEq] at h1
    | _ => simp [keyEq] at h1
  | bool x =>
    cases b with
    | bool y =>
      cases c with
      | ptr z => cases z <;> simp [keyEq] at h2
      | _ => simp_all [keyEq]
    | ptr y => cases y <;> simp [keyEq] at h1
    | _ => simp [keyEq] at h1
  | int x =>
    cases b with
    | int y =>
      cases c with
      | ptr z => cases z <;> simp [keyEq] at h2
      | _ => simp_all [keyEq]
    | ptr y => cases y <;> simp [keyEq] at h1
    | _ => simp [keyEq] at h1
  | uint x =>
    cases b with
    | uint y =>
      cases c with
      | ptr z => cases z <;> simp [keyEq] at h2
      | _ => simp_all [keyEq]
    | ptr y => cases y <;> simp [keyEq] at h1
    | _ => simp [keyEq] at h1
  | str x =>
    cases b with
    | str y =>
      cases c with
      | ptr z => cases z <;> simp [keyEq] at h2
      | _ => simp_all [keyEq]
    | ptr y => cases y <;> simp [keyEq] at h1
    | _ => simp [keyEq] at h1
  | other x =>
    cases b with
    | other y =>
      cases c with
      | ptr z => cases z <;> simp [keyEq] at h2
      | _ => simp_all [keyEq]
    | ptr y => cases y <;> simp [keyEq] at h1
    | _ => simp [keyEq] at h1
  | ptr x =>
    cases b with
    | ptr y =>
      cases x with
      | none =>
        cases y with
        | none => exact h2
        | some q => simp [keyEq] at h1
      | some p => cases y <;> simp [keyEq] at h1
    | _ => cases x <;> simp [keyEq] at h1
  | slice x =>
    cases b with
    | ptr y => cases y <;> simp [keyEq] at h1
    | _ => simp [keyEq] at h1
  | map x =>
    cases b with
    | ptr y => cases y <;> simp [keyEq] at h1
    | _ => simp [keyEq] at h1

theorem keyEqList_nil_left (bs : List Val) : keyEqList [] bs = true ↔ bs = [] := by
  cases bs <;> simp [keyEqList]

theorem keyEqList_cons (a : Val) (as bs : List Val) :
    keyEqList (a :: as) bs = true ↔
      ∃ b bs', bs = b :: bs' ∧ keyEq a b = true ∧ keyEqList as bs' = true := by
  cases bs with
  | nil => simp [keyEqList]
  | cons b bs' =>
    simp only [keyEqList, Bool.and_eq_true]
    constructor
    · intro h
      exact ⟨b, bs', rfl, h⟩
    · rintro ⟨b', bs'', hb, h⟩
      simp only [List.cons.injEq] at hb
      rw [hb.1, hb.2]
      exact h

theorem keyEqList_cons_cons (a b : Val) (as bs : List Val) :
    keyEqList (a :: as) (b :: bs) = (keyEq a b && keyEqList as bs) := by
  simp [keyEqList]

theorem keyEqList_nil_cons (b : Val) (bs : List Val) : keyEqList [] (b :: bs) = false := by
  simp [keyEqList]

theorem keyEqList_cons_nil (a : Val) (as : List Val) : keyEqList (a :: as) [] = false := by
  simp [keyEqList]

theorem keyEqList_symm_of (as : List Val)
    (ih : ∀ a ∈ as, ∀ b, keyEq a b = keyEq b a) : ∀ bs, keyEqList as bs = keyEqList bs as := by
  induction as with
  | nil =>
    intro bs
    cases bs with
    | nil => rfl
    | cons b bs => rw [keyEqList_nil_cons, keyEqList_cons_nil]
  | cons a as ihl =>
    intro bs
    cases bs with
    | nil => rw [keyEqList_nil_cons, keyEqList_cons_nil]
    | cons b bs =>
      rw [keyEqList_cons_cons, keyEqList_cons_cons, ih a (List.mem_cons_self _ _) b,
        ihl (fun x hx => ih x (List.mem_cons_of_mem _ hx)) bs]

theorem sizeOf_struct_mem (as : List Val) (x : Val) (hx : x ∈ as) :
    sizeOf x < sizeOf (Val.struct as) := by
  have := List.sizeOf_lt_of_mem hx
  simp only [Val.struct.sizeOf_spec]
  omega

theorem sizeOf_val_pos (a : Val) : 0 < sizeOf a := by
  cases a <;> simp

theorem keyEq_symm_aux : ∀ (n : Nat) (a b : Val), sizeOf a ≤ n → keyEq a b = keyEq b a := by
  intro n
  induction n with
  | zero =>
    intro a b h
    have := sizeOf_val_pos a
    omega
  | succ n ih =>
    intro a b h
    by_cases hst : ∃ as bs, a = .struct as ∧ b = .struct bs
    · obtain ⟨as, bs, ha, hb⟩ := hst
      rw [ha, hb, keyEq_struct, keyEq_struct]
      refine keyEqList_symm_of as (fun x hx y => ih x y ?_) bs
      have := sizeOf_struct_mem as x hx
      rw [ha] at h
      omega
    · exact keyEq_symm_flat a b (fun as bs ha hb => hst ⟨as, bs, ha, hb⟩)

/-- Go `==` on map keys is symmetric. -/
theorem keyEq_symm (a b : Val) : keyEq a b = keyEq b a :=
  keyEq_symm_aux (sizeOf a) a b (Nat.le_refl _)

theorem keyEqList_trans_of (as : List Val)
    (ih : ∀ a ∈ as, ∀ b c, keyEq a b = true → keyEq b c = true → keyEq a c = true) :
    ∀ bs cs, keyEqList as bs = true → keyEqList bs cs = true → keyEqList as cs = true := by
  induction as with
  | nil =>
    intro bs cs h1 h2
    rw [(keyEqList_nil_left bs).mp h1] at h2
    exact h2
  | cons a as ihl =>
    intro bs cs h1 h2
    obtain ⟨b, bs', hb, hab, habs⟩ := (keyEqList_cons a as bs).mp h1
    rw [hb] at h2
    obtain ⟨c, cs', hc, hbc, hbcs⟩ := (keyEqList_cons b bs' cs).mp h2
    rw [hc, keyEqList_cons_cons, Bool.and_eq_true]
    exact ⟨ih a (List.mem_cons_self _ _) b c hab hbc,
      ihl (fun x hx => ih x (List.mem_cons_of_mem _ hx)) bs' cs' habs hbcs⟩

theorem keyEq_trans_aux : ∀ (n : Nat) (a b c : Val), sizeOf a ≤ n →
    keyEq a b = true → keyEq b c = true → keyEq a c = true := by
  intro n
  induction n with
  | zero =>
    intro a b c h
    have := sizeOf_val_pos a
    omega
  | succ n ih =>
    intro a b c h h1 h2
    by_cases hst : ∃ as, a = .struct as
    · obtain ⟨as, ha⟩ := hst
      rw [ha] at h1
      obtain ⟨bs, hb⟩ := keyEq_struct_left as b h1
      rw [hb] at h1 h2
      obtain ⟨cs, hc⟩ := keyEq_struct_left bs c h2
      rw [hc] at h2
      rw [keyEq_struct] at h1 h2
      rw [ha, hc, keyEq_struct]
      refine keyEqList_trans_of as (fun x hx y z => ih x y z ?_) bs cs h1 h2
      have := sizeOf_struct_mem as x hx
      rw [ha] at h
      omega
    · exact keyEq_trans_flat a b c (fun as ha => hst ⟨as, ha⟩) h1 h2

/-- Go `==` on map keys is transitive. -/
theorem keyEq_trans (a b c : Val) (h1 : keyEq a b = true) (h2 : keyEq b c = true) :
    keyEq a c = true :=
  keyEq_trans_aux (sizeOf a) a b c (Nat.le_refl _) h1 h2

/-! ## Looking up what `SetMapIndex` stored -/

theorem MapIndex_nil (k : Val) : MapIndex [] k = none := rfl

theorem MapIndex_cons (e : Val × Val) (mp : List (Val × Val)) (k : Val) :
    MapIndex (e :: mp) k = if keyEq e.1 k = true then some e.2 else MapIndex mp k := by
  unfold MapIndex
  rw [List.find?_cons]
  cases h : keyEq e.1 k <;> simp

theorem keyEq_left_congr (a b c : Val) (h : keyEq a b = true) : keyEq a c = keyEq b c := by
  rw [Bool.eq_iff_iff]
  constructor
  · intro hac
    exact keyEq_trans b a c (by rw [keyEq_symm]; exact h) hac
  · intro hbc
    exact keyEq_trans a b c h hbc

theorem MapIndex_SetMapIndex (mp : List (Val × Val)) (k v k' : Val) :
    MapIndex (SetMapIndex mp k v) k' = if keyEq k k' = true then some v else MapIndex mp k' := by
  induction mp with
  | nil =>
    simp only [SetMapIndex, MapIndex_cons, MapIndex_nil]
  | cons e rest ih =>
    obtain ⟨k0, v0⟩ := e
    unfold SetMapIndex
    by_cases h0 : keyEq k0 k = true
    · rw [if_pos h0, MapIndex_cons, MapIndex_cons]
      simp only
      rw [keyEq_left_congr k0 k k' h0]
      by_cases hk : keyEq k k' = true
      · rw [if_pos hk, if_pos hk]
      · rw [if_neg hk, if_neg hk, if_neg hk]
    · rw [if_neg h0, MapIndex_cons, MapIndex_cons, ih]
      simp only
      by_cases hk0 : keyEq k0 k' = true
      · rw [if_pos hk0, if_pos hk0]
        have hne : ¬ keyEq k k' = true := by
          intro hk
          apply h0
          exact keyEq_trans k0 k' k hk0 (by rw [keyEq_symm]; exact hk)
        rw [if_neg hne]
      · rw [if_neg hk0, if_neg hk0]

theorem insertAll_cons (mp : List (Val × Val)) (p : Val × Val) (ps : List (Val × Val)) :
    insertAll mp (p :: ps) = insertAll (SetMapIndex mp p.1 p.2) ps := rfl

theorem MapIndex_insertAll (ps : List (Val × Val)) : ∀ (mp : List (Val × Val)) (k : Val),
    MapIndex (insertAll mp ps) k =
      (match ps.reverse.find? (fun p => keyEq p.1 k) with
       | some p => some p.2
       | none => MapIndex mp k) := by
  induction ps with
  | nil => intro mp k; rfl
  | cons p rest ih =>
    intro mp k
    rw [insertAll_cons, ih, List.reverse_cons, List.find?_append, MapIndex_SetMapIndex]
    cases hf : rest.reverse.find? (fun p => keyEq p.1 k) with
    | some q => rfl
    | none =>
      simp only [Option.none_or, List.find?_cons, List.find?_nil]
      cases hk : keyEq p.1 k <;> simp

theorem SetMapIndex_keys (mp : List (Val × Val)) (k v : Val) :
    ∀ e ∈ SetMapIndex mp k v, e.1 = k ∨ ∃ e' ∈ mp, e'.1 = e.1 := by
  induction mp with
  | nil =>
    intro e he
    simp only [SetMapIndex, List.mem_singleton] at he
    left; rw [he]
  | cons e0 rest ih =>
    obtain ⟨k0, v0⟩ := e0
    intro e he
    unfold SetMapIndex at he
    split at he
    · rcases List.mem_cons.mp he with h | h
      · right; exact ⟨(k0, v0), List.mem_cons_self _ _, by rw [h]⟩
      · right; exact ⟨e, List.mem_cons_of_mem _ h, rfl⟩
    · rcases List.mem_cons.mp he with h | h
      · right; exact ⟨(k0, v0), List.mem_cons_self _ _, by rw [h]⟩
      · rcases ih e h with h1 | ⟨e', he', h1⟩
        · left; exact h1
        · right; exact ⟨e', List.mem_cons_of_mem _ he', h1⟩

/-- `SetMapIndex` keeps the keys of a map pairwise different. -/
theorem SetMapIndex_pairwise (mp : List (Val × Val)) (k v : Val)
    (h : mp.Pairwise (fun a b => keyEq a.1 b.1 = false)) :
    (SetMapIndex mp k v).Pairwise (fun a b => keyEq a.1 b.1 = false) := by
  induction mp with
  | nil => simp [SetMapIndex]
  | cons e0 rest ih =>
    obtain ⟨k0, v0⟩ := e0
    obtain ⟨h1, h2⟩ := List.pairwise_cons.mp h
    unfold SetMapIndex
    by_cases h0 : keyEq k0 k = true
    · rw [if_pos h0]
      exact List.pairwise_cons.mpr ⟨fun b hb => h1 b hb, h2⟩
    · rw [if_neg h0]
      refine List.pairwise_cons.mpr ⟨?_, ih h2⟩
      intro b hb
      rcases SetMapIndex_keys rest k v b hb with hk | ⟨e', he', hk⟩
      · simp only
        rw [hk]
        simpa using h0
      · have := h1 e' he'
        simp only at this ⊢
        rw [← hk]
        exact this

theorem insertAll_pairwise (ps : List (Val × Val)) : ∀ (mp : List (Val × Val)),
    mp.Pairwise (fun a b => keyEq a.1 b.1 = false) →
    (insertAll mp ps).Pairwise (fun a b => keyEq a.1 b.1 = false) := by
  induction ps with
  | nil => intro mp h; exact h
  | cons p rest ih =>
    intro mp h
    rw [insertAll_cons]
    exact ih _ (SetMapIndex_pairwise mp p.1 p.2 h)

theorem find_unique (k : Val) (l : List (Val × Val))
    (hpw : l.Pairwise (fun a b => keyEq a.1 b.1 = false)) :
    ∀ p ∈ l, keyEq p.1 k = true → l.find? (fun q => keyEq q.1 k) = some p := by
  induction l with
  | nil => intro p hp; cases hp
  | cons a t ih =>
    intro p hp hk
    obtain ⟨h1, h2⟩ := List.pairwise_cons.mp hpw
    rw [List.find?_cons]
    cases ha : keyEq a.1 k with
    | true =>
      simp only
      rcases List.mem_cons.mp hp with h | h
      · rw [h]
      · have hf := h1 p h
        have ht : keyEq a.1 p.1 = true :=
          keyEq_trans a.1 k p.1 ha (by rw [keyEq_symm]; exact hk)
        rw [ht] at hf
        cases hf
    | false =>
      simp only
      rcases List.mem_cons.mp hp with h | h
      · rw [h, ha] at hk
        cases hk
      · exact ih h2 p h hk

/-- With pairwise different keys, what is found under a key does not depend
on the order of the entries. -/
theorem find_perm (k : Val) (l l' : List (Val × Val)) (hp : l.Perm l')
    (hpw : l.Pairwise (fun a b => keyEq a.1 b.1 = false)) :
    l.find? (fun q => keyEq q.1 k) = l'.find? (fun q => keyEq q.1 k) := by
  have hsymm : ∀ a b : Val × Val, keyEq a.1 b.1 = false → keyEq b.1 a.1 = false := by
    intro a b h
    rw [keyEq_symm]
    exact h
  have hpw' : l'.Pairwise (fun a b => keyEq a.1 b.1 = false) :=
    (hp.pairwise_iff (fun {a b} h => hsymm a b h)).mp hpw
  by_cases hex : ∃ p ∈ l, keyEq p.1 k = true
  · obtain ⟨p, hpl, hk⟩ := hex
    rw [find_unique k l hpw p hpl hk, find_unique k l' hpw' p (hp.mem_iff.mp hpl) hk]
  · have h1 : l.find? (fun q => keyEq q.1 k) = none := by
      rw [List.find?_eq_none]
      intro x hx hk
      exact hex ⟨x, hx, hk⟩
    have h2 : l'.find? (fun q => keyEq q.1 k) = none := by
      rw [List.find?_eq_none]
      intro x hx hk
      exact hex ⟨x, hp.mem_iff.mpr hx, hk⟩
    rw [h1, h2]

theorem MapIndex_insertAll_perm (ps ps' : List (Val × Val)) (hp : ps.Perm ps')
    (hpw : ps.Pairwise (fun a b => keyEq a.1 b.1 = false)) (k : Val) :
    MapIndex (insertAll [] ps) k = MapIndex (insertAll [] ps') k := by
  have hsymm : ∀ a b : Val × Val, keyEq a.1 b.1 = false → keyEq b.1 a.1 = false := by
    intro a b h
    rw [keyEq_symm]
    exact h
  have hrev : ps.reverse.Pairwise (fun a b => keyEq a.1 b.1 = false) := by
    rw [List.pairwise_reverse]
    exact hpw.imp (fun {a b} h => hsymm a b h)
  rw [MapIndex_insertAll, MapIndex_insertAll,
    find_perm k ps.reverse ps'.reverse
      ((List.reverse_perm ps).trans (hp.trans (List.reverse_perm ps').symm)) hrev]

/-! ## `strconv.ParseUint` and `strconv.ParseInt` compute the value of the literal -/

theorem char_of_toNat (c d : Char) (h : c.toNat = d.toNat) : c = d := by
  apply Char.ext
  apply UInt32.eq_of_toBitVec_eq
  exact BitVec.eq_of_toNat_eq h

theorem le_lower (b : Nat) : b ≤ lower b := by
  unfold lower
  apply Nat.le_of_testBit
  intro i h
  simp [Nat.testBit_lor, h]

theorem lower_small : ∀ b < 128,
    (65 ≤ b ∧ b ≤ 90 → lower b = b + 32) ∧ (97 ≤ b ∧ b ≤ 122 → lower b = b) ∧
    (97 ≤ lower b ∧ lower b ≤ 122 → (65 ≤ b ∧ b ≤ 90) ∨ (97 ≤ b ∧ b ≤ 122)) ∧
    (lower b = 98 ↔ b = 98 ∨ b = 66) ∧ (lower b = 111 ↔ b = 111 ∨ b = 79) ∧
    (lower b = 120 ↔ b = 120 ∨ b = 88) := by
  decide

/-- The digit that the loop of `ParseUint` reads off a byte is the digit the
character denotes. -/
theorem digit_eq (c : Char) :
    (if 48 ≤ c.toNat && c.toNat ≤ 57 then some (c.toNat - 48)
     else if 97 ≤ lower c.toNat && lower c.toNat ≤ 122 then some (lower c.toNat - 97 + 10)
     else none) = digitOf c := by
  unfold digitOf
  by_cases hsm : c.toNat < 128
  · obtain ⟨h1, h2, h3, _⟩ := lower_small c.toNat hsm
    by_cases hd : 48 ≤ c.toNat ∧ c.toNat ≤ 57
    · simp [hd]
    · have hd' : ¬((48 ≤ c.toNat && c.toNat ≤ 57) = true) := by simpa using hd
      rw [if_neg hd', if_neg hd]
      by_cases hl : 97 ≤ c.toNat ∧ c.toNat ≤ 122
      · rw [if_pos hl, h2 hl]
        simp [hl]
      · rw [if_neg hl]
        by_cases hu : 65 ≤ c.toNat ∧ c.toNat ≤ 90
        · rw [if_pos hu, h1 hu]
          have : (97 ≤ c.toNat + 32 && c.toNat + 32 ≤ 122) = true := by
            simp only [Bool.and_eq_true, decide_eq_true_eq]
            omega
          rw [if_pos this, Option.some.injEq]
          omega
        · rw [if_neg hu]
          have : ¬((97 ≤ lower c.toNat && lower c.toNat ≤ 122) = true) := by
            simp only [Bool.and_eq_true, decide_eq_true_eq]
            intro h
            rcases h3 h with h | h
            · exact hu h
            · exact hl h
          rw [if_neg this]
  · have hge := le_lower c.toNat
    have h1 : ¬((48 ≤ c.toNat && c.toNat ≤ 57) = true) := by
      simp only [Bool.and_eq_true, decide_eq_true_eq]; omega
    have h2 : ¬((97 ≤ lower c.toNat && lower c.toNat ≤ 122) = true) := by
      simp only [Bool.and_eq_true, decide_eq_true_eq]; omega
    rw [if_neg h1, if_neg h2, if_neg (by omega), if_neg (by omega), if_neg (by omega)]

theorem underscore_iff (c : Char) : (c.toNat == 95) = true ↔ c = '_' := by
  simp only [beq_iff_eq]
  constructor
  · intro h
    exact char_of_toNat c '_' h
  · intro h
    rw [h]
    rfl

theorem digitOf_lt (c : Char) (d : Nat) (h : digitOf c = some d) : d < 36 := by
  unfold digitOf at h
  split at h
  · simp only [Option.some.injEq] at h; omega
  · split at h
    · simp only [Option.some.injEq] at h; omega
    · split at h
      · simp only [Option.some.injEq] at h; omega
      · cases h

theorem literalDigits_ge (base : Nat) (hb : 1 ≤ base) : ∀ (cs : List Char) (n v : Nat),
    literalDigits base cs n = some v → n ≤ v := by
  intro cs
  induction cs with
  | nil =>
    intro n v h
    simp only [literalDigits, Option.some.injEq] at h
    omega
  | cons c cs ih =>
    intro n v h
    unfold literalDigits at h
    split at h
    · exact ih n v h
    · split at h
      · split at h
        · have := ih _ v h
          have : n ≤ n * base := Nat.le_mul_of_pos_right n hb
          omega
        · cases h
      · cases h

theorem parseDigits_cons (base maxVal : Nat) (c : Char) (cs : List Char) (n : Nat) (u : Bool) :
    parseDigits base maxVal (c :: cs) n u =
      (if c = '_' then parseDigits base maxVal cs n true
       else
         match digitOf c with
         | none => .error false
         | some d =>
           if d ≥ base then .error false
           else if n ≥ (2 ^ 64 - 1) / base + 1 then .error true
           else if ((n * base + d) % 2 ^ 64 < n * base ||
               (n * base + d) % 2 ^ 64 > maxVal) = true then .error true
           else parseDigits base maxVal cs ((n * base + d) % 2 ^ 64) u) := by
  rw [parseDigits]
  simp only
  by_cases hu : c = '_'
  · rw [if_pos hu, if_pos ((underscore_iff c).mpr hu)]
  · rw [if_neg hu, if_neg (fun h => hu ((underscore_iff c).mp h)), digit_eq]

theorem cutoff_iff (base n : Nat) (hb : 1 ≤ base) :
    n ≥ (2 ^ 64 - 1) / base + 1 ↔ 2 ^ 64 ≤ n * base := by
  have h := Nat.div_lt_iff_lt_mul (x := 2 ^ 64 - 1) (y := n) (Nat.lt_of_lt_of_le Nat.zero_lt_one hb)
  constructor
  · intro hn
    have : (2 ^ 64 - 1) / base < n := by omega
    have := h.mp this
    omega
  · intro hn
    have : 2 ^ 64 - 1 < n * base := by omega
    have := h.mpr this
    omega

/-- The digit loop of `ParseUint` against the value of the digits: it returns
the value when the value is at most `maxVal`, reports a range error when it
is larger, and reports an error when the characters are not digits of the
base. -/
theorem parseDigits_spec (base maxVal : Nat) (hb : 1 ≤ base) (hb36 : base ≤ 36)
    (hm : maxVal < 2 ^ 64) : ∀ (cs : List Char) (n : Nat) (u : Bool), n ≤ maxVal →
    (∀ v, literalDigits base cs n = some v → v ≤ maxVal →
      parseDigits base maxVal cs n u = .ok (v, u || cs.any (fun c => c == '_'))) ∧
    (∀ v, literalDigits base cs n = some v → maxVal < v →
      parseDigits base maxVal cs n u = .error true) ∧
    (literalDigits base cs n = none → ∃ e, parseDigits base maxVal cs n u = .error e) := by
  intro cs
  induction cs with
  | nil =>
    intro n u hn
    refine ⟨?_, ?_, ?_⟩
    · intro v hv _
      simp only [literalDigits, Option.some.injEq] at hv
      simp [parseDigits, hv]
    · intro v hv hlt
      simp only [literalDigits, Option.some.injEq] at hv
      omega
    · intro h
      simp [literalDigits] at h
  | cons c cs ih =>
    intro n u hn
    rw [parseDigits_cons]
    unfold literalDigits
    by_cases hu : c = '_'
    · simp only [if_pos hu]
      obtain ⟨i1, i2, i3⟩ := ih n true hn
      refine ⟨?_, i2, i3⟩
      intro v hv hle
      rw [i1 v hv hle, hu]
      simp
    · simp only [if_neg hu]
      have hany : (c :: cs).any (fun c => c == '_') = cs.any (fun c => c == '_') := by
        simp [List.any_cons, hu]
      cases hd : digitOf c with
      | none =>
        simp only
        refine ⟨?_, ?_, ?_⟩
        · intro v hv; cases hv
        · intro v hv; cases hv
        · intro _; exact ⟨false, rfl⟩
      | some d =>
        simp only
        by_cases hdb : d < base
        · have hnb : ¬ d ≥ base := by omega
          rw [if_pos hdb, if_neg hnb]
          have hmono := literalDigits_ge base hb cs (n * base + d)
          by_cases hc : n ≥ (2 ^ 64 - 1) / base + 1
          · rw [if_pos hc]
            have hbig := (cutoff_iff base n hb).mp hc
            refine ⟨?_, fun _ _ _ => rfl, fun _ => ⟨true, rfl⟩⟩
            intro v hv hle
            have := hmono v hv
            omega
          · rw [if_neg hc]
            have hsmall : n * base < 2 ^ 64 := by
              by_contra hge
              exact hc ((cutoff_iff base n hb).mpr (by omega))
            by_cases hov : 2 ^ 64 ≤ n * base + d
            · have hmod : (n * base + d) % 2 ^ 64 = n * base + d - 2 ^ 64 := by
                rw [Nat.mod_eq_sub_mod hov, Nat.mod_eq_of_lt (by omega)]
              have hcond : ((n * base + d) % 2 ^ 64 < n * base ||
                  (n * base + d) % 2 ^ 64 > maxVal) = true := by
                rw [hmod]
                simp only [Bool.or_eq_true, decide_eq_true_eq]
                left
                omega
              rw [if_pos hcond]
              refine ⟨?_, fun _ _ _ => rfl, fun _ => ⟨true, rfl⟩⟩
              intro v hv hle
              have := hmono v hv
              omega
            · have hmod : (n * base + d) % 2 ^ 64 = n * base + d :=
                Nat.mod_eq_of_lt (by omega)
              rw [hmod]
              by_cases hgt : n * base + d > maxVal
              · have hcond : (decide (n * base + d < n * base) ||
                    decide (n * base + d > maxVal)) = true := by
                  simp only [Bool.or_eq_true, decide_eq_true_eq]
                  right
                  exact hgt
                rw [if_pos hcond]
                refine ⟨?_, fun _ _ _ => rfl, fun _ => ⟨true, rfl⟩⟩
                intro v hv hle
                have := hmono v hv
                omega
              · have hcond : ¬((decide (n * base + d < n * base) ||
                    decide (n * base + d > maxVal)) = true) := by
                  simp only [Bool.or_eq_true, decide_eq_true_eq]
                  omega
                rw [if_neg hcond, hany]
                exact ih (n * base + d) u (by omega)
        · have hnb : d ≥ base := by omega
          rw [if_neg hdb, if_pos hnb]
          refine ⟨?_, ?_, ?_⟩
          · intro v hv; cases hv
          · intro v hv; cases hv
          · intro _; exact ⟨false, rfl⟩

theorem lower_eq_iff (c : Char) :
    (lower c.toNat = 98 ↔ (c = 'b' ∨ c = 'B')) ∧
    (lower c.toNat = 111 ↔ (c = 'o' ∨ c = 'O')) ∧
    (lower c.toNat = 120 ↔ (c = 'x' ∨ c = 'X')) := by
  have hchar : ∀ d : Char, c.toNat = d.toNat ↔ c = d := fun d =>
    ⟨char_of_toNat c d, fun h => by rw [h]⟩
  by_cases hsm : c.toNat < 128
  · obtain ⟨_, _, _, h4, h5, h6⟩ := lower_small c.toNat hsm
    refine ⟨?_, ?_, ?_⟩
    · rw [h4, ← hchar 'b', ← hchar 'B']; rfl
    · rw [h5, ← hchar 'o', ← hchar 'O']; rfl
    · rw [h6, ← hchar 'x', ← hchar 'X']; rfl
  · have hge := le_lower c.toNat
    have hne : ∀ d : Char, d.toNat < 128 → c ≠ d := by
      intro d hd h
      rw [h] at hsm
      exact hsm hd
    refine ⟨?_, ?_, ?_⟩
    · constructor
      · intro h; omega
      · rintro (h | h)
        · exact absurd h (hne 'b' (by decide))
        · exact absurd h (hne 'B' (by decide))
    · constructor
      · intro h; omega
      · rintro (h | h)
        · exact absurd h (hne 'o' (by decide))
        · exact absurd h (hne 'O' (by decide))
    · constructor
      · intro h; omega
      · rintro (h | h)
        · exact absurd h (hne 'x' (by decide))
        · exact absurd h (hne 'X' (by decide))

/-- The base and digits that `ParseUint` works out for base 0 are those the
start of the literal announces. -/
theorem base_eq (c0 : Char) (rest : List Char) :
    (if c0 = '0' then
        match rest with
        | c1 :: _ :: _ =>
          if lower c1.toNat = 98 then (2, rest.tail)
          else if lower c1.toNat = 111 then (8, rest.tail)
          else if lower c1.toNat = 120 then (16, rest.tail)
          else (8, rest)
        | _ => (8, rest)
      else (10, c0 :: rest)) = literalBase (c0 :: rest) := by
  rcases rest with _ | ⟨c1, _ | ⟨c2, r⟩⟩
  · simp only [literalBase]
  · simp only [literalBase]
  · obtain ⟨hb, ho, hx⟩ := lower_eq_iff c1
    simp only [literalBase, List.tail_cons, hb, ho, hx]

theorem literalBase_range (cs : List Char) :
    1 ≤ (literalBase cs).1 ∧ (literalBase cs).1 ≤ 36 := by
  unfold literalBase
  split
  · split
    · split
      · simp
      · split
        · simp
        · split <;> simp
    · simp
  · split <;> simp
  · simp

theorem pow_le_64 (w : Nat) (hw : w ≤ 64) : 2 ^ w - 1 < 2 ^ 64 := by
  have h1 : 2 ^ w ≤ 2 ^ 64 := Nat.pow_le_pow_right (by decide) hw
  have h2 : 0 < 2 ^ w := Nat.two_pow_pos w
  omega

theorem parseUintBase0_eq (s : String) (w : Nat) (c0 : Char) (rest : List Char)
    (hs : s.data = c0 :: rest) :
    parseUintBase0 s w =
      (match parseDigits (literalBase s.data).1 (2 ^ w - 1) (literalBase s.data).2 0 false with
       | .error e => .error e
       | .ok (n, underscores) =>
         if underscores && !underscoreOK s then .error false else .ok n) := by
  unfold parseUintBase0
  rw [hs]
  simp only
  rw [base_eq]

/-- `ParseUint(s, 0, w)` returns `v` exactly when `s` is an unsigned literal
of value `v` and `v` fits in `w` bits. -/
theorem parseUintBase0_ok_iff (s : String) (w : Nat) (hw : w ≤ 64) (v : Nat) :
    parseUintBase0 s w = .ok v ↔ uintLiteral s = some v ∧ v ≤ 2 ^ w - 1 := by
  rcases hs : s.data with _ | ⟨c0, rest⟩
  · simp [parseUintBase0, uintLiteral, hs]
  · rw [parseUintBase0_eq s w c0 rest hs]
    unfold uintLiteral
    rw [if_neg (by rw [hs]; simp)]
    obtain ⟨hb1, hb36⟩ := literalBase_range s.data
    obtain ⟨p1, p2, p3⟩ := parseDigits_spec (literalBase s.data).1 (2 ^ w - 1) hb1 hb36
      (pow_le_64 w hw) (literalBase s.data).2 0 false (Nat.zero_le _)
    cases hl : literalDigits (literalBase s.data).1 (literalBase s.data).2 0 with
    | none =>
      obtain ⟨e, he⟩ := p3 hl
      rw [he]
      simp
    | some v' =>
      by_cases hle : v' ≤ 2 ^ w - 1
      · rw [p1 v' hl hle]
        simp only [Bool.false_or]
        by_cases hu : ((literalBase s.data).2.any (fun c => c == '_') && !underscoreOK s) = true
        · rw [if_pos hu, if_pos hu]
          simp
        · rw [if_neg hu, if_neg hu]
          simp only [Except.ok.injEq, Option.some.injEq]
          constructor
          · intro h; rw [← h]; exact ⟨rfl, hle⟩
          · intro h; exact h.1
      · rw [p2 v' hl (by omega)]
        constructor
        · intro h; cases h
        · rintro ⟨h1, h2⟩
          split at h1
          · cases h1
          · simp only [Option.some.injEq] at h1
            omega

theorem parseUintBase0_err_or_ok (s : String) (w : Nat) :
    (∃ e, parseUintBase0 s w = .error e) ∨ ∃ v, parseUintBase0 s w = .ok v := by
  cases parseUintBase0 s w with
  | error e => exact Or.inl ⟨e, rfl⟩
  | ok v => exact Or.inr ⟨v, rfl⟩

theorem ParseUint_ok_iff (s : String) (w : Nat) (hw : w ≤ 64) (v : Nat) :
    ParseUint s w = .ok v ↔ uintLiteral s = some v ∧ v ≤ 2 ^ w - 1 := by
  rw [← parseUintBase0_ok_iff s w hw v]
  unfold ParseUint
  cases parseUintBase0 s w with
  | error e => simp
  | ok n => simp


theorem pow_facts (w : Nat) (hw2 : 2 ≤ w) : 2 ^ w = 2 * 2 ^ (w - 1) ∧ 2 ≤ 2 ^ (w - 1) := by
  obtain ⟨k, rfl⟩ : ∃ k, w = k + 2 := ⟨w - 2, by omega⟩
  have h1 : k + 2 - 1 = k + 1 := by omega
  have h2 : 0 < 2 ^ k := Nat.two_pow_pos k
  have e1 : 2 ^ (k + 2) = 2 ^ (k + 1) * 2 := pow_succ 2 (k + 1)
  have e2 : 2 ^ (k + 1) = 2 ^ k * 2 := pow_succ 2 k
  rw [h1]
  omega

/-- `ParseInt(s, 0, w)` on a string with first character `c0`, in terms of the
result of `ParseUint` on what follows the sign. -/
theorem ParseInt_eq (s : String) (w : Nat) (hw2 : 2 ≤ w) (c0 : Char) (rest : List Char)
    (hs : s.data = c0 :: rest) :
    ParseInt s w =
      (match parseUintBase0 ⟨if c0 = '+' ∨ c0 = '-' then rest else c0 :: rest⟩ w with
       | .error false => .error (.numError "ParseInt" s false)
       | .error true => .error (.numError "ParseInt" s true)
       | .ok n =>
         if c0 = '-' then
           (if n > 2 ^ (w - 1) then .error (.numError "ParseInt" s true) else .ok (-(n : Int)))
         else
           (if n ≥ 2 ^ (w - 1) then .error (.numError "ParseInt" s true) else .ok (n : Int))) := by
  obtain ⟨hp1, hp2⟩ := pow_facts w hw2
  unfold ParseInt
  simp only [hs]
  cases parseUintBase0 ⟨if c0 = '+' ∨ c0 = '-' then rest else c0 :: rest⟩ w with
  | error b =>
    cases b with
    | false => rfl
    | true =>
      simp only
      by_cases hneg : c0 = '-'
      · have h2 : 2 ^ w - 1 > 2 ^ (w - 1) := by omega
        simp [hneg, h2]
      · have h2 : 2 ^ w - 1 ≥ 2 ^ (w - 1) := by omega
        simp [hneg, h2]
  | ok n =>
    simp only
    by_cases hneg : c0 = '-'
    · simp [hneg]
    · simp [hneg]

/-- What `ParseInt` returns from the result `r` of `ParseUint` on the digits,
against the value `u` of the digits: the signed value when it is in range. -/
theorem signed_iff (s : String) (w C : Nat) (neg : Prop) [Decidable neg] (body : String)
    (hw : w ≤ 64) (hC : 2 ^ w = 2 * C) (hC2 : 2 ≤ C) (i : Int) :
    (match parseUintBase0 body w with
     | .error false => (.error (.numError "ParseInt" s false) : Except GoError Int)
     | .error true => .error (.numError "ParseInt" s true)
     | .ok n =>
       if neg then
         (if n > C then .error (.numError "ParseInt" s true) else .ok (-(n : Int)))
       else
         (if n ≥ C then .error (.numError "ParseInt" s true) else .ok (n : Int))) = .ok i ↔
    ((uintLiteral body).map (fun (n : Nat) => if neg then -(n : Int) else (n : Int)) = some i ∧
      -(C : Int) ≤ i ∧ i < (C : Int)) := by
  have hiff := parseUintBase0_ok_iff body w hw
  cases hp : parseUintBase0 body w with
  | error b =>
    have hno : ∀ n, uintLiteral body = some n → ¬ n ≤ 2 ^ w - 1 := by
      intro n hn hle
      have := (hiff n).mpr ⟨hn, hle⟩
      rw [hp] at this
      cases this
    have hfalse : ¬((uintLiteral body).map (fun (n : Nat) => if neg then -(n : Int) else (n : Int)) =
        some i ∧ -(C : Int) ≤ i ∧ i < (C : Int)) := by
      rintro ⟨h1, h2, h3⟩
      cases hu : uintLiteral body with
      | none => rw [hu] at h1; cases h1
      | some n =>
        rw [hu] at h1
        simp only [Option.map_some', Option.some.injEq] at h1
        have := hno n hu
        split at h1 <;> omega
    cases b
    · constructor
      · intro h; cases h
      · intro h; exact absurd h hfalse
    · constructor
      · intro h; cases h
      · intro h; exact absurd h hfalse
  | ok n =>
    obtain ⟨hu, hle⟩ := (hiff n).mp hp
    rw [hu]
    simp only [Option.map_some', Option.some.injEq]
    by_cases hn : neg
    · rw [if_pos hn, if_pos hn]
      by_cases hgt : n > C
      · rw [if_pos hgt]
        constructor
        · intro h; cases h
        · rintro ⟨h1, h2, h3⟩
          omega
      · rw [if_neg hgt]
        simp only [Except.ok.injEq]
        constructor
        · intro h
          refine ⟨h, ?_, ?_⟩ <;> omega
        · intro h; exact h.1
    · rw [if_neg hn, if_neg hn]
      by_cases hge : n ≥ C
      · rw [if_pos hge]
        constructor
        · intro h; cases h
        · rintro ⟨h1, h2, h3⟩
          omega
      · rw [if_neg hge]
        simp only [Except.ok.injEq]
        constructor
        · intro h
          refine ⟨h, ?_, ?_⟩ <;> omega
        · intro h; exact h.1

/-- `ParseInt(s, 0, w)` returns `i` exactly when `s` is a signed literal of
value `i` and `i` lies in the range of the `w`-bit signed integers. -/
theorem ParseInt_ok_iff (s : String) (w : Nat) (hw2 : 2 ≤ w) (hw : w ≤ 64) (i : Int) :
    ParseInt s w = .ok i ↔
      intLiteral s = some i ∧ -((2 ^ (w - 1) : Nat) : Int) ≤ i ∧ i < ((2 ^ (w - 1) : Nat) : Int) := by
  obtain ⟨hp1, hp2⟩ := pow_facts w hw2
  rcases hs : s.data with _ | ⟨c0, rest⟩
  · simp [ParseInt, intLiteral, hs]
  · rw [ParseInt_eq s w hw2 c0 rest hs]
    have hlit : intLiteral s =
        (uintLiteral ⟨if c0 = '+' ∨ c0 = '-' then rest else c0 :: rest⟩).map
          (fun (n : Nat) => if c0 = '-' then -(n : Int) else (n : Int)) := by
      unfold intLiteral
      rw [hs]
      simp only
      by_cases hneg : c0 = '-'
      · rw [if_pos hneg, if_pos (Or.inr hneg)]
        simp [hneg]
      · rw [if_neg hneg]
        by_cases hpos : c0 = '+'
        · rw [if_pos hpos, if_pos (Or.inl hpos)]
          simp [hneg]
        · rw [if_neg hpos, if_neg (by rintro (h | h); exact hpos h; exact hneg h)]
          have hstr : (⟨c0 :: rest⟩ : String) = s := by rw [← hs]
          rw [hstr]
          simp [hneg]
    rw [hlit]
    exact signed_iff s w (2 ^ (w - 1)) (c0 = '-') _ hw hp1 hp2 i

theorem int_rule (lib : Stdlib) (mt : TypeMeta) (k : IntKind) (raw : String) (x : Val)
    (hs : setterFrom (.int mt k) = none) (ht : textUnmarshaler (.int mt k) = none)
    (hd : ¬(k = .Int64 ∧ mt.PkgPath = "time" ∧ mt.Name = "Duration")) :
    processField lib (.int mt k) raw x =
      (match ParseInt raw (k.Bits lib.IntSize) with
       | .ok i => (.int i, .nil)
       | .error e => (x, .err e)) := by
  rw [processField_builtin lib (.int mt k) raw x hs ht rfl]
  simp only [builtinRule, kindSwitch, if_neg hd]
  cases ParseInt raw (k.Bits lib.IntSize) <;> rfl

theorem uint_rule (lib : Stdlib) (mt : TypeMeta) (k : UintKind) (raw : String) (x : Val)
    (hs : setterFrom (.uint mt k) = none) (ht : textUnmarshaler (.uint mt k) = none) :
    processField lib (.uint mt k) raw x =
      (match ParseUint raw (k.Bits lib.IntSize) with
       | .ok n => (.uint n, .nil)
       | .error e => (x, .err e)) := by
  rw [processField_builtin lib (.uint mt k) raw x hs ht rfl]
  simp only [builtinRule, kindSwitch]
  cases ParseUint raw (k.Bits lib.IntSize) <;> rfl

theorem intBits_range (intSize : Nat) (h : intSize = 32 ∨ intSize = 64) (k : IntKind) :
    2 ≤ k.Bits intSize ∧ k.Bits intSize ≤ 64 := by
  cases k <;> simp only [IntKind.Bits] <;> omega

theorem uintBits_range (intSize : Nat) (h : intSize = 32 ∨ intSize = 64) (k : UintKind) :
    2 ≤ k.Bits intSize ∧ k.Bits intSize ≤ 64 := by
  cases k <;> simp only [UintKind.Bits] <;> omega

theorem uintLiteral_minus (s : String) (rest : List Char) (h : s.data = '-' :: rest) :
    uintLiteral s = none := by
  unfold uintLiteral
  rw [if_neg (by rw [h]; simp)]
  have hb : literalBase s.data = (10, s.data) := by
    rw [h]
    rcases rest with _ | ⟨c1, _ | ⟨c2, r⟩⟩ <;> simp [literalBase]
  have hd : literalDigits 10 s.data 0 = none := by
    rw [h]
    simp [literalDigits, digitOf]
  rw [hb]
  simp only [hd]
  split <;> rfl

/-! ## Claims -/

/-- C1: when `gatherInfo` succeeds on a record, its descriptors are, in
declaration order, exactly those of the settable, non-ignored fields, one
each, and the key of the descriptor of a field named `n` with alias
annotation `a` is `uppercase(p + "_" + a)` when `a` is non-empty and
`uppercase(p + "_" + n)` otherwise: a function of `(p, n, a)` alone.  The case
table is taken idempotent, as the Unicode upper-case map is. -/
theorem C1_lookup_keys (lib : Stdlib)
    (hup : ∀ c, lib.toUpperRune (lib.toUpperRune c) = lib.toUpperRune c)
    (pfx : String) (m ms : TypeMeta) (fields : List StructField) (vals : List Val)
    (hok : (gatherInfo lib pfx (recordPtr m ms fields vals)).2.2 = none) :
    (gatherInfo lib pfx (recordPtr m ms fields vals)).2.1.map
        (fun info => (info.Field.index, info.Name, info.Key)) =
      (fields.enum.filter (fun p => p.2.exported && !isTrue (p.2.Tag.Get A_IGNORE))).map
        (fun p => (p.1, p.2.Name, specKey lib.toUpperRune pfx p.2.Name (p.2.Tag.Get A_ALIAS))) := by
  rw [gatherInfo_ok lib pfx m ms fields vals hok]
  exact descriptors_keys lib hup pfx fields 0 vals

/-- C1, at a record with an aliased, an unexported and an ignored field. -/
theorem C1_lookup_keys_witness :
    (gatherInfo refLib "ev" (recordPtr (um "") (um "") altFields (zeroFields altFields))).2.2 = none ∧
    (gatherInfo refLib "ev" (recordPtr (um "") (um "") altFields (zeroFields altFields))).2.1.map
        (fun info => (info.Field.index, info.Name, info.Key)) =
      [(0, "MultiWordVar", "EV_MULTIWORDVAR"),
       (1, "MultiWordVarWithLowerCaseAlt", "EV_MULTI_WORD_VAR_WITH_LOWER_CASE_ALT"),
       (4, "NoPrefixWithAlt", "EV_SERVICE_HOST")] :=
  ⟨by rfl, (C1_lookup_keys refLib refLib_upper_idem "ev" (um "") (um "") altFields
      (zeroFields altFields) (by rfl)).trans (by rfl)⟩

/-- C2: with the empty prefix `Load` returns `ErrNeedPrefix` for every target
and environment, looks nothing up and leaves the target as it was. -/
theorem C2_empty_prefix (lib : Stdlib) (env : Env) (spec : Option Value) :
    Load lib env "" spec = ⟨spec, [], .err .ErrNeedPrefix⟩ := by
  simp [Load, gatherInfo, loadLoop]

/-- C3: with a non-empty prefix and a target that is not a pointer to a
struct value (the nil interface, a struct by value, a pointer to anything
else, a nil pointer), `Load` returns exactly `ErrBadSpec`, looks nothing up
and leaves the target as it was. -/
theorem C3_bad_spec (lib : Stdlib) (env : Env) (pfx : String) (spec : Option Value)
    (hp : pfx ≠ "") (hs : ∀ m ms fields vals, spec ≠ recordPtr m ms fields vals) :
    Load lib env pfx spec = ⟨spec, [], .err .ErrBadSpec⟩ := by
  simp [Load, gatherInfo_bad lib pfx spec hp hs, loadLoop]

/-- C3, at a pointer to a map (the target of `TestErrBadSpec`). -/
theorem C3_bad_spec_witness :
    Load refLib (envOf [("EV_PORT", "8080")]) "ev"
        (some ⟨tPtr (tMap tString tString), .ptr (some (.map (some [])))⟩) =
      ⟨some ⟨tPtr (tMap tString tString), .ptr (some (.map (some [])))⟩, [], .err .ErrBadSpec⟩ :=
  C3_bad_spec refLib (envOf [("EV_PORT", "8080")]) "ev"
    (some ⟨tPtr (tMap tString tString), .ptr (some (.map (some [])))⟩) (by decide)
    (by intro m ms fields vals h; simp [recordPtr, tPtr, tMap] at h)

/-- C4 fails as stated: the nil `*setterStruct` field is required, has no
default, and the environment holds neither its computed key nor an alias;
`Load` fails with the missing-required error, yet the field is no longer at
its zero value (nil): introspection has made it point to a zero
`setterStruct`. -/
theorem C4_counterexample :
    isTrue (requiredPtrField.Tag.Get A_REQUIRE) = true ∧
    requiredPtrField.Tag.Get A_DEFAULT = "" ∧
    altOf refLib requiredPtrField = "" ∧
    envOf [] (keyOf refLib "ev" requiredPtrField) = none ∧
    (Load refLib (envOf []) "ev" requiredPtrSpec).err = .err (.requiredKeyMissing "EV_STRUCT") ∧
    fieldAt (Load refLib (envOf []) "ev" requiredPtrSpec).spec 0 =
      some (.ptr (some (.struct [.str ""]))) ∧
    fieldAt (Load refLib (envOf []) "ev" requiredPtrSpec).spec 0 ≠
      some (zero requiredPtrField.Typ) :=
  ⟨by decide, by decide, by rfl, by rfl, by rfl, by rfl, by
    rw [show fieldAt (Load refLib (envOf []) "ev" requiredPtrSpec).spec 0 =
      some (.ptr (some (.struct [.str ""]))) from rfl]
    simp [zero, requiredPtrField, tPtr]⟩

/-- C4, amended: for a settable, non-ignored field with a true `require`
annotation and no default, when the environment holds neither the computed
key nor the alias as the descriptor stores it (upper-cased), `Load` fails;
when binding reaches the field it fails with the missing-required error
naming the computed key; and the field is left as it was, except that a nil
pointer to a record in it may have become a pointer to a zero record during
introspection (it has, whenever binding reaches the field).  A field that is
not a pointer is exactly as before. -/
theorem C4_required_missing (lib : Stdlib) (env : Env) (pfx : String) (m ms : TypeMeta)
    (fields : List StructField) (vals : List Val) (i : Nat) (f : StructField)
    (hf : fields[i]? = some f)
    (hset : f.exported = true)
    (hign : isTrue (f.Tag.Get A_IGNORE) = false)
    (hreq : isTrue (f.Tag.Get A_REQUIRE) = true)
    (hdef : f.Tag.Get A_DEFAULT = "")
    (hkey : env (keyOf lib pfx f) = none)
    (halt : altOf lib f ≠ "" → env (altOf lib f) = none) :
    (Load lib env pfx (recordPtr m ms fields vals)).err ≠ .nil ∧
    (∀ info st, Reaches lib env pfx (recordPtr m ms fields vals) info st →
      info.Field.index = i →
      (Load lib env pfx (recordPtr m ms fields vals)).err =
        .err (.requiredKeyMissing (keyOf lib pfx f)) ∧
      fieldAt (Load lib env pfx (recordPtr m ms fields vals)).spec i =
        (vals[i]?).map (fun v => (derefLoop f.Typ v).1)) ∧
    (fieldAt (Load lib env pfx (recordPtr m ms fields vals)).spec i = vals[i]? ∨
      fieldAt (Load lib env pfx (recordPtr m ms fields vals)).spec i =
        (vals[i]?).map (fun v => (derefLoop f.Typ v).1)) ∧
    (f.Typ.isPtr = false →
      fieldAt (Load lib env pfx (recordPtr m ms fields vals)).spec i = vals[i]?) := by
  have he : eligible f = true := by simp [eligible, hset, hign]
  have hpass : ∀ v s, bindField lib env (descriptorOf lib pfx i f v) s =
      (s, (lookupVar env (descriptorOf lib pfx i f v)).2,
        .err (.requiredKeyMissing (keyOf lib pfx f))) := fun v s =>
    bindField_required lib env (descriptorOf lib pfx i f v) s
      (lookupVar_absent env _ hkey halt) hdef hreq
  have hcases := Load_field_cases lib env pfx m ms fields vals i f hf
    (fun v s => by rw [hpass v s])
  refine ⟨?_, ?_, hcases, ?_⟩
  · exact Load_fails lib env pfx m ms fields vals i f hf he (fun v s => by rw [hpass v s]; simp)
  · intro info st hreach hidx
    obtain ⟨f', vs, trace, hf', _, hinfo, hst, hvs, hfail, hfield⟩ :=
      Load_of_reaches lib env pfx m ms fields vals info st hreach
    rw [hidx] at hf' hvs hfield hinfo
    rw [hf] at hf'
    cases hf'
    have hb := hpass (vals.getD i (zero f.Typ)) st
    rw [← hinfo] at hb
    constructor
    · rw [hfail (by rw [hb]; simp), hb]
    · rw [hfield, hb, hst, fieldAt_recordPtr, hvs]
  · intro hp
    have hid : (vals[i]?).map (fun v => (derefLoop f.Typ v).1) = vals[i]? := by
      cases vals[i]? with
      | none => rfl
      | some v => simp [derefLoop_nonptr f.Typ v hp]
    rcases hcases with h | h
    · exact h
    · rw [h, hid]

/-- C4 amended, at the field `RequiredVar` of a fresh record whose earlier
field is bound from `EV_PORT`. -/
theorem C4_required_missing_witness :
    (Load refLib (envOf [("EV_PORT", "8080")]) "ev" demoSpec).err =
      .err (.requiredKeyMissing "EV_REQUIREDVAR") ∧
    fieldAt (Load refLib (envOf [("EV_PORT", "8080")]) "ev" demoSpec).spec 1 = some (.str "") :=
  have h := C4_required_missing refLib (envOf [("EV_PORT", "8080")]) "ev"
    (um "*env.Specification") (um "env.Specification") demoFields (zeroFields demoFields) 1
    ⟨"RequiredVar", true, ⟨[("require", "True")]⟩, tString⟩
    (by rfl) (by rfl) (by decide) (by decide) (by decide) (by rfl) (by intro _; rfl)
  ⟨(h.2.1
      (descriptorOf refLib "ev" 1 ⟨"RequiredVar", true, ⟨[("require", "True")]⟩, tString⟩
        (.str ""))
      (recordPtr (um "*env.Specification") (um "env.Specification") demoFields
        ((zeroFields demoFields).set 0 (.int 8080)))
      ⟨by rfl, (descriptors refLib "ev" demoFields 0 (zeroFields demoFields)).take 1,
        (descriptors refLib "ev" demoFields 0 (zeroFields demoFields)).drop 2,
        [(0, "EV_PORT")], by rfl, by rfl⟩
      (by rfl)).1,
    h.2.2.2 (by rfl)⟩

/-- C5 fails as stated: the field carries the annotation `default:""` (and
`require`), its variable is omitted, and `Load` reports the missing-required
error and leaves the field holding `"old"`, where coercing the annotated
default, the empty string, succeeds and gives `""`. -/
theorem C5_counterexample :
    (A_DEFAULT, "") ∈ emptyDefaultField.Tag.pairs ∧
    altOf refLib emptyDefaultField = "" ∧
    envOf [] (keyOf refLib "ev" emptyDefaultField) = none ∧
    (Load refLib (envOf []) "ev" emptyDefaultSpec).err =
      .err (.requiredKeyMissing "EV_REQUIREDDEFAULT") ∧
    fieldAt (Load refLib (envOf []) "ev" emptyDefaultSpec).spec 0 = some (.str "old") ∧
    boundValue refLib emptyDefaultField.Typ "" (.str "old") = .str "" :=
  ⟨by simp [emptyDefaultField, A_DEFAULT], by rfl, by rfl, by rfl, by rfl, by rfl⟩

/-- C5, amended: for a field with a non-empty `default` annotation `d`,
required or not, when the environment holds neither the computed key nor the
stored alias and binding reaches the field, its pass through the loop assigns
exactly `d`, as it would for an environment in which the computed key is set
to `d`; the pass never ends in a missing-required error; after `Load` the
field holds the coercion of `d`, and a failure of that coercion is what
`Load` returns. -/
theorem C5_default_used (lib : Stdlib) (env : Env) (pfx : String) (m ms : TypeMeta)
    (fields : List StructField) (vals : List Val) (i : Nat) (f : StructField)
    (info : varInfo) (st : Option Value) (d : String)
    (hf : fields[i]? = some f)
    (hdef : f.Tag.Get A_DEFAULT = d) (hd : d ≠ "")
    (hreach : Reaches lib env pfx (recordPtr m ms fields vals) info st)
    (hidx : info.Field.index = i)
    (hkey : env info.Key = none)
    (halt : info.Alt ≠ "" → env info.Alt = none) :
    bindField lib env info st =
      ((assign lib info d st).1, (lookupVar env info).2, (assign lib info d st).2) ∧
    (∀ env' : Env, env' info.Key = some d →
      (bindField lib env' info st).1 = (bindField lib env info st).1 ∧
      (bindField lib env' info st).2.2 = (bindField lib env info st).2.2) ∧
    (∀ k, (bindField lib env info st).2.2 ≠ .err (.requiredKeyMissing k)) ∧
    fieldAt (Load lib env pfx (recordPtr m ms fields vals)).spec i =
      (vals[i]?).map (boundValue lib f.Typ d) ∧
    ((bindField lib env info st).2.2 ≠ .nil →
      (Load lib env pfx (recordPtr m ms fields vals)).err = (bindField lib env info st).2.2) := by
  have htags : info.Tags = f.Tag := by
    rw [(described_tags lib env pfx m ms fields vals i f info st hf hreach hidx).1]; rfl
  have hdef' : info.Tags.Get A_DEFAULT = d := by rw [htags]; exact hdef
  have hb : bindField lib env info st =
      ((assign lib info d st).1, (lookupVar env info).2, (assign lib info d st).2) := by
    have := bindField_default lib env info st (lookupVar_absent env info hkey halt)
      (by rw [hdef']; exact hd)
    rw [hdef'] at this
    exact this
  have hL := Load_bound lib env pfx m ms fields vals i f info st d _ hf hreach hidx hb
  refine ⟨hb, ?_, ?_, hL.1, hL.2⟩
  · intro env' he'
    rw [bindField_found lib env' info st d (by rw [lookupVar_key env' info d he']), hb]
    exact ⟨rfl, rfl⟩
  · intro k
    rw [hb]
    exact assign_not_required lib info d st k

/-- C5 amended, at the field `NoPrefixDefault` (default `127.0.0.1`) of a
fresh record, with the two earlier fields bound from the environment. -/
theorem C5_default_used_witness :
    fieldAt (Load refLib (envOf [("EV_PORT", "8080"), ("EV_REQUIREDVAR", "foo")]) "ev"
        demoSpec).spec 2 = some (.str "127.0.0.1") :=
  (C5_default_used refLib (envOf [("EV_PORT", "8080"), ("EV_REQUIREDVAR", "foo")]) "ev"
    (um "*env.Specification") (um "env.Specification") demoFields (zeroFields demoFields) 2
    ⟨"NoPrefixDefault", true, ⟨[("alias", "BROKER"), ("default", "127.0.0.1")]⟩, tString⟩
    (descriptorOf refLib "ev" 2
      ⟨"NoPrefixDefault", true, ⟨[("alias", "BROKER"), ("default", "127.0.0.1")]⟩, tString⟩
      (.str ""))
    (recordPtr (um "*env.Specification") (um "env.Specification") demoFields
      (((zeroFields demoFields).set 0 (.int 8080)).set 1 (.str "foo")))
    "127.0.0.1" (by rfl) (by rfl) (by decide)
    ⟨by rfl, (descriptors refLib "ev" demoFields 0 (zeroFields demoFields)).take 2,
      (descriptors refLib "ev" demoFields 0 (zeroFields demoFields)).drop 3,
      [(0, "EV_PORT"), (1, "EV_REQUIREDVAR")], by rfl, by rfl⟩
    (by rfl) (by rfl) (by intro _; rfl)).2.2.2.1

/-- C6: for a field with an alias that binding reaches, the computed key
being the key of its descriptor (prefix, underscore, alias, upper-cased) and
the alias key the alias as the descriptor stores it: whenever the computed
key is in the environment with value `v1` the field is bound from `v1`, with
no lookup of the alias key, whatever that key holds; and when the computed
key is absent and the alias key holds `v2`, the field is bound from `v2`, so
that the default is used only when both are absent. -/
theorem C6_key_precedence (lib : Stdlib) (env : Env) (pfx : String) (m ms : TypeMeta)
    (fields : List StructField) (vals : List Val) (i : Nat) (f : StructField)
    (info : varInfo) (st : Option Value)
    (hf : fields[i]? = some f)
    (halias : f.Tag.Get A_ALIAS ≠ "")
    (hreach : Reaches lib env pfx (recordPtr m ms fields vals) info st)
    (hidx : info.Field.index = i) :
    (info.Key = keyOf lib pfx f ∧ info.Alt = altOf lib f) ∧
    (∀ v1, env info.Key = some v1 →
      bindField lib env info st =
        ((assign lib info v1 st).1, [(i, info.Key)], (assign lib info v1 st).2) ∧
      fieldAt (Load lib env pfx (recordPtr m ms fields vals)).spec i =
        (vals[i]?).map (boundValue lib f.Typ v1)) ∧
    (∀ v2, env info.Key = none → env info.Alt = some v2 →
      bindField lib env info st =
        ((assign lib info v2 st).1, [(i, info.Key), (i, info.Alt)], (assign lib info v2 st).2) ∧
      fieldAt (Load lib env pfx (recordPtr m ms fields vals)).spec i =
        (vals[i]?).map (boundValue lib f.Typ v2)) := by
  have hinfo := (described_tags lib env pfx m ms fields vals i f info st hf hreach hidx).1
  have halt : info.Alt ≠ "" := by
    rw [hinfo]
    show ToUpper lib.toUpperRune (f.Tag.Get A_ALIAS) ≠ ""
    rw [ne_eq, ToUpper_eq_empty]
    exact halias
  refine ⟨by rw [hinfo]; exact ⟨rfl, rfl⟩, ?_, ?_⟩
  · intro v1 h1
    have hb : bindField lib env info st =
        ((assign lib info v1 st).1, [(i, info.Key)], (assign lib info v1 st).2) := by
      rw [bindField_found lib env info st v1 (by rw [lookupVar_key env info v1 h1]),
        lookupVar_key env info v1 h1, hidx]
    exact ⟨hb, (Load_bound lib env pfx m ms fields vals i f info st v1 _ hf hreach hidx hb).1⟩
  · intro v2 h1 h2
    have hb : bindField lib env info st =
        ((assign lib info v2 st).1, [(i, info.Key), (i, info.Alt)],
          (assign lib info v2 st).2) := by
      rw [bindField_found lib env info st v2 (by rw [lookupVar_alt env info h1 halt]; exact h2),
        lookupVar_alt env info h1 halt, hidx]
    exact ⟨hb, (Load_bound lib env pfx m ms fields vals i f info st v2 _ hf hreach hidx hb).1⟩

/-- C6, at the field `NoPrefixDefault` (alias `BROKER`) with both `EV_BROKER`
and `BROKER` set. -/
theorem C6_key_precedence_witness :
    fieldAt (Load refLib
        (envOf [("EV_PORT", "8080"), ("EV_REQUIREDVAR", "foo"), ("EV_BROKER", "computed"),
          ("BROKER", "betterbroker")]) "ev" demoSpec).spec 2 = some (.str "computed") :=
  ((C6_key_precedence refLib
    (envOf [("EV_PORT", "8080"), ("EV_REQUIREDVAR", "foo"), ("EV_BROKER", "computed"),
      ("BROKER", "betterbroker")]) "ev"
    (um "*env.Specification") (um "env.Specification") demoFields (zeroFields demoFields) 2
    ⟨"NoPrefixDefault", true, ⟨[("alias", "BROKER"), ("default", "127.0.0.1")]⟩, tString⟩
    (descriptorOf refLib "ev" 2
      ⟨"NoPrefixDefault", true, ⟨[("alias", "BROKER"), ("default", "127.0.0.1")]⟩, tString⟩
      (.str ""))
    (recordPtr (um "*env.Specification") (um "env.Specification") demoFields
      (((zeroFields demoFields).set 0 (.int 8080)).set 1 (.str "foo")))
    (by rfl) (by decide)
    ⟨by rfl, (descriptors refLib "ev" demoFields 0 (zeroFields demoFields)).take 2,
      (descriptors refLib "ev" demoFields 0 (zeroFields demoFields)).drop 3,
      [(0, "EV_PORT"), (1, "EV_REQUIREDVAR")], by rfl, by rfl⟩
    (by rfl)).2.1 "computed" (by rfl)).2

/-- C7 fails as stated: the alias annotation is written in lower case, the
environment has an entry named exactly so with value `baz` and none for the
computed key, and the field is not bound from it: `Load` looks up the computed
key and the upper-cased alias, finds nothing and leaves the field empty,
where binding from `baz` would give `"baz"`. -/
theorem C7_counterexample :
    lowerAliasField.Tag.Get A_ALIAS = "multi_word_var_with_lower_case_alt" ∧
    envOf [("multi_word_var_with_lower_case_alt", "baz")]
      "multi_word_var_with_lower_case_alt" = some "baz" ∧
    envOf [("multi_word_var_with_lower_case_alt", "baz")]
      (keyOf refLib "ev" lowerAliasField) = none ∧
    Load refLib (envOf [("multi_word_var_with_lower_case_alt", "baz")]) "ev" lowerAliasSpec =
      ⟨lowerAliasSpec,
        [(0, "EV_MULTI_WORD_VAR_WITH_LOWER_CASE_ALT"), (0, "MULTI_WORD_VAR_WITH_LOWER_CASE_ALT")],
        .nil⟩ ∧
    fieldAt lowerAliasSpec 0 = some (.str "") ∧
    boundValue refLib lowerAliasField.Typ "baz" (.str "") = .str "baz" :=
  ⟨by rfl, by rfl, by rfl, by rfl, by rfl, by rfl⟩

/-- C7, amended: for a field whose alias annotation is the non-empty string
`a`, if the computed key is absent from the environment and the environment
has an entry named `uppercase(a)` with value `v`, then, binding reaching the
field, the field is bound from `v`. -/
theorem C7_alias_fallback (lib : Stdlib) (env : Env) (pfx : String) (m ms : TypeMeta)
    (fields : List StructField) (vals : List Val) (i : Nat) (f : StructField)
    (info : varInfo) (st : Option Value) (a v : String)
    (hf : fields[i]? = some f)
    (halias : f.Tag.Get A_ALIAS = a) (ha : a ≠ "")
    (hreach : Reaches lib env pfx (recordPtr m ms fields vals) info st)
    (hidx : info.Field.index = i)
    (hkey : env info.Key = none)
    (hv : env (ToUpper lib.toUpperRune a) = some v) :
    bindField lib env info st =
      ((assign lib info v st).1, [(i, info.Key), (i, ToUpper lib.toUpperRune a)],
        (assign lib info v st).2) ∧
    fieldAt (Load lib env pfx (recordPtr m ms fields vals)).spec i =
      (vals[i]?).map (boundValue lib f.Typ v) := by
  have hinfo := (described_tags lib env pfx m ms fields vals i f info st hf hreach hidx).1
  have halt0 : info.Alt = ToUpper lib.toUpperRune a := by rw [hinfo, ← halias]; rfl
  have halt : info.Alt ≠ "" := by
    rw [halt0, ne_eq, ToUpper_eq_empty]
    exact ha
  have hb : bindField lib env info st =
      ((assign lib info v st).1, [(i, info.Key), (i, ToUpper lib.toUpperRune a)],
        (assign lib info v st).2) := by
    rw [bindField_found lib env info st v
        (by rw [lookupVar_alt env info hkey halt, halt0]; exact hv),
      lookupVar_alt env info hkey halt, hidx, halt0]
  exact ⟨hb, (Load_bound lib env pfx m ms fields vals i f info st v _ hf hreach hidx hb).1⟩

/-- C7 amended, at the field `MultiWordVarWithLowerCaseAlt` with the
upper-cased alias set in the environment. -/
theorem C7_alias_fallback_witness :
    fieldAt (Load refLib
        (envOf [("EV_REQUIREDVAR", "foo"), ("MULTI_WORD_VAR_WITH_LOWER_CASE_ALT", "baz")]) "ev"
        demoSpec).spec 7 = some (.str "baz") :=
  (C7_alias_fallback refLib
    (envOf [("EV_REQUIREDVAR", "foo"), ("MULTI_WORD_VAR_WITH_LOWER_CASE_ALT", "baz")]) "ev"
    (um "*env.Specification") (um "env.Specification") demoFields (zeroFields demoFields) 7
    ⟨"MultiWordVarWithLowerCaseAlt", true, ⟨[("alias", "multi_word_var_with_lower_case_alt")]⟩,
      tString⟩
    (descriptorOf refLib "ev" 7
      ⟨"MultiWordVarWithLowerCaseAlt", true, ⟨[("alias", "multi_word_var_with_lower_case_alt")]⟩,
        tString⟩ (.str ""))
    (recordPtr (um "*env.Specification") (um "env.Specification") demoFields
      [.int 0, .str "foo", .str "127.0.0.1", .str "", .str "",
        .map (some [(.str "one", .str "two"), (.str "three", .str "four")]), .ptr none, .str ""])
    "multi_word_var_with_lower_case_alt" "baz" (by rfl) (by rfl) (by decide)
    ⟨by rfl, (descriptors refLib "ev" demoFields 0 (zeroFields demoFields)).take 6, [],
      [(0, "EV_PORT"), (1, "EV_REQUIREDVAR"), (2, "EV_BROKER"), (2, "BROKER"), (3, "EV_USER"),
        (5, "EV_MAPFIELD"), (6, "EV_SOMEPOINTER")], by rfl, by rfl⟩
    (by rfl) (by rfl) (by rfl)).2

/-- C8: a variable set to the empty string is present.  When the computed
key of a field that binding reaches maps to `""`, the pass assigns `""` (not
the default) after the single lookup and never ends in a missing-required
error, whatever the annotations; the field ends as the coercion of `""`
leaves it, which for a string type without methods is `""` and for a map type
without methods the empty, non-nil map, both without error. -/
theorem C8_empty_is_present (lib : Stdlib) (env : Env) (pfx : String) (m ms : TypeMeta)
    (fields : List StructField) (vals : List Val) (i : Nat) (f : StructField)
    (info : varInfo) (st : Option Value)
    (hlen : vals.length = fields.length)
    (hf : fields[i]? = some f)
    (hreach : Reaches lib env pfx (recordPtr m ms fields vals) info st)
    (hidx : info.Field.index = i)
    (hkey : env info.Key = some "") :
    bindField lib env info st =
      ((assign lib info "" st).1, [(i, info.Key)], (assign lib info "" st).2) ∧
    (∀ k, (bindField lib env info st).2.2 ≠ .err (.requiredKeyMissing k)) ∧
    fieldAt (Load lib env pfx (recordPtr m ms fields vals)).spec i =
      (vals[i]?).map (boundValue lib f.Typ "") ∧
    (∀ mt, f.Typ = .string mt → mt.Set = none → mt.UnmarshalText = none →
      (bindField lib env info st).2.2 = .nil ∧
      fieldAt (Load lib env pfx (recordPtr m ms fields vals)).spec i = some (.str "")) ∧
    (∀ mt k e, f.Typ = .map mt k e → mt.Set = none → mt.UnmarshalText = none →
      (bindField lib env info st).2.2 = .nil ∧
      fieldAt (Load lib env pfx (recordPtr m ms fields vals)).spec i = some (.map (some []))) := by
  obtain ⟨hinfo, vs, hst, hvs⟩ :=
    described_tags lib env pfx m ms fields vals i f info st hf hreach hidx
  have hb : bindField lib env info st =
      ((assign lib info "" st).1, [(i, info.Key)], (assign lib info "" st).2) := by
    rw [bindField_found lib env info st "" (by rw [lookupVar_key env info "" hkey]),
      lookupVar_key env info "" hkey, hidx]
  have hL := (Load_bound lib env pfx m ms fields vals i f info st "" _ hf hreach hidx hb).1
  have hi : i < vals.length := by
    rw [hlen]
    by_contra hge
    rw [List.getElem?_eq_none (by omega)] at hf
    cases hf
  have hx : vals[i]? = some vals[i] := List.getElem?_eq_getElem hi
  refine ⟨hb, ?_, hL, ?_, ?_⟩
  · intro k
    rw [hb]
    exact assign_not_required lib info "" st k
  · intro mt ht hs hu
    have hdl : ∀ x, derefLoop f.Typ x = (x, .string mt, 0) := fun x => by
      rw [ht]; exact derefLoop_nonptr _ x rfl
    constructor
    · rw [hb, hst]
      refine assign_direct lib info "" m ms fields vs vals[i] (.str "") ?_ ?_ ?_
      · rw [hidx, hvs, hx]; simp [hdl]
      · rw [hinfo]; simp [descriptorOf, hdl]
      · rw [hinfo]; simp only [descriptorOf, hdl]
        exact processField_string lib mt hs hu "" _
    · rw [hL, hx]
      simp [boundValue, hdl, throughPtrs, processField_string lib mt hs hu]
  · intro mt k e ht hs hu
    have hdl : ∀ x, derefLoop f.Typ x = (x, .map mt k e, 0) := fun x => by
      rw [ht]; exact derefLoop_nonptr _ x rfl
    constructor
    · rw [hb, hst]
      refine assign_direct lib info "" m ms fields vs vals[i] (.map (some [])) ?_ ?_ ?_
      · rw [hidx, hvs, hx]; simp [hdl]
      · rw [hinfo]; simp [descriptorOf, hdl]
      · rw [hinfo]; simp only [descriptorOf, hdl]
        exact processField_map_empty lib mt k e hs hu _
    · rw [hL, hx]
      simp [boundValue, hdl, throughPtrs, processField_map_empty lib mt k e hs hu]

/-- C8, at the field `MapField` (which has a default) with `EV_MAPFIELD` set
to the empty string, as in `TestEmptyMapFieldOverride`. -/
theorem C8_empty_is_present_witness :
    fieldAt (Load refLib (envOf [("EV_REQUIREDVAR", "foo"), ("EV_MAPFIELD", "")]) "ev"
        demoSpec).spec 5 = some (.map (some [])) :=
  ((C8_empty_is_present refLib (envOf [("EV_REQUIREDVAR", "foo"), ("EV_MAPFIELD", "")]) "ev"
    (um "*env.Specification") (um "env.Specification") demoFields (zeroFields demoFields) 5
    ⟨"MapField", true, ⟨[("default", "one:two,three:four")]⟩, tMap tString tString⟩
    (descriptorOf refLib "ev" 5
      ⟨"MapField", true, ⟨[("default", "one:two,three:four")]⟩, tMap tString tString⟩
      (.map none))
    (recordPtr (um "*env.Specification") (um "env.Specification") demoFields
      [.int 0, .str "foo", .str "127.0.0.1", .str "", .str "", .map none, .ptr none, .str ""])
    (by rfl) (by rfl)
    ⟨by rfl, (descriptors refLib "ev" demoFields 0 (zeroFields demoFields)).take 4,
      (descriptors refLib "ev" demoFields 0 (zeroFields demoFields)).drop 5,
      [(0, "EV_PORT"), (1, "EV_REQUIREDVAR"), (2, "EV_BROKER"), (2, "BROKER"), (3, "EV_USER")],
      by rfl, by rfl⟩
    (by rfl) (by rfl)).2.2.2.2 _ _ _ rfl rfl rfl).2

/-- C9 fails as stated: the nil `*setterStruct` field is not ignored, not
required, has no default, and neither its computed key nor an alias is in the
environment; `Load` succeeds, and the field is not as it was (nil): it points
to a zero `setterStruct`. -/
theorem C9_counterexample :
    isTrue (optionalPtrField.Tag.Get A_IGNORE) = false ∧
    isTrue (optionalPtrField.Tag.Get A_REQUIRE) = false ∧
    optionalPtrField.Tag.Get A_DEFAULT = "" ∧
    altOf refLib optionalPtrField = "" ∧
    envOf [("STRUCT", "inner")] (keyOf refLib "ev" optionalPtrField) = none ∧
    fieldAt optionalPtrSpec 0 = some (.ptr none) ∧
    (Load refLib (envOf [("STRUCT", "inner")]) "ev" optionalPtrSpec).err = .nil ∧
    fieldAt (Load refLib (envOf [("STRUCT", "inner")]) "ev" optionalPtrSpec).spec 0 =
      some (.ptr (some (.struct [.str ""]))) ∧
    fieldAt (Load refLib (envOf [("STRUCT", "inner")]) "ev" optionalPtrSpec).spec 0 ≠
      fieldAt optionalPtrSpec 0 :=
  ⟨by decide, by decide, by decide, by rfl, by rfl, by rfl, by rfl, by rfl, by
    rw [show fieldAt (Load refLib (envOf [("STRUCT", "inner")]) "ev" optionalPtrSpec).spec 0 =
        some (.ptr (some (.struct [.str ""]))) from rfl,
      show fieldAt optionalPtrSpec 0 = some (.ptr none) from rfl]
    simp⟩

/-- C9, amended: for a field that is not required and has no default, when
the environment holds neither its computed key nor its stored alias
(whatever else it holds): the pass of the field's descriptor through the loop
changes nothing and the loop goes on to the next field; after `Load` the
field is as it was, except that a nil pointer to a record in it may have
become a pointer to a zero record during introspection (it has, whenever
binding reaches the field).  A field that is not a pointer is exactly as
before, and a nil pointer to a non-record type stays nil. -/
theorem C9_unset_left_alone (lib : Stdlib) (env : Env) (pfx : String) (m ms : TypeMeta)
    (fields : List StructField) (vals : List Val) (i : Nat) (f : StructField)
    (hf : fields[i]? = some f)
    (hreq : isTrue (f.Tag.Get A_REQUIRE) = false)
    (hdef : f.Tag.Get A_DEFAULT = "")
    (hkey : env (keyOf lib pfx f) = none)
    (halt : altOf lib f ≠ "" → env (altOf lib f) = none) :
    (∀ info st, Reaches lib env pfx (recordPtr m ms fields vals) info st →
      info.Field.index = i →
      bindField lib env info st = (st, (lookupVar env info).2, .nil) ∧
      fieldAt (Load lib env pfx (recordPtr m ms fields vals)).spec i =
        (vals[i]?).map (fun v => (derefLoop f.Typ v).1)) ∧
    (fieldAt (Load lib env pfx (recordPtr m ms fields vals)).spec i = vals[i]? ∨
      fieldAt (Load lib env pfx (recordPtr m ms fields vals)).spec i =
        (vals[i]?).map (fun v => (derefLoop f.Typ v).1)) ∧
    (f.Typ.isPtr = false →
      fieldAt (Load lib env pfx (recordPtr m ms fields vals)).spec i = vals[i]?) ∧
    (∀ mp elem, f.Typ = .ptr mp elem → elem.isStruct = false → vals[i]? = some (.ptr none) →
      fieldAt (Load lib env pfx (recordPtr m ms fields vals)).spec i = some (.ptr none)) := by
  have hpass : ∀ v s, bindField lib env (descriptorOf lib pfx i f v) s =
      (s, (lookupVar env (descriptorOf lib pfx i f v)).2, .nil) := fun v s =>
    bindField_skip lib env (descriptorOf lib pfx i f v) s
      (lookupVar_absent env _ hkey halt) hdef hreq
  have hcases := Load_field_cases lib env pfx m ms fields vals i f hf
    (fun v s => by rw [hpass v s])
  refine ⟨?_, hcases, ?_, ?_⟩
  · intro info st hreach hidx
    obtain ⟨f', vs, trace, hf', _, hinfo, hst, hvs, _, hfield⟩ :=
      Load_of_reaches lib env pfx m ms fields vals info st hreach
    rw [hidx] at hf' hvs hfield hinfo
    rw [hf] at hf'
    cases hf'
    have hb := hpass (vals.getD i (zero f.Typ)) st
    rw [← hinfo] at hb
    exact ⟨hb, by rw [hfield, hb, hst, fieldAt_recordPtr, hvs]⟩
  · intro hp
    have hid : (vals[i]?).map (fun v => (derefLoop f.Typ v).1) = vals[i]? := by
      cases vals[i]? with
      | none => rfl
      | some v => simp [derefLoop_nonptr f.Typ v hp]
    rcases hcases with h | h
    · exact h
    · rw [h, hid]
  · intro mp elem ht hs hv
    rcases hcases with h | h
    · rw [h, hv]
    · rw [h, hv, ht]
      simp [derefLoop_nil_nonstruct mp elem hs]

/-- C9 amended, at the field `User` with the variable `USER` set but not
`EV_USER`, as in `TestUnsetVars`, and at the nil `*string` field
`SomePointer`, as in `TestPointerFieldBlank`. -/
theorem C9_unset_left_alone_witness :
    fieldAt (Load refLib (envOf [("USER", "foo"), ("EV_REQUIREDVAR", "foo")]) "ev"
        demoSpec).spec 3 = some (.str "") ∧
    fieldAt (Load refLib (envOf [("USER", "foo"), ("EV_REQUIREDVAR", "foo")]) "ev"
        demoSpec).spec 6 = some (.ptr none) :=
  ⟨(C9_unset_left_alone refLib (envOf [("USER", "foo"), ("EV_REQUIREDVAR", "foo")]) "ev"
      (um "*env.Specification") (um "env.Specification") demoFields (zeroFields demoFields) 3
      ⟨"User", true, ⟨[]⟩, tString⟩
      (by rfl) (by decide) (by rfl) (by rfl) (by intro h; exact absurd rfl h)).2.2.1 (by rfl),
    (C9_unset_left_alone refLib (envOf [("USER", "foo"), ("EV_REQUIREDVAR", "foo")]) "ev"
      (um "*env.Specification") (um "env.Specification") demoFields (zeroFields demoFields) 6
      ⟨"SomePointer", true, ⟨[]⟩, tPtr tString⟩
      (by rfl) (by decide) (by rfl) (by rfl) (by intro h; exact absurd rfl h)).2.2.2 _ _
        rfl (by rfl) (by rfl)⟩

/-- C10: for a field whose `ignore` annotation is true, in every environment
and for every prefix: `gatherInfo` makes no descriptor for the field; every
lookup `Load` makes is made on behalf of another field and is of that field's
key or alias; the value of the ignored field is left exactly as it was (not
even a nil pointer to a record in it is replaced); and every missing-required
error that `Load` returns names the key of the descriptor of another field,
whether or not the ignored field is annotated as required. -/
theorem C10_ignored_untouched (lib : Stdlib) (env : Env) (pfx : String) (m ms : TypeMeta)
    (fields : List StructField) (vals : List Val) (i : Nat) (f : StructField)
    (hf : fields[i]? = some f)
    (hign : isTrue (f.Tag.Get A_IGNORE) = true) :
    (∀ info ∈ (gatherInfo lib pfx (recordPtr m ms fields vals)).2.1, info.Field.index ≠ i) ∧
    (∀ l ∈ (Load lib env pfx (recordPtr m ms fields vals)).lookups,
      ∃ info ∈ (gatherInfo lib pfx (recordPtr m ms fields vals)).2.1,
        info.Field.index ≠ i ∧ l.1 = info.Field.index ∧ (l.2 = info.Key ∨ l.2 = info.Alt)) ∧
    fieldAt (Load lib env pfx (recordPtr m ms fields vals)).spec i = vals[i]? ∧
    (∀ k, (Load lib env pfx (recordPtr m ms fields vals)).err = .err (.requiredKeyMissing k) →
      ∃ info ∈ (gatherInfo lib pfx (recordPtr m ms fields vals)).2.1,
        info.Key = k ∧ info.Field.index ≠ i) := by
  have he : eligible f = false := by simp [eligible, hign]
  obtain ⟨vs, hspec, hframe, _, hinfos, herr⟩ := gatherInfo_record lib pfx m ms fields vals
  have hidx : ∀ info ∈ (gatherInfo lib pfx (recordPtr m ms fields vals)).2.1,
      info.Field.index ≠ i := by
    intro info hmem hi
    obtain ⟨f', hf', he', _⟩ := hinfos info hmem
    rw [hi, hf] at hf'
    cases hf'
    rw [he] at he'
    cases he'
  obtain ⟨htr, hreq⟩ := loadLoop_trace lib env
    (gatherInfo lib pfx (recordPtr m ms fields vals)).2.1
    (gatherInfo lib pfx (recordPtr m ms fields vals)).1 []
  obtain ⟨ws, hws, hwframe⟩ := loadLoop_shape lib env m ms fields
    (gatherInfo lib pfx (recordPtr m ms fields vals)).2.1 vs []
  rw [← hspec] at hws
  have hS := (Load_spec lib env pfx (recordPtr m ms fields vals)).1
  have hT := (Load_spec lib env pfx (recordPtr m ms fields vals)).2
  refine ⟨hidx, ?_, ?_, ?_⟩
  · intro l hl
    rw [hT] at hl
    rcases htr l hl with h | ⟨info, hmem, hinfo⟩
    · simp at h
    · exact ⟨info, hmem, hidx info hmem, hinfo⟩
  · rw [hS, hws, fieldAt_recordPtr, hwframe i hidx]
    exact hframe i (fun f' hf' => by rw [hf] at hf'; cases hf'; exact he)
  · intro k hk
    have hloop : (loadLoop lib env (gatherInfo lib pfx (recordPtr m ms fields vals)).2.1
        (gatherInfo lib pfx (recordPtr m ms fields vals)).1 []).2.2 =
        .err (.requiredKeyMissing k) := by
      unfold Load at hk
      simp only at hk
      split at hk
      · split at hk
        · simp at hk
        · rename_i e he'
          simp only [Outcome.err.injEq] at hk
          exact absurd hk (herr e k he')
      · rename_i o ho
        simp only at hk
        exact hk
    obtain ⟨info, hmem, hkey⟩ := hreq k hloop
    exact ⟨info, hmem, hkey, hidx info hmem⟩

/-- C10, at the field `Ignored` (ignored and required) with `EV_IGNORED` set,
as in `TestLoad`. -/
theorem C10_ignored_untouched_witness :
    fieldAt (Load refLib (envOf [("EV_REQUIREDVAR", "foo"), ("EV_IGNORED", "was-not-ignored")])
        "ev" demoSpec).spec 4 = some (.str "") ∧
    ∀ l ∈ (Load refLib (envOf [("EV_REQUIREDVAR", "foo"), ("EV_IGNORED", "was-not-ignored")])
        "ev" demoSpec).lookups,
      ∃ info ∈ (gatherInfo refLib "ev" demoSpec).2.1,
        info.Field.index ≠ 4 ∧ l.1 = info.Field.index ∧ (l.2 = info.Key ∨ l.2 = info.Alt) :=
  have h := C10_ignored_untouched refLib
    (envOf [("EV_REQUIREDVAR", "foo"), ("EV_IGNORED", "was-not-ignored")]) "ev"
    (um "*env.Specification") (um "env.Specification") demoFields (zeroFields demoFields) 4
    ⟨"Ignored", true, ⟨[("ignore", "true"), ("require", "true")]⟩, tString⟩ (by rfl) (by decide)
  ⟨h.2.2.1, h.2.1⟩

/-! ## C11 to C15: coercion failures and dispatch -/

/-- C11 fails as stated for a pointer field whose pointer introspection
followed: the field `Count` is declared with type `*int` and points to 7;
with `EV_COUNT` set to `x` the coercion fails, and the `TypeName` of the
`ParseError` that `Load` returns is `int`, not the name `*int` of the field's
type. -/
theorem C11_counterexample :
    countPtrField.Typ.String = "*int" ∧
    (Load refLib (envOf [("EV_COUNT", "x")]) "ev" countPtrSpec).err =
      .err (.ParseError "EV_COUNT" "Count" "int" "x" (.numError "ParseInt" "x" false)) :=
  ⟨by rfl, by rfl⟩

/-- C11, amended: a failed coercion is returned as a `*ParseError`.  When
binding reaches a field and coercion of the string resolved for it (from the
environment or the default) fails with cause `e`, `Load` returns a
`ParseError` whose `KeyName` is the field's computed key, whose `FieldName`
is the field's declared name, whose `TypeName` is the name of the type the
field's descriptor refers to (the declared type of the field for every field
that is not a pointer; the type reached through the pointers `gatherInfo`
followed otherwise), whose `Value` is the resolved string and whose `Err` is
the cause `e`. -/
theorem C11_parse_error (lib : Stdlib) (env : Env) (pfx : String) (m ms : TypeMeta)
    (fields : List StructField) (vals : List Val) (i : Nat) (f : StructField) (x : Val)
    (info : varInfo) (st : Option Value) (raw : String) (e : GoError)
    (hf : fields[i]? = some f) (hx : vals[i]? = some x)
    (hreach : Reaches lib env pfx (recordPtr m ms fields vals) info st)
    (hidx : info.Field.index = i)
    (hraw : resolve env info = some raw)
    (hfail : (processField lib info.Field.typ raw (reachedValue f.Typ x)).2 = .err e) :
    (Load lib env pfx (recordPtr m ms fields vals)).err =
      .err (.ParseError (keyOf lib pfx f) f.Name info.Field.typ.String raw e) ∧
    info.Key = keyOf lib pfx f ∧ info.Name = f.Name ∧
    info.Field.typ = (derefLoop f.Typ x).2.1 ∧
    (f.Typ.isPtr = false → info.Field.typ = f.Typ ∧ reachedValue f.Typ x = x) :=
  Load_parse_error lib env pfx m ms fields vals i f x info st raw e hf hx hreach hidx hraw hfail

/-- C11 amended, at the field `Port` of type `int` with `EV_PORT` set to `abc`. -/
theorem C11_parse_error_witness :
    (Load refLib (envOf [("EV_PORT", "abc")]) "ev" demoSpec).err =
      .err (.ParseError "EV_PORT" "Port" "int" "abc" (.numError "ParseInt" "abc" false)) :=
  (C11_parse_error refLib (envOf [("EV_PORT", "abc")]) "ev"
    (um "*env.Specification") (um "env.Specification") demoFields (zeroFields demoFields) 0
    ⟨"Port", true, ⟨[]⟩, tInt⟩ (.int 0)
    (descriptorOf refLib "ev" 0 ⟨"Port", true, ⟨[]⟩, tInt⟩ (.int 0))
    (gatherInfo refLib "ev" demoSpec).1 "abc" (.numError "ParseInt" "abc" false)
    (by rfl) (by rfl)
    ⟨by rfl, [], (descriptors refLib "ev" demoFields 0 (zeroFields demoFields)).drop 1, [],
      by rfl, by rfl⟩
    (by rfl) (by rfl) (by rfl)).1

/-- C12 fails as stated where a later field is a nil pointer to a record:
the required field `Name` has no variable, so the call fails at it; the later
field `Struct` is never looked up, yet it is not as before the call (nil): it
points to a zero `setterStruct`, allocated during introspection. -/
theorem C12_counterexample :
    (Load refLib (envOf []) "ev" stopSpec).err = .err (.requiredKeyMissing "EV_NAME") ∧
    (Load refLib (envOf []) "ev" stopSpec).lookups = [(0, "EV_NAME")] ∧
    fieldAt stopSpec 1 = some (.ptr none) ∧
    fieldAt (Load refLib (envOf []) "ev" stopSpec).spec 1 =
      some (.ptr (some (.struct [.str ""]))) ∧
    fieldAt (Load refLib (envOf []) "ev" stopSpec).spec 1 ≠ fieldAt stopSpec 1 :=
  ⟨by rfl, by rfl, by rfl, by rfl, by
    rw [show fieldAt (Load refLib (envOf []) "ev" stopSpec).spec 1 =
        some (.ptr (some (.struct [.str ""]))) from rfl,
      show fieldAt stopSpec 1 = some (.ptr none) from rfl]
    simp⟩

/-- C12, amended: `Load` stops at the first field whose binding fails.  When
binding reaches a descriptor and its pass fails, the call ends with that
failure and with the record as the failing pass left it (no rollback); every
earlier described field for which a string was resolved holds the value the
coercion of that string left in it; every lookup made belongs to the failing
field or an earlier one; and every later field is as introspection left it:
as before the call, except that a nil pointer to a record in a described
field has been replaced by a pointer to a zero record (a later field that is
not a pointer is exactly as before the call). -/
theorem C12_stops_at_first_failure (lib : Stdlib) (env : Env) (pfx : String) (m ms : TypeMeta)
    (fields : List StructField) (vals : List Val) (info : varInfo) (st : Option Value)
    (hreach : Reaches lib env pfx (recordPtr m ms fields vals) info st)
    (hfail : (bindField lib env info st).2.2 ≠ .nil) :
    (Load lib env pfx (recordPtr m ms fields vals)).err = (bindField lib env info st).2.2 ∧
    (Load lib env pfx (recordPtr m ms fields vals)).spec = (bindField lib env info st).1 ∧
    (∀ info' ∈ (gatherInfo lib pfx (recordPtr m ms fields vals)).2.1,
      info'.Field.index < info.Field.index →
      ∀ f' raw, fields[info'.Field.index]? = some f' → resolve env info' = some raw →
        fieldAt (Load lib env pfx (recordPtr m ms fields vals)).spec info'.Field.index =
          (vals[info'.Field.index]?).map (boundValue lib f'.Typ raw)) ∧
    (∀ l ∈ (Load lib env pfx (recordPtr m ms fields vals)).lookups, l.1 ≤ info.Field.index) ∧
    (∀ j, info.Field.index < j →
      fieldAt (Load lib env pfx (recordPtr m ms fields vals)).spec j =
        fieldAt (gatherInfo lib pfx (recordPtr m ms fields vals)).1 j) ∧
    (∀ j f', info.Field.index < j → fields[j]? = some f' →
      (fieldAt (Load lib env pfx (recordPtr m ms fields vals)).spec j = vals[j]? ∨
        fieldAt (Load lib env pfx (recordPtr m ms fields vals)).spec j =
          (vals[j]?).map (fun v => (derefLoop f'.Typ v).1)) ∧
      (f'.Typ.isPtr = false →
        fieldAt (Load lib env pfx (recordPtr m ms fields vals)).spec j = vals[j]?)) := by
  have hreach' := hreach
  obtain ⟨hok, pre, post, trace, hinfos, hloop⟩ := hreach'
  have hL := Load_stop lib env pfx _ pre post info st trace hok hinfos hloop hfail
  obtain ⟨htrace, hlater⟩ :=
    reaches_frame lib env pfx m ms fields vals info st pre post trace hok hinfos hloop
  have hlater' : ∀ j, info.Field.index < j →
      fieldAt (Load lib env pfx (recordPtr m ms fields vals)).spec j =
        fieldAt (gatherInfo lib pfx (recordPtr m ms fields vals)).1 j := by
    intro j hj
    rw [hL]
    exact hlater j hj
  refine ⟨by rw [hL], by rw [hL], ?_, ?_, hlater', ?_⟩
  · intro info' hmem hlt f' raw hf' hraw
    obtain ⟨st', hr'⟩ := reaches_earlier lib env pfx m ms fields vals info info' st hreach hmem hlt
    exact (Load_bound lib env pfx m ms fields vals info'.Field.index f' info' st' raw
      (lookupVar env info').2 hf' hr' rfl (bindField_resolved lib env info' st' raw hraw)).1
  · intro l hl
    rw [hL] at hl
    rcases List.mem_append.mp hl with h | h
    · exact Nat.le_of_lt (htrace l h)
    · exact Nat.le_of_eq (bindField_lookups lib env info st l h).1
  · intro j f' hj hf'
    obtain ⟨vs, hvs, _, hcases, _, _⟩ := gatherInfo_record lib pfx m ms fields vals
    have hc := hcases j f' hf'
    rw [hlater' j hj, hvs, fieldAt_recordPtr]
    refine ⟨hc, fun hp => ?_⟩
    have hid : (vals[j]?).map (fun v => (derefLoop f'.Typ v).1) = vals[j]? := by
      cases vals[j]? with
      | none => rfl
      | some v => simp [derefLoop_nonptr f'.Typ v hp]
    rcases hc with h | h
    · exact h
    · rw [h, hid]

/-- C12 amended, on the test record with only `EV_PORT` set: the call fails
at the required field `RequiredVar`; the earlier field `Port` holds 8080, and
every lookup belongs to one of these two fields. -/
theorem C12_stops_at_first_failure_witness :
    (Load refLib (envOf [("EV_PORT", "8080")]) "ev" demoSpec).err =
      .err (.requiredKeyMissing "EV_REQUIREDVAR") ∧
    fieldAt (Load refLib (envOf [("EV_PORT", "8080")]) "ev" demoSpec).spec 0 =
      some (.int 8080) ∧
    (∀ l ∈ (Load refLib (envOf [("EV_PORT", "8080")]) "ev" demoSpec).lookups, l.1 ≤ 1) ∧
    fieldAt (Load refLib (envOf [("EV_PORT", "8080")]) "ev" demoSpec).spec 5 =
      some (.map none) :=
  have h := C12_stops_at_first_failure refLib (envOf [("EV_PORT", "8080")]) "ev"
    (um "*env.Specification") (um "env.Specification") demoFields (zeroFields demoFields)
    (descriptorOf refLib "ev" 1 ⟨"RequiredVar", true, ⟨[("require", "True")]⟩, tString⟩ (.str ""))
    (recordPtr (um "*env.Specification") (um "env.Specification") demoFields
      [.int 8080, .str "", .str "", .str "", .str "", .map none, .ptr none, .str ""])
    ⟨by rfl, (descriptors refLib "ev" demoFields 0 (zeroFields demoFields)).take 1,
      (descriptors refLib "ev" demoFields 0 (zeroFields demoFields)).drop 2,
      [(0, "EV_PORT")], by rfl, by rfl⟩
    (by rw [show (bindField refLib (envOf [("EV_PORT", "8080")])
        (descriptorOf refLib "ev" 1
          ⟨"RequiredVar", true, ⟨[("require", "True")]⟩, tString⟩ (.str ""))
        (recordPtr (um "*env.Specification") (um "env.Specification") demoFields
          [.int 8080, .str "", .str "", .str "", .str "", .map none, .ptr none, .str ""])).2.2 =
        .err (.requiredKeyMissing "EV_REQUIREDVAR") from rfl]; simp)
  ⟨h.1, h.2.2.1 (descriptorOf refLib "ev" 0 ⟨"Port", true, ⟨[]⟩, tInt⟩ (.int 0))
      (by rw [show (gatherInfo refLib "ev" (recordPtr (um "*env.Specification")
          (um "env.Specification") demoFields (zeroFields demoFields))).2.1 =
          descriptors refLib "ev" demoFields 0 (zeroFields demoFields) from rfl]
          exact List.mem_cons_self _ _)
      (by decide) ⟨"Port", true, ⟨[]⟩, tInt⟩ "8080" (by rfl) (by rfl),
    h.2.2.2.1, (h.2.2.2.2.2 5 _ (by decide) (by rfl)).2 (by rfl)⟩

/-- C13: a failed coercion into a built-in type leaves the field as it was.
For a field whose type is not a pointer and has neither `Set` nor
`UnmarshalText` (in particular a built-in boolean, signed or unsigned
integer, floating-point, sequence or map type): when binding reaches the
field and its pass fails, `Load` returns that failure and the field's value
after the call equals its value before the call (the zero value, for a fresh
record); and whenever `processField` fails on such a type it hands back the
value it was given, so a sequence or map built in part is never stored. -/
theorem C13_failed_builtin_unchanged (lib : Stdlib) (env : Env) (pfx : String) (m ms : TypeMeta)
    (fields : List StructField) (vals : List Val) (i : Nat) (f : StructField)
    (info : varInfo) (st : Option Value)
    (hf : fields[i]? = some f)
    (hp : f.Typ.isPtr = false)
    (hs : setterFrom f.Typ = none) (ht : textUnmarshaler f.Typ = none)
    (hreach : Reaches lib env pfx (recordPtr m ms fields vals) info st)
    (hidx : info.Field.index = i)
    (hfail : (bindField lib env info st).2.2 ≠ .nil) :
    fieldAt (Load lib env pfx (recordPtr m ms fields vals)).spec i = vals[i]? ∧
    (Load lib env pfx (recordPtr m ms fields vals)).err = (bindField lib env info st).2.2 ∧
    (∀ raw x, (processField lib f.Typ raw x).2 ≠ .nil → (processField lib f.Typ raw x).1 = x) := by
  obtain ⟨f', vs, trace, hf', _, hinfo, hst, hvs, hstop, hfield⟩ :=
    Load_of_reaches lib env pfx m ms fields vals info st hreach
  rw [hidx] at hf' hvs hinfo hfield
  rw [hf] at hf'
  cases hf'
  have hid : (vals[i]?).map (fun v => (derefLoop f.Typ v).1) = vals[i]? := by
    cases vals[i]? with
    | none => rfl
    | some v => simp [derefLoop_nonptr f.Typ v hp]
  refine ⟨?_, by rw [hstop hfail], fun raw x h =>
    processField_fail_unchanged lib f.Typ raw x hp hs ht h⟩
  rw [hfield]
  cases hr : resolve env info with
  | none =>
    rw [bindField_unresolved lib env info st hr, hst, fieldAt_recordPtr, hvs, hid]
  | some raw =>
    have hb := bindField_resolved lib env info st raw hr
    rw [hb, hst, hinfo, fieldAt_assign_described lib pfx m ms fields vals vs i f raw hvs]
    cases hx : vals[i]? with
    | none => rfl
    | some x =>
      simp only [Option.map_some', boundValue, derefLoop_nonptr f.Typ x hp, throughPtrs]
      congr 1
      apply processField_fail_unchanged lib f.Typ raw x hp hs ht
      intro hnil
      apply hfail
      rw [hb]
      apply assign_nil_of_update
      have h := updateField_described lib pfx m ms fields vals vs i f x raw hx hvs
      rw [← hinfo, ← hst] at h
      rw [h, derefLoop_nonptr f.Typ x hp, reachedValue_nonptr f.Typ x hp]
      exact hnil

/-- C13, at the field `Port` of type `int` with `EV_PORT` set to `abc`: the
call fails and `Port` still holds 0. -/
theorem C13_failed_builtin_unchanged_witness :
    fieldAt (Load refLib (envOf [("EV_PORT", "abc")]) "ev" demoSpec).spec 0 = some (.int 0) ∧
    (Load refLib (envOf [("EV_PORT", "abc")]) "ev" demoSpec).err =
      .err (.ParseError "EV_PORT" "Port" "int" "abc" (.numError "ParseInt" "abc" false)) :=
  have h := C13_failed_builtin_unchanged refLib (envOf [("EV_PORT", "abc")]) "ev"
    (um "*env.Specification") (um "env.Specification") demoFields (zeroFields demoFields) 0
    ⟨"Port", true, ⟨[]⟩, tInt⟩
    (descriptorOf refLib "ev" 0 ⟨"Port", true, ⟨[]⟩, tInt⟩ (.int 0))
    (gatherInfo refLib "ev" demoSpec).1
    (by rfl) (by rfl) (by rfl) (by rfl)
    ⟨by rfl, [], (descriptors refLib "ev" demoFields 0 (zeroFields demoFields)).drop 1, [],
      by rfl, by rfl⟩
    (by rfl)
    (by rw [show (bindField refLib (envOf [("EV_PORT", "abc")])
        (descriptorOf refLib "ev" 0 ⟨"Port", true, ⟨[]⟩, tInt⟩ (.int 0))
        (gatherInfo refLib "ev" demoSpec).1).2.2 =
        .err (.ParseError "EV_PORT" "Port" "int" "abc" (.numError "ParseInt" "abc" false))
        from rfl]; simp)
  ⟨h.1, h.2.1⟩

/-- C14: custom capabilities come first.  Whenever `Set` is found on the
destination (on its type or on the address of it), `processField` returns
exactly the result of calling it with the raw string, whether or not
`UnmarshalText` is present and whatever the kind of the type; otherwise,
whenever `UnmarshalText` is found, `processField` returns exactly the result
of calling it with the raw string; otherwise the built-in rule for the kind
applies (to the pointee, for a pointer).  On a destination that is not a
pointer the call is made on the destination itself. -/
theorem C14_custom_capability_first (lib : Stdlib) (typ : Ty) (raw : String) (x : Val) :
    (∀ s, setterFrom typ = some s → processField lib typ raw x = invoke s typ raw x) ∧
    (∀ t, setterFrom typ = none → textUnmarshaler typ = some t →
      processField lib typ raw x = invoke t typ raw x) ∧
    (setterFrom typ = none → textUnmarshaler typ = none → typ.isPtr = false →
      processField lib typ raw x = builtinRule lib typ raw x) ∧
    (∀ mp elem, typ = .ptr mp elem → setterFrom typ = none → textUnmarshaler typ = none →
      processField lib typ raw x =
        (.ptr (some (builtinRule lib elem raw (pointeeOf elem x)).1),
         (builtinRule lib elem raw (pointeeOf elem x)).2)) ∧
    (∀ s, typ.isPtr = false → invoke s typ raw x = s.call raw x) :=
  ⟨fun s hs => processField_setter lib typ raw x s hs,
   fun t hs ht => processField_unmarshaler lib typ raw x t hs ht,
   fun hs ht hp => processField_builtin lib typ raw x hs ht hp,
   fun mp elem h hs ht => by
     subst h
     exact processField_ptr lib mp elem raw x hs ht,
   fun s hp => invoke_nonptr s typ raw x hp⟩

/-- C14, at the type `bracketed` of the test suite, whose `Set` stores the
raw string between brackets: the raw string `bar` is stored as `[bar]`, not
as the string kind would store it. -/
theorem C14_custom_capability_first_witness :
    processField refLib bracketed "bar" (.str "") = (.str "[bar]", .nil) :=
  (C14_custom_capability_first refLib bracketed "bar" (.str "")).1
    ⟨true, fun value _ => (.str ("[" ++ value ++ "]"), .nil), fun _ => .panic⟩ (by rfl)

/-- C15 fails as stated when `T` is itself a pointer: for the raw string `x`,
coercion into a nil `**int` succeeds and stores no coerced value (the pointee
is a nil `*int`), whereas coercion of `x` into a `*int` fails. -/
theorem C15_counterexample :
    processField refLib (tPtr (tPtr tInt)) "x" (.ptr none) = (.ptr (some (.ptr none)), .nil) ∧
    (processField refLib (tPtr tInt) "x" (.ptr none)).2 =
      .err (.numError "ParseInt" "x" false) :=
  ⟨by rfl, by rfl⟩

/-- C15, amended: for a destination of type pointer-to-`T` on which neither
`Set` nor `UnmarshalText` is found, `processField` takes the pointee (a zero
`T` when the pointer is nil), applies to it the built-in rule for the kind of
`T` without looking for `Set` or `UnmarshalText` again and without following
a further pointer, and leaves the pointer pointing to the result, with the
outcome of that rule.  When `T` is not a pointer and neither method is found
on `T` itself, this is the result of `processField` on a destination of type
`T` holding the pointee, with the same outcome; that is always so when the
pointer type is unnamed and `T` is not a pointer, since a method of `T` would
have been found on the pointer.  When `T` is itself a pointer, the pointee is
left as it is and the coercion succeeds.  A named pointer type has no
methods, so a `Set` or `UnmarshalText` of its `T` is not used: the pointee
gets the built-in rule all the same. -/
theorem C15_pointer_destination (lib : Stdlib) (mp : TypeMeta) (elem : Ty) (raw : String)
    (x : Val)
    (hs : setterFrom (.ptr mp elem) = none) (ht : textUnmarshaler (.ptr mp elem) = none) :
    processField lib (.ptr mp elem) raw x =
      (.ptr (some (builtinRule lib elem raw (pointeeOf elem x)).1),
       (builtinRule lib elem raw (pointeeOf elem x)).2) ∧
    pointeeOf elem (.ptr none) = zero elem ∧
    (∀ p, pointeeOf elem (.ptr (some p)) = p) ∧
    (elem.isPtr = false → setterFrom elem = none → textUnmarshaler elem = none →
      processField lib (.ptr mp elem) raw x =
        (.ptr (some (processField lib elem raw (pointeeOf elem x)).1),
         (processField lib elem raw (pointeeOf elem x)).2)) ∧
    (elem.isPtr = true →
      processField lib (.ptr mp elem) raw x = (.ptr (some (pointeeOf elem x)), .nil)) ∧
    (mp.Name = "" → elem.isPtr = false →
      setterFrom elem = none ∧ textUnmarshaler elem = none ∧
      processField lib (.ptr mp elem) raw x =
        (.ptr (some (processField lib elem raw (pointeeOf elem x)).1),
         (processField lib elem raw (pointeeOf elem x)).2)) := by
  have h := processField_ptr lib mp elem raw x hs ht
  have h4 : elem.isPtr = false → setterFrom elem = none → textUnmarshaler elem = none →
      processField lib (.ptr mp elem) raw x =
        (.ptr (some (processField lib elem raw (pointeeOf elem x)).1),
         (processField lib elem raw (pointeeOf elem x)).2) := by
    intro hp hs' ht'
    rw [h, processField_builtin lib elem raw (pointeeOf elem x) hs' ht' hp]
  refine ⟨h, rfl, fun _ => rfl, h4, ?_, ?_⟩
  · intro hp
    rw [h]
    cases elem <;> first | rfl | simp [Ty.isPtr] at hp
  · intro hn hp
    have hm : ∀ sel, methodFrom sel (.ptr mp elem) = none → methodFrom sel elem = none := by
      intro sel hsel
      cases elem with
      | ptr m e => simp [Ty.isPtr] at hp
      | other m k =>
        cases k <;> first | rfl | (simp only [methodFrom, if_pos hn] at hsel; simp only [methodFrom]; exact hsel)
      | bool m => simp only [methodFrom, if_pos hn] at hsel; simp only [methodFrom]; exact hsel
      | int m k => simp only [methodFrom, if_pos hn] at hsel; simp only [methodFrom]; exact hsel
      | uint m k => simp only [methodFrom, if_pos hn] at hsel; simp only [methodFrom]; exact hsel
      | float m k => simp only [methodFrom, if_pos hn] at hsel; simp only [methodFrom]; exact hsel
      | string m => simp only [methodFrom, if_pos hn] at hsel; simp only [methodFrom]; exact hsel
      | slice m e => simp only [methodFrom, if_pos hn] at hsel; simp only [methodFrom]; exact hsel
      | map m k e => simp only [methodFrom, if_pos hn] at hsel; simp only [methodFrom]; exact hsel
      | struct m fs => simp only [methodFrom, if_pos hn] at hsel; simp only [methodFrom]; exact hsel
    exact ⟨hm _ hs, hm _ ht, h4 hp (hm _ hs) (hm _ ht)⟩

/-- C15 amended, with the raw strings `foo` and `bar`.  A nil `*string` ends
pointing to `foo`.  A nil pointer of the named type `P`, declared as
`type P *bracketed`, ends pointing to `bar`, the built-in rule for strings,
whereas a `bracketed` destination itself is set to `[bar]` by its `Set`. -/
theorem C15_pointer_destination_witness :
    processField refLib (tPtr tString) "foo" (.ptr none) = (.ptr (some (.str "foo")), .nil) ∧
    processField refLib (.ptr ⟨"github.com/lavaorg/lrt/env", "P", "env.P", none, none⟩ bracketed)
      "bar" (.ptr none) = (.ptr (some (.str "bar")), .nil) ∧
    processField refLib bracketed "bar" (.str "") = (.str "[bar]", .nil) :=
  ⟨(C15_pointer_destination refLib ⟨"", "", "*string", none, none⟩ tString "foo" (.ptr none)
    (by rfl) (by rfl)).1,
   (C15_pointer_destination refLib ⟨"github.com/lavaorg/lrt/env", "P", "env.P", none, none⟩
    bracketed "bar" (.ptr none) (by rfl) (by rfl)).1,
   by rfl⟩

/-- C18: sequences are coerced piece by piece.  For a sequence type with
element type `T` on which neither `Set` nor `UnmarshalText` is found: when
every comma-separated piece of the raw string is coerced into a fresh zero
`T` without error, `processField` succeeds and the destination becomes the
sequence of the coerced pieces, one per piece and in the order of the pieces,
whatever it held before; when the coercion of any one piece fails,
`processField` fails and the destination keeps what it held. -/
theorem C18_sequence_pieces (lib : Stdlib) (mt : TypeMeta) (elem : Ty) (raw : String) (x : Val)
    (hs : setterFrom (.slice mt elem) = none) (ht : textUnmarshaler (.slice mt elem) = none) :
    ((∀ p ∈ Split raw ',', (processField lib elem p (zero elem)).2 = .nil) →
      processField lib (.slice mt elem) raw x =
        (.slice (some ((Split raw ',').map (fun p => (processField lib elem p (zero elem)).1))),
         .nil)) ∧
    ((∃ p ∈ Split raw ',', (processField lib elem p (zero elem)).2 ≠ .nil) →
      (processField lib (.slice mt elem) raw x).2 ≠ .nil ∧
      (processField lib (.slice mt elem) raw x).1 = x) := by
  have hb := processField_builtin lib (.slice mt elem) raw x hs ht rfl
  constructor
  · intro h
    rw [hb, builtinRule_slice, processElems_ok _ _ _ h]
  · intro h
    have hf := processElems_fail _ _ _ h
    have hne : (processField lib (.slice mt elem) raw x).2 ≠ .nil := by
      rw [hb, builtinRule_slice]
      rcases hpe : processElems (processField lib elem) (zero elem) (Split raw ',') with ⟨sl, o⟩
      rw [hpe] at hf
      cases o with
      | nil => exact absurd rfl hf
      | err e => simp
      | panic => simp
    exact ⟨hne, processField_fail_unchanged lib _ raw x rfl hs ht hne⟩

/-- C18, on a nil `[]int` with the raw string `5,10,20`, as in `TestLoad`. -/
theorem C18_sequence_pieces_witness :
    processField refLib (tSlice tInt) "5,10,20" (.slice none) =
      (.slice (some [.int 5, .int 10, .int 20]), .nil) :=
  (C18_sequence_pieces refLib ⟨"", "", "[]int", none, none⟩ tInt "5,10,20" (.slice none)
    (by rfl) (by rfl)).1 (by decide)

/-- C19 does not hold: `strings.Split("", ",")` is the one-piece list holding
the empty string, and the slice case has no guard for a blank raw string (the
map case has one).  So the raw string `""` makes a `[]string` the sequence of
length 1 holding the empty string, and makes the coercion into a `[]int` fail;
`Load` with `EV_INTS` set to the empty string returns a `ParseError`, and with
`EV_NAMES` set to the empty string stores a sequence of length 1. -/
theorem C19_empty_raw_sequence (lib : Stdlib) (x : Val) :
    Split "" ',' = [""] ∧
    processField lib (tSlice tString) "" x = (.slice (some [.str ""]), .nil) ∧
    processField lib (tSlice tInt) "" x = (x, .err (.numError "ParseInt" "" false)) ∧
    (Load refLib (envOf [("EV_INTS", "")]) "ev" intsSpec).err =
      .err (.ParseError "EV_INTS" "Ints" "[]int" "" (.numError "ParseInt" "" false)) ∧
    (Load refLib (envOf [("EV_NAMES", "")]) "ev" namesSpec).err = .nil ∧
    fieldAt (Load refLib (envOf [("EV_NAMES", "")]) "ev" namesSpec).spec 0 =
      some (.slice (some [.str ""])) := by
  refine ⟨by decide, ?_, ?_, by rfl, by rfl, by rfl⟩
  · rw [processField_builtin lib (tSlice tString) "" x rfl rfl rfl]
    show builtinRule lib (.slice _ tString) "" x = _
    rw [builtinRule_slice, show Split "" ',' = [""] from by decide]
    simp [processElems, tString, processField_string lib (um "string") rfl rfl]
  · rw [processField_builtin lib (tSlice tInt) "" x rfl rfl rfl]
    show builtinRule lib (.slice _ tInt) "" x = _
    rw [builtinRule_slice, show Split "" ',' = [""] from by decide]
    have h : processField lib tInt "" (zero tInt) =
        (zero tInt, .err (.numError "ParseInt" "" false)) := by
      rw [processField_builtin lib tInt "" _ rfl rfl rfl]
      simp [builtinRule, kindSwitch, tInt, um, ParseInt]
    simp [processElems, h]

/-- C17: duration fields are parsed with duration syntax.  For a field of
type `time.Duration` that binding reaches with the resolved string `raw`:
`processField` stores the number of nanoseconds that `time.ParseDuration`
returns for `raw` and succeeds, or fails with the error of
`time.ParseDuration` and leaves the field as it was, and then `Load` returns
a `ParseError` whose `FieldName` is the field's name, whose `TypeName` is
`time.Duration`, whose `Value` is `raw` and whose `Err` is that error.
`time.ParseDuration` gives `2m` the value of two minutes, 120 seconds of
1000000000 nanoseconds each, and rejects `bogus` as an invalid duration. -/
theorem C17_duration_parsed (lib : Stdlib) (env : Env) (pfx : String) (m ms : TypeMeta)
    (fields : List StructField) (vals : List Val) (i : Nat) (f : StructField) (x : Val)
    (info : varInfo) (st : Option Value) (raw : String)
    (quote : String → String) (frac : Nat → Nat → Nat → Nat)
    (hf : fields[i]? = some f) (hx : vals[i]? = some x)
    (hty : f.Typ = tDuration)
    (hreach : Reaches lib env pfx (recordPtr m ms fields vals) info st)
    (hidx : info.Field.index = i)
    (hraw : resolve env info = some raw) :
    processField lib f.Typ raw x =
      (match lib.ParseDuration raw with
       | .ok d => (.int d, .nil)
       | .error e => (x, .err e)) ∧
    (∀ d, lib.ParseDuration raw = .ok d →
      fieldAt (Load lib env pfx (recordPtr m ms fields vals)).spec i = some (.int d) ∧
      (bindField lib env info st).2.2 = .nil) ∧
    (∀ e, lib.ParseDuration raw = .error e →
      (Load lib env pfx (recordPtr m ms fields vals)).err =
        .err (.ParseError (keyOf lib pfx f) f.Name "time.Duration" raw e) ∧
      fieldAt (Load lib env pfx (recordPtr m ms fields vals)).spec i = some x) ∧
    ParseDuration quote frac "2m" = .ok ((120 * 1000000000 : Nat) : Int) ∧
    ParseDuration quote frac "bogus" =
      .error (.foreign ("time: invalid duration " ++ quote "bogus")) := by
  have hpf : processField lib f.Typ raw x =
      (match lib.ParseDuration raw with
       | .ok d => (.int d, .nil)
       | .error e => (x, .err e)) := by
    rw [hty, processField_builtin lib tDuration raw x rfl rfl rfl]
    simp only [builtinRule, kindSwitch, tDuration, and_self, if_true]
    cases lib.ParseDuration raw <;> rfl
  have hp : f.Typ.isPtr = false := by rw [hty]; rfl
  obtain ⟨h1, h2, h3⟩ :=
    Load_coerced lib env pfx m ms fields vals i f x info st raw hf hx hp hreach hidx hraw
  have hstr : f.Typ.String = "time.Duration" := by rw [hty]; rfl
  refine ⟨hpf, ?_, ?_, by rfl, by rfl⟩
  · intro d hd
    rw [hpf, hd] at h1 h2
    exact ⟨h1, h2 rfl⟩
  · intro e he
    rw [hpf, he] at h1 h3
    rw [← hstr]
    exact ⟨h3 e rfl, h1⟩

/-- C17, at a field `Timeout time.Duration` with `EV_TIMEOUT` set to `2m`
(the field ends as 120000000000 nanoseconds) and to `bogus` (the call fails
with a `ParseError` naming the field `Timeout`). -/
theorem C17_duration_parsed_witness :
    fieldAt (Load timeLib (envOf [("EV_TIMEOUT", "2m")]) "ev" timeoutSpec).spec 0 =
      some (.int 120000000000) ∧
    (Load timeLib (envOf [("EV_TIMEOUT", "bogus")]) "ev" timeoutSpec).err =
      .err (.ParseError "EV_TIMEOUT" "Timeout" "time.Duration" "bogus"
        (.foreign "time: invalid duration \"bogus\"")) :=
  ⟨((C17_duration_parsed timeLib (envOf [("EV_TIMEOUT", "2m")]) "ev"
      (um "*env.Timed") (um "env.Timed") [⟨"Timeout", true, ⟨[]⟩, tDuration⟩] [.int 0] 0
      ⟨"Timeout", true, ⟨[]⟩, tDuration⟩ (.int 0)
      (descriptorOf timeLib "ev" 0 ⟨"Timeout", true, ⟨[]⟩, tDuration⟩ (.int 0))
      timeoutSpec "2m" (fun s => "\"" ++ s ++ "\"") (fun _ _ _ => 0)
      (by rfl) (by rfl) (by rfl) ⟨by rfl, [], [], [], by rfl, by rfl⟩ (by rfl) (by rfl)).2.1
      120000000000 (by rfl)).1,
   ((C17_duration_parsed timeLib (envOf [("EV_TIMEOUT", "bogus")]) "ev"
      (um "*env.Timed") (um "env.Timed") [⟨"Timeout", true, ⟨[]⟩, tDuration⟩] [.int 0] 0
      ⟨"Timeout", true, ⟨[]⟩, tDuration⟩ (.int 0)
      (descriptorOf timeLib "ev" 0 ⟨"Timeout", true, ⟨[]⟩, tDuration⟩ (.int 0))
      timeoutSpec "bogus" (fun s => "\"" ++ s ++ "\"") (fun _ _ _ => 0)
      (by rfl) (by rfl) (by rfl) ⟨by rfl, [], [], [], by rfl, by rfl⟩ (by rfl) (by rfl)).2.2.1
      (.foreign "time: invalid duration \"bogus\"") (by rfl)).1⟩

/-! ## C21 to C27: malformed maps, unsupported structs, pointers, annotations -/

/-- C22: a plain nested record is rejected.  For a record passed by pointer
with a non-empty prefix: when a settable, non-ignored field has a struct type
on which neither `Set` nor `UnmarshalText` is found, `Load` returns the
unsupported-struct error in every environment (naming this field when no
earlier described field reaches such a struct), makes no lookup at all, and
leaves every field that is not a pointer, the nested record included, exactly
as it was. -/
theorem C22_plain_struct_rejected (lib : Stdlib) (env : Env) (pfx : String) (m ms : TypeMeta)
    (fields : List StructField) (vals : List Val) (i : Nat) (f : StructField)
    (hp : pfx ≠ "") (hf : fields[i]? = some f) (he : eligible f = true)
    (hst : f.Typ.isStruct = true)
    (hs : setterFrom f.Typ = none) (ht : textUnmarshaler f.Typ = none) :
    (∃ n, (Load lib env pfx (recordPtr m ms fields vals)).err = .err (.structNeedsSetter n)) ∧
    (Load lib env pfx (recordPtr m ms fields vals)).lookups = [] ∧
    ((∀ k f', k < i → fields[k]? = some f' →
        offending f' (vals.getD k (zero f'.Typ)) = false) →
      (Load lib env pfx (recordPtr m ms fields vals)).err = .err (.structNeedsSetter f.Name)) ∧
    (∀ j f', fields[j]? = some f' → f'.Typ.isPtr = false →
      fieldAt (Load lib env pfx (recordPtr m ms fields vals)).spec j = vals[j]?) := by
  have hoff : offending f (vals.getD i (zero f.Typ)) = true := by
    simp only [offending, he, Bool.true_and, bareStruct,
      derefLoop_nonptr f.Typ _ (isStruct_not_ptr f.Typ hst), hst, hs, ht, Option.isNone_none,
      Bool.and_self]
  obtain ⟨n, hn⟩ := gatherLoop_offending lib pfx fields 0 vals [] i f (Nat.zero_le _)
    (by simpa using hf) hoff
  rw [← gatherInfo_err_of_loop lib pfx m ms fields vals hp] at hn
  have hL := Load_of_gather_err lib env pfx _ _ hn
  refine ⟨⟨n, by rw [hL]⟩, by rw [hL], ?_, ?_⟩
  · intro hfirst
    have h1 := gatherLoop_first_offending lib pfx fields 0 vals [] i f (Nat.zero_le _)
      (by simpa using hf) hoff (fun k f' _ hk hf' => hfirst k f' hk (by simpa using hf'))
    rw [← gatherInfo_err_of_loop lib pfx m ms fields vals hp] at h1
    rw [Load_of_gather_err lib env pfx _ _ h1]
  · intro j f' hf' hp'
    obtain ⟨vs, hvs, _, hcases, _, _⟩ := gatherInfo_record lib pfx m ms fields vals
    rw [hL]
    simp only
    rw [hvs, fieldAt_recordPtr]
    rcases hcases j f' hf' with h | h
    · exact h
    · rw [h]
      cases vals[j]? with
      | none => rfl
      | some v => simp [derefLoop_nonptr f'.Typ v hp']

/-- C22, on a record in the style of `BadSpecHasStruct` with `EV_FOO` and
`EV_OUTER` set, as in `TestBadSpec`. -/
theorem C22_plain_struct_rejected_witness :
    (Load refLib (envOf [("EV_FOO", "foo"), ("EV_OUTER", "x")]) "ev" badSpec).err =
      .err (.structNeedsSetter "NestedSpecification") ∧
    (Load refLib (envOf [("EV_FOO", "foo"), ("EV_OUTER", "x")]) "ev" badSpec).lookups = [] :=
  have h := C22_plain_struct_rejected refLib (envOf [("EV_FOO", "foo"), ("EV_OUTER", "x")]) "ev"
    (um "*env.BadSpecHasStruct") (um "env.BadSpecHasStruct") badFields (zeroFields badFields) 2
    ⟨"NestedSpecification", true, ⟨[("alias", "outer")]⟩, nestedSpecification⟩
    (by decide) (by rfl) (by rfl) (by rfl) (by rfl) (by rfl)
  ⟨h.2.2.1 (fun k f' hk hf' => by
      have hk' : k = 0 ∨ k = 1 := by omega
      rcases hk' with rfl | rfl
      · simp only [badFields, List.getElem?_cons_zero, Option.some.injEq] at hf'
        subst hf'
        rfl
      · simp only [badFields, List.getElem?_cons_succ, List.getElem?_cons_zero,
          Option.some.injEq] at hf'
        subst hf'
        rfl), h.2.1⟩

/-- C25 fails as stated: the casing `tRuE` is not taken for true.  A field
annotated `require:"tRuE"` is not required: with no variable set, `Load`
succeeds. -/
theorem C25_counterexample :
    isTrue "tRuE" = false ∧
    (Load refLib (envOf []) "ev" mixedCaseSpec).err = .nil ∧
    (Load refLib (envOf []) "ev" mixedCaseSpec).lookups = [(0, "EV_NAME")] :=
  ⟨by decide, by rfl, by rfl⟩

/-- C25, amended: the `require` and `ignore` annotations are read by
`strconv.ParseBool` with its error dropped.  A value counts as true exactly
when it is one of `1`, `t`, `T`, `true`, `TRUE`, `True`; every other value,
whether a literal for false, another casing of the word, or no boolean
literal at all, counts as false, without error.  So a field is described
exactly when it is settable and its `ignore` annotation is none of the six
values. -/
theorem C25_truthy_parse (s : String) (f : StructField) :
    (isTrue s = true ↔
      (s = "1" ∨ s = "t" ∨ s = "T" ∨ s = "true" ∨ s = "TRUE" ∨ s = "True")) ∧
    (isTrue s = false ↔
      ¬(s = "1" ∨ s = "t" ∨ s = "T" ∨ s = "true" ∨ s = "TRUE" ∨ s = "True")) ∧
    (eligible f = true ↔ (f.exported = true ∧ isTrue (f.Tag.Get A_IGNORE) = false)) := by
  have h1 : isTrue s = true ↔
      (s = "1" ∨ s = "t" ∨ s = "T" ∨ s = "true" ∨ s = "TRUE" ∨ s = "True") := by
    unfold isTrue ParseBool
    by_cases ht : s = "1" ∨ s = "t" ∨ s = "T" ∨ s = "true" ∨ s = "TRUE" ∨ s = "True"
    · rw [if_pos ht]; simp [ht]
    · rw [if_neg ht]
      split_ifs <;> simp [ht]
  refine ⟨h1, ?_, ?_⟩
  · rw [← h1]; cases isTrue s <;> simp
  · simp [eligible]

/-- C26: an introspection failure ends `Load` before any lookup.  When
`gatherInfo` raises the unsupported-struct error, `Load` returns that error,
has made no lookup, and hands back the record as `gatherInfo` left it: every
field holds what it held before the call or, for a pointer field, what the
pointer loop of `gatherInfo` made of it; a field that is not a pointer is
exactly as before, whether or not its variable is in the environment and
whether or not it has a default. -/
theorem C26_introspection_failure (lib : Stdlib) (env : Env) (pfx : String) (m ms : TypeMeta)
    (fields : List StructField) (vals : List Val) (n : String)
    (h : (gatherInfo lib pfx (recordPtr m ms fields vals)).2.2 = some (.structNeedsSetter n)) :
    (Load lib env pfx (recordPtr m ms fields vals)).err = .err (.structNeedsSetter n) ∧
    (Load lib env pfx (recordPtr m ms fields vals)).lookups = [] ∧
    (Load lib env pfx (recordPtr m ms fields vals)).spec =
      (gatherInfo lib pfx (recordPtr m ms fields vals)).1 ∧
    (∀ j f, fields[j]? = some f →
      (fieldAt (Load lib env pfx (recordPtr m ms fields vals)).spec j = vals[j]? ∨
        fieldAt (Load lib env pfx (recordPtr m ms fields vals)).spec j =
          (vals[j]?).map (fun v => (derefLoop f.Typ v).1)) ∧
      (f.Typ.isPtr = false →
        fieldAt (Load lib env pfx (recordPtr m ms fields vals)).spec j = vals[j]?)) := by
  have hL := Load_of_gather_err lib env pfx _ _ h
  refine ⟨by rw [hL], by rw [hL], by rw [hL], ?_⟩
  intro j f hf
  obtain ⟨vs, hvs, _, hcases, _, _⟩ := gatherInfo_record lib pfx m ms fields vals
  rw [hL]
  simp only
  rw [hvs, fieldAt_recordPtr]
  refine ⟨hcases j f hf, fun hp => ?_⟩
  rcases hcases j f hf with h1 | h1
  · exact h1
  · rw [h1]
    cases vals[j]? with
    | none => rfl
    | some v => simp [derefLoop_nonptr f.Typ v hp]

/-- C26, on a record in the style of `BadSpecHasStruct`: the settable field
`Foo` stands before the nested struct and `EV_FOO` is set, yet no lookup is
made and `Foo` keeps the empty string. -/
theorem C26_introspection_failure_witness :
    (Load refLib (envOf [("EV_FOO", "foo")]) "ev" badSpec).err =
      .err (.structNeedsSetter "NestedSpecification") ∧
    (Load refLib (envOf [("EV_FOO", "foo")]) "ev" badSpec).lookups = [] ∧
    fieldAt (Load refLib (envOf [("EV_FOO", "foo")]) "ev" badSpec).spec 0 = some (.str "") :=
  have h := C26_introspection_failure refLib (envOf [("EV_FOO", "foo")]) "ev"
    (um "*env.BadSpecHasStruct") (um "env.BadSpecHasStruct") badFields (zeroFields badFields)
    "NestedSpecification" (by rfl)
  ⟨h.1, h.2.1, (h.2.2.2 0 ⟨"Foo", true, ⟨[]⟩, tString⟩ (by rfl)).2 (by rfl)⟩

/-- C24 fails as stated for a nil pointer destination: coercion into a nil
`*complex128` reports success, but the destination is not as it was: it now
points to a zero `complex128`. -/
theorem C24_counterexample :
    processField refLib (tPtr tComplex128) "1+2i" (.ptr none) =
      (.ptr (some (.other 0)), .nil) ∧
    (processField refLib (tPtr tComplex128) "1+2i" (.ptr none)).1 ≠ .ptr none :=
  ⟨by rfl, by
    rw [show processField refLib (tPtr tComplex128) "1+2i" (.ptr none) =
      (.ptr (some (.other 0)), .nil) from rfl]
    simp⟩

/-- C24, amended: kinds without a rule are left alone.  For a destination on
which neither `Set` nor `UnmarshalText` is found: when its kind is none of
string, integer, boolean, float, slice, map and pointer, that is, struct or
one of the kinds without a case in the switch (`uintptr`, complex number,
array, channel, function, interface, unsafe pointer), `processField` reports
success for every raw string and hands the value back unchanged; when it is a
pointer to a type of such a kind, or to a pointer, `processField` reports
success and leaves the pointee unchanged, a non-nil pointer being handed back
as it was and a nil pointer being replaced by a pointer to the zero value of
the pointee type.  An interface destination is one whose dynamic value has
neither method, as the hypothesis requires; the switch is on the static kind
and does not look into it. -/
theorem C24_other_kinds_noop (lib : Stdlib) (typ : Ty) (raw : String) (x : Val)
    (hs : setterFrom typ = none) (ht : textUnmarshaler typ = none) :
    (typ.isPtr = false → noRuleKind typ = true → processField lib typ raw x = (x, .nil)) ∧
    (∀ mp elem, typ = .ptr mp elem → noRuleKind elem = true →
      processField lib typ raw x = (.ptr (some (pointeeOf elem x)), .nil) ∧
      (∀ p, x = .ptr (some p) → processField lib typ raw x = (x, .nil)) ∧
      (x = .ptr none → processField lib typ raw x = (.ptr (some (zero elem)), .nil))) := by
  have hrule : ∀ (t : Ty) (v : Val), noRuleKind t = true → builtinRule lib t raw v = (v, .nil) := by
    intro t v h
    cases t <;> first | rfl | simp [noRuleKind] at h
  constructor
  · intro hp hk
    rw [processField_builtin lib typ raw x hs ht hp]
    exact hrule typ x hk
  · intro mp elem hty hk
    subst hty
    have h := processField_ptr lib mp elem raw x hs ht
    rw [hrule elem _ hk] at h
    refine ⟨h, ?_, ?_⟩
    · intro p hx
      rw [h, hx]
      rfl
    · intro hx
      rw [h, hx]
      rfl

/-- C24 amended, with the raw string `1+2i`: a `complex128` holding a value
and an `interface{}` holding a value are as they were, with success; a nil
pointer to `interface{}` ends pointing to the zero value of the interface
type, with success. -/
theorem C24_other_kinds_noop_witness :
    processField refLib tComplex128 "1+2i" (.other 7) = (.other 7, .nil) ∧
    processField refLib tEmptyInterface "1+2i" (.other 7) = (.other 7, .nil) ∧
    processField refLib (tPtr tEmptyInterface) "1+2i" (.ptr none) =
      (.ptr (some (.other 0)), .nil) :=
  ⟨(C24_other_kinds_noop refLib tComplex128 "1+2i" (.other 7) (by rfl) (by rfl)).1
    (by rfl) (by rfl),
   (C24_other_kinds_noop refLib tEmptyInterface "1+2i" (.other 7) (by rfl) (by rfl)).1
    (by rfl) (by rfl),
   ((C24_other_kinds_noop refLib (tPtr tEmptyInterface) "1+2i" (.ptr none) (by rfl)
    (by rfl)).2 _ tEmptyInterface rfl (by rfl)).2.2 rfl⟩

/-- C27: a failed coercion through a nil pointer leaves the pointer
allocated.  For a field whose type is a pointer to a type that is not a
struct, on which neither `Set` nor `UnmarshalText` is found (as for `*int`),
that holds nil when binding reaches it: when the coercion of the resolved
string into the pointee type fails with cause `e`, `Load` returns a
`ParseError` with that cause, naming the field and its pointer type, and
after the call the field is not nil: it points to the zero value of the
pointee type. -/
theorem C27_nil_pointer_mutated (lib : Stdlib) (env : Env) (pfx : String) (m ms : TypeMeta)
    (fields : List StructField) (vals : List Val) (i : Nat) (f : StructField)
    (mp : TypeMeta) (elem : Ty) (info : varInfo) (st : Option Value) (raw : String)
    (e : GoError)
    (hf : fields[i]? = some f) (hx : vals[i]? = some (.ptr none))
    (hty : f.Typ = .ptr mp elem) (hns : elem.isStruct = false)
    (hs : setterFrom f.Typ = none) (ht : textUnmarshaler f.Typ = none)
    (hpe : elem.isPtr = false)
    (hse : setterFrom elem = none) (hte : textUnmarshaler elem = none)
    (hreach : Reaches lib env pfx (recordPtr m ms fields vals) info st)
    (hidx : info.Field.index = i)
    (hraw : resolve env info = some raw)
    (hfail : (processField lib elem raw (zero elem)).2 = .err e) :
    (Load lib env pfx (recordPtr m ms fields vals)).err =
      .err (.ParseError (keyOf lib pfx f) f.Name f.Typ.String raw e) ∧
    fieldAt (Load lib env pfx (recordPtr m ms fields vals)).spec i =
      some (.ptr (some (zero elem))) := by
  have hd : derefLoop f.Typ (.ptr none) = (.ptr none, f.Typ, 0) := by
    rw [hty]; exact derefLoop_nil_nonstruct mp elem hns
  have hrv : reachedValue f.Typ (.ptr none) = .ptr none := by
    rw [hty]; simp [reachedValue, hns]
  have hpf : processField lib f.Typ raw (.ptr none) = (.ptr (some (zero elem)), .err e) := by
    rw [hty] at hs ht ⊢
    rw [processField_ptr lib mp elem raw _ hs ht]
    have hb := processField_builtin lib elem raw (zero elem) hse hte hpe
    have hz : pointeeOf elem (.ptr none) = zero elem := rfl
    rw [hz, ← hb, hfail]
    have hu := processField_fail_unchanged lib elem raw (zero elem) hpe hse hte
      (by rw [hfail]; simp)
    rw [hu]
  obtain ⟨hinfo, vs, hst, hvs⟩ :=
    described_tags lib env pfx m ms fields vals i f info st hf hreach hidx
  have hgd : vals.getD i (zero f.Typ) = .ptr none := by
    simp [List.getD_eq_getElem?_getD, hx]
  have htyp : info.Field.typ = f.Typ := by
    rw [hinfo, hgd]
    simp [descriptorOf, hd]
  constructor
  · have h := (Load_parse_error lib env pfx m ms fields vals i f (.ptr none) info st raw e hf hx
      hreach hidx hraw (by rw [htyp, hrv, hpf])).1
    rw [htyp] at h
    exact h
  · have hb := bindField_resolved lib env info st raw hraw
    rw [(Load_bound lib env pfx m ms fields vals i f info st raw _ hf hreach hidx hb).1, hx]
    simp only [Option.map_some', boundValue, hd, throughPtrs, hpf]

/-- C27, on a record whose field `Count *int` is nil, with `EV_COUNT` set to
`x`: the call fails, and `Count` points to 0. -/
theorem C27_nil_pointer_mutated_witness :
    (Load refLib (envOf [("EV_COUNT", "x")]) "ev" countNilSpec).err =
      .err (.ParseError "EV_COUNT" "Count" "*int" "x" (.numError "ParseInt" "x" false)) ∧
    fieldAt (Load refLib (envOf [("EV_COUNT", "x")]) "ev" countNilSpec).spec 0 =
      some (.ptr (some (.int 0))) :=
  C27_nil_pointer_mutated refLib (envOf [("EV_COUNT", "x")]) "ev"
    (um "*env.Counted") (um "env.Counted") [countPtrField] [.ptr none] 0 countPtrField
    ⟨"", "", "*int", none, none⟩ tInt
    (descriptorOf refLib "ev" 0 countPtrField (.ptr none))
    countNilSpec "x" (.numError "ParseInt" "x" false)
    (by rfl) (by rfl) (by rfl) (by rfl) (by rfl) (by rfl) (by rfl) (by rfl) (by rfl)
    ⟨by rfl, [], [], [], by rfl, by rfl⟩ (by rfl) (by rfl) (by rfl)

/-- C23 fails as stated: the field `Struct *setterStruct` is nil, and no
inner field of `setterStruct` is required or has a default (none has any
annotation); yet after `Load`, with nothing set in the environment, the field
is allocated: it points to a zero `setterStruct`. -/
theorem C23_counterexample :
    (∀ g ∈ setterStruct.fields,
      isTrue (g.Tag.Get A_REQUIRE) = false ∧ g.Tag.Get A_DEFAULT = "") ∧
    fieldAt optionalPtrSpec 0 = some (.ptr none) ∧
    (Load refLib (envOf []) "ev" optionalPtrSpec).err = .nil ∧
    fieldAt (Load refLib (envOf []) "ev" optionalPtrSpec).spec 0 =
      some (.ptr (some (.struct [.str ""]))) :=
  ⟨by decide, by rfl, by rfl, by rfl⟩

/-- C23, amended: allocation of a nil pointer to a record depends on the
pointer field alone.  For a field whose type is a pointer to a struct and
that holds nil, in a call whose introspection succeeds: after `Load` the
field is not nil exactly when the field is settable and not ignored, whatever
annotations the inner fields of the pointee carry (they are never looked at);
a field that is not described is still nil; and a described field for which
no string is resolved, when binding reaches it, points to the zero value of
the pointee type. -/
theorem C23_pointer_allocation (lib : Stdlib) (env : Env) (pfx : String) (m ms : TypeMeta)
    (fields : List StructField) (vals : List Val) (i : Nat) (f : StructField)
    (mp : TypeMeta) (elem : Ty)
    (hok : (gatherInfo lib pfx (recordPtr m ms fields vals)).2.2 = none)
    (hf : fields[i]? = some f) (hty : f.Typ = .ptr mp elem) (hst : elem.isStruct = true)
    (hx : vals[i]? = some (.ptr none)) :
    ((∃ p, fieldAt (Load lib env pfx (recordPtr m ms fields vals)).spec i =
        some (.ptr (some p))) ↔ eligible f = true) ∧
    (eligible f = false →
      fieldAt (Load lib env pfx (recordPtr m ms fields vals)).spec i = some (.ptr none)) ∧
    (∀ info st, Reaches lib env pfx (recordPtr m ms fields vals) info st →
      info.Field.index = i → resolve env info = none →
      fieldAt (Load lib env pfx (recordPtr m ms fields vals)).spec i =
        some (.ptr (some (zero elem)))) := by
  have hd : derefLoop f.Typ (.ptr none) =
      (.ptr (some (zero elem)), elem, 1) := by
    rw [hty]
    simp [derefLoop, hst, derefLoop_nonptr elem (zero elem) (isStruct_not_ptr elem hst)]
  have hne : ∀ he : eligible f = false,
      fieldAt (Load lib env pfx (recordPtr m ms fields vals)).spec i = some (.ptr none) := by
    intro he
    rw [Load_ineligible lib env pfx m ms fields vals i f hf he, hx]
  refine ⟨⟨?_, ?_⟩, hne, ?_⟩
  · rintro ⟨p, hp⟩
    cases he : eligible f with
    | true => rfl
    | false =>
      rw [hne he] at hp
      simp at hp
  · intro he
    obtain ⟨g, hg⟩ := Load_field_value lib env pfx m ms fields vals i f hok hf he
    rw [hg, hx]
    simp only [Option.map_some', hd, throughPtrs]
    exact ⟨_, rfl⟩
  · intro info st hreach hidx hr
    obtain ⟨f', vs, trace, hf', _, hinfo, hst', hvs, _, hfield⟩ :=
      Load_of_reaches lib env pfx m ms fields vals info st hreach
    rw [hidx] at hf' hvs hfield
    rw [hf] at hf'
    cases hf'
    rw [hfield, bindField_unresolved lib env info st hr, hst', fieldAt_recordPtr, hvs, hx]
    simp only [Option.map_some', hd]

/-- C23 amended, on the record of `TestCustomPointerFields`' kind: the nil
field `Struct *setterStruct` is settable and not ignored, so it is allocated
after `Load`. -/
theorem C23_pointer_allocation_witness :
    ∃ p, fieldAt (Load refLib (envOf [("EV_STRUCT", "inner")]) "ev" optionalPtrSpec).spec 0 =
      some (.ptr (some p)) :=
  (C23_pointer_allocation refLib (envOf [("EV_STRUCT", "inner")]) "ev" (um "") (um "")
    [optionalPtrField] [zero optionalPtrField.Typ] 0 optionalPtrField
    ⟨"", "", "*env.setterStruct", none, none⟩ setterStruct
    (by rfl) (by rfl) (by rfl) (by rfl) (by rfl)).1.2 (by rfl)

/-- C21 fails as stated when a pair before the malformed one does not
coerce: in `a:x,red1` the pair `red1` has no separator, yet the coercion into
a `map[string]int` fails with the error of `strconv.ParseInt` on `x`, not
with the invalid-map-item error. -/
theorem C21_counterexample :
    TrimSpace "a:x,red1" ≠ "" ∧
    (∃ q ∈ Split "a:x,red1" ',', (Split q ':').length ≠ 2) ∧
    processField refLib (tMap tString tInt) "a:x,red1" (.map none) =
      (.map none, .err (.numError "ParseInt" "x" false)) :=
  ⟨by decide, ⟨"red1", by decide, by decide⟩, by rfl⟩

/-- C21, amended: a malformed map item keeps the whole field from being
coerced.  For a map type on which neither `Set` nor `UnmarshalText` is found
and a raw string that is not blank: when some comma-separated item does not
consist of exactly two parts around one `:`, `processField` does not end in
`nil` and the destination keeps what it held.  The outcome is decided by the
first item, in order, that is not of the form `k:v` with both sides coerced
to `nil` (such an item exists then): the invalid-map-item error naming the
item when it does not consist of exactly two parts; otherwise the outcome of
coercing its key when that is not `nil`; otherwise the outcome of coercing
its value.  The latter two are an error or a panic, raised by a custom `Set`
reached through a nil pointer. -/
theorem C21_invalid_map_item (lib : Stdlib) (mt : TypeMeta) (key elem : Ty) (raw : String)
    (x : Val)
    (hs : setterFrom (.map mt key elem) = none) (ht : textUnmarshaler (.map mt key elem) = none)
    (hb : TrimSpace raw ≠ "") :
    ((∃ q ∈ Split raw ',', (Split q ':').length ≠ 2) →
      (processField lib (.map mt key elem) raw x).2 ≠ .nil ∧
      (processField lib (.map mt key elem) raw x).1 = x) ∧
    (∀ pre pair post, Split raw ',' = pre ++ pair :: post →
      (∀ q ∈ pre, pairOK lib key elem q = true) → (Split pair ':').length ≠ 2 →
      processField lib (.map mt key elem) raw x = (x, .err (.invalidMapItem pair))) ∧
    (∀ pre pair post ks vs, Split raw ',' = pre ++ pair :: post →
      (∀ q ∈ pre, pairOK lib key elem q = true) → Split pair ':' = [ks, vs] →
      (processField lib key ks (zero key)).2 ≠ .nil →
      processField lib (.map mt key elem) raw x = (x, (processField lib key ks (zero key)).2)) ∧
    (∀ pre pair post ks vs, Split raw ',' = pre ++ pair :: post →
      (∀ q ∈ pre, pairOK lib key elem q = true) → Split pair ':' = [ks, vs] →
      (processField lib key ks (zero key)).2 = .nil →
      (processField lib elem vs (zero elem)).2 ≠ .nil →
      processField lib (.map mt key elem) raw x =
        (x, (processField lib elem vs (zero elem)).2)) ∧
    ((∃ q ∈ Split raw ',', (Split q ':').length ≠ 2) →
      ∃ pre pair post, Split raw ',' = pre ++ pair :: post ∧
        (∀ q ∈ pre, pairOK lib key elem q = true) ∧
        ((Split pair ':').length ≠ 2 ∨
         ∃ ks vs, Split pair ':' = [ks, vs] ∧
           ((processField lib key ks (zero key)).2 ≠ .nil ∨
            ((processField lib key ks (zero key)).2 = .nil ∧
             (processField lib elem vs (zero elem)).2 ≠ .nil)))) := by
  have hpf := processField_builtin lib (.map mt key elem) raw x hs ht rfl
  have hbad : (∃ q ∈ Split raw ',', (Split q ':').length ≠ 2) →
      (processField lib (.map mt key elem) raw x).2 ≠ .nil := by
    intro h
    have hp := processPairs_bad (processField lib key) (processField lib elem) (zero key)
      (zero elem) (Split raw ',') [] h
    rw [hpf, builtinRule_map, if_pos hb]
    rcases hpp : processPairs (processField lib key) (processField lib elem) (zero key)
      (zero elem) (Split raw ',') [] with ⟨mp, o⟩
    rw [hpp] at hp
    cases o with
    | nil => exact absurd rfl hp
    | err e => simp
    | panic => simp
  refine ⟨?_, ?_, ?_, ?_, ?_⟩
  · intro h
    exact ⟨hbad h, processField_fail_unchanged lib _ raw x rfl hs ht (hbad h)⟩
  · intro pre pair post hsplit hpre hne
    have hp := processPairs_first_bad lib key elem pre pair post [] hpre hne
    rw [← hsplit] at hp
    rw [hpf, builtinRule_map, if_pos hb]
    rcases hpp : processPairs (processField lib key) (processField lib elem) (zero key)
      (zero elem) (Split raw ',') [] with ⟨mp, o⟩
    rw [hpp] at hp
    simp only at hp
    subst hp
    rfl
  · intro pre pair post ks vs hsplit hpre hsp hk
    rw [hpf]
    refine builtinRule_map_fail lib mt key elem raw x
      (insertAll [] (pre.map (coercePair lib key elem))) _ hb ?_ hk
    rw [hsplit, processPairs_append_ok lib key elem pre (pair :: post) [] hpre]
    exact processPairs_key_fail _ _ _ _ pair post _ ks vs hsp hk
  · intro pre pair post ks vs hsplit hpre hsp hk hv
    rw [hpf]
    refine builtinRule_map_fail lib mt key elem raw x
      (insertAll [] (pre.map (coercePair lib key elem))) _ hb ?_ hv
    rw [hsplit, processPairs_append_ok lib key elem pre (pair :: post) [] hpre]
    exact processPairs_elem_fail _ _ _ _ pair post _ ks vs hsp hk hv
  · intro h
    have hf : ∃ q ∈ Split raw ',', pairOK lib key elem q = false := by
      obtain ⟨q, hq, hne⟩ := h
      exact ⟨q, hq, pairOK_malformed lib key elem q hne⟩
    obtain ⟨pre, pair, post, hl, hpre, hpair⟩ := first_failing (pairOK lib key elem) _ hf
    exact ⟨pre, pair, post, hl, hpre, pairOK_false_cases lib key elem pair hpair⟩

/-- C21 amended, on a nil map.  In a `map[string]int` the item `red1` has no
separator, `a:b:c` has two, and a trailing comma leaves an empty item: each
time the coercion fails with the invalid-map-item error and the map stays
nil.  In `a:x,red1` the value `x` of the first item is no integer, and the
error is that of `strconv.ParseInt`.  In a `map[*bracketed]string` the key of
the first item of `a:b,red1` is handed to `Set` through a nil pointer, and
the outcome is a panic. -/
theorem C21_invalid_map_item_witness :
    processField refLib (tMap tString tInt) "red1" (.map none) =
      (.map none, .err (.invalidMapItem "red1")) ∧
    processField refLib (tMap tString tString) "a:b:c" (.map none) =
      (.map none, .err (.invalidMapItem "a:b:c")) ∧
    processField refLib (tMap tString tInt) "red:1," (.map none) =
      (.map none, .err (.invalidMapItem "")) ∧
    processField refLib (tMap tString tInt) "a:x,red1" (.map none) =
      (.map none, .err (.numError "ParseInt" "x" false)) ∧
    processField refLib (tMap (tPtr bracketed) tString) "a:b,red1" (.map none) =
      (.map none, .panic) :=
  ⟨(C21_invalid_map_item refLib ⟨"", "", "map[string]int", none, none⟩ tString tInt "red1"
      (.map none) (by rfl) (by rfl) (by decide)).2.1 [] "red1" [] (by decide)
      (by intro q hq; cases hq) (by decide),
   (C21_invalid_map_item refLib ⟨"", "", "map[string]string", none, none⟩ tString tString
      "a:b:c" (.map none) (by rfl) (by rfl) (by decide)).2.1 [] "a:b:c" [] (by decide)
      (by intro q hq; cases hq) (by decide),
   (C21_invalid_map_item refLib ⟨"", "", "map[string]int", none, none⟩ tString tInt "red:1,"
      (.map none) (by rfl) (by rfl) (by decide)).2.1 ["red:1"] "" [] (by decide)
      (by
        intro q hq
        simp only [List.mem_singleton] at hq
        subst hq
        rfl) (by decide),
   (C21_invalid_map_item refLib ⟨"", "", "map[string]int", none, none⟩ tString tInt "a:x,red1"
      (.map none) (by rfl) (by rfl) (by decide)).2.2.2.1 [] "a:x" ["red1"] "a" "x" (by decide)
      (by intro q hq; cases hq) (by decide) (by rfl) (by decide),
   (C21_invalid_map_item refLib ⟨"", "", "map[*env.bracketed]string", none, none⟩
      (tPtr bracketed) tString "a:b,red1" (.map none) (by rfl) (by rfl) (by decide)).2.2.1
      [] "a:b" ["red1"] "a" "b" (by decide) (by intro q hq; cases hq) (by decide) (by decide)⟩

/-- C20: maps are built item by item.  For a map type with key type `K` and
element type `V` on which neither `Set` nor `UnmarshalText` is found: a raw
string that is blank after trimming gives the empty, non-nil map, whatever
the destination held; otherwise, when every comma-separated item has the
form `k:v` with both sides coerced without error, the destination becomes
the map obtained by storing the coerced entries in order into an empty map.
In that map the element under any key is the coerced element of the last
item whose coerced key equals it (there is none when no item has that key),
and no two entries have equal keys.  For entries with pairwise different
keys the elements found in the map do not depend on the order of the items. -/
theorem C20_map_entries (lib : Stdlib) (mt : TypeMeta) (key elem : Ty) (raw : String) (x : Val)
    (hs : setterFrom (.map mt key elem) = none) (ht : textUnmarshaler (.map mt key elem) = none) :
    (TrimSpace raw = "" →
      processField lib (.map mt key elem) raw x = (.map (some []), .nil)) ∧
    (TrimSpace raw ≠ "" → (∀ q ∈ Split raw ',', pairOK lib key elem q = true) →
      processField lib (.map mt key elem) raw x =
        (.map (some (insertAll [] ((Split raw ',').map (coercePair lib key elem)))), .nil) ∧
      (∀ k, MapIndex (insertAll [] ((Split raw ',').map (coercePair lib key elem))) k =
        ((((Split raw ',').map (coercePair lib key elem)).reverse.find?
          (fun p => keyEq p.1 k)).map (fun p => p.2))) ∧
      (insertAll [] ((Split raw ',').map (coercePair lib key elem))).Pairwise
        (fun a b => keyEq a.1 b.1 = false)) ∧
    (∀ ps ps' : List (Val × Val), ps.Perm ps' →
      ps.Pairwise (fun a b => keyEq a.1 b.1 = false) →
      ∀ k, MapIndex (insertAll [] ps) k = MapIndex (insertAll [] ps') k) := by
  have hpf := processField_builtin lib (.map mt key elem) raw x hs ht rfl
  refine ⟨?_, ?_, fun ps ps' hp hpw k => MapIndex_insertAll_perm ps ps' hp hpw k⟩
  · intro hb
    rw [hpf, builtinRule_map, if_neg (by simpa using hb)]
  · intro hb hok
    refine ⟨?_, ?_, insertAll_pairwise _ [] List.Pairwise.nil⟩
    · rw [hpf, builtinRule_map, if_pos hb, processPairs_ok lib key elem _ [] hok]
    · intro k
      rw [MapIndex_insertAll]
      cases ((Split raw ',').map (coercePair lib key elem)).reverse.find?
        (fun p => keyEq p.1 k) <;> rfl

/-- C20, on a nil `map[string]int` with the raw string `red:1,green:2`, as in
`TestLoad`, and with a key given twice, where the later item wins. -/
theorem C20_map_entries_witness :
    processField refLib (tMap tString tInt) "red:1,green:2" (.map none) =
      (.map (some [(.str "red", .int 1), (.str "green", .int 2)]), .nil) ∧
    processField refLib (tMap tString tInt) "red:1,green:2,red:3" (.map none) =
      (.map (some [(.str "red", .int 3), (.str "green", .int 2)]), .nil) :=
  ⟨((C20_map_entries refLib ⟨"", "", "map[string]int", none, none⟩ tString tInt
      "red:1,green:2" (.map none) (by rfl) (by rfl)).2.1 (by decide) (by decide)).1,
   ((C20_map_entries refLib ⟨"", "", "map[string]int", none, none⟩ tString tInt
      "red:1,green:2,red:3" (.map none) (by rfl) (by rfl)).2.1 (by decide)
      (by decide)).1⟩

/-- C16: integer fields hold the value of the literal.  On a platform whose
`int` has 32 or 64 bits, for a signed integer type of `w` bits other than
`time.Duration`, and for an unsigned integer type of `w` bits, on which
neither `Set` nor `UnmarshalText` is found: `processField` succeeds with the
destination holding `i` exactly when the raw string is a base-prefix-aware
integer literal whose value is `i` and `i` lies in the range of the type
(from `-2^(w-1)` to `2^(w-1) - 1`, or from `0` to `2^w - 1`); when the raw
string is no such literal, malformed or out of range, `processField` fails
and the destination keeps what it held.  A raw string with a leading minus
sign is no unsigned literal, so it fails on an unsigned type. -/
theorem C16_integer_literals (lib : Stdlib) (raw : String) (x : Val)
    (hsz : lib.IntSize = 32 ∨ lib.IntSize = 64) :
    (∀ mt k, setterFrom (.int mt k) = none → textUnmarshaler (.int mt k) = none →
      ¬(k = .Int64 ∧ mt.PkgPath = "time" ∧ mt.Name = "Duration") →
      (∀ i : Int, processField lib (.int mt k) raw x = (.int i, .nil) ↔
        (intLiteral raw = some i ∧
          -((2 ^ (k.Bits lib.IntSize - 1) : Nat) : Int) ≤ i ∧
          i < ((2 ^ (k.Bits lib.IntSize - 1) : Nat) : Int))) ∧
      ((∀ i : Int, ¬(intLiteral raw = some i ∧
          -((2 ^ (k.Bits lib.IntSize - 1) : Nat) : Int) ≤ i ∧
          i < ((2 ^ (k.Bits lib.IntSize - 1) : Nat) : Int))) →
        (processField lib (.int mt k) raw x).2 ≠ .nil ∧
        (processField lib (.int mt k) raw x).1 = x)) ∧
    (∀ mt k, setterFrom (.uint mt k) = none → textUnmarshaler (.uint mt k) = none →
      (∀ n : Nat, processField lib (.uint mt k) raw x = (.uint n, .nil) ↔
        (uintLiteral raw = some n ∧ n < 2 ^ k.Bits lib.IntSize)) ∧
      ((∀ n : Nat, ¬(uintLiteral raw = some n ∧ n < 2 ^ k.Bits lib.IntSize)) →
        (processField lib (.uint mt k) raw x).2 ≠ .nil ∧
        (processField lib (.uint mt k) raw x).1 = x) ∧
      (∀ rest, raw.data = '-' :: rest →
        (processField lib (.uint mt k) raw x).2 ≠ .nil ∧
        (processField lib (.uint mt k) raw x).1 = x)) := by
  constructor
  · intro mt k hs ht hd
    obtain ⟨hw2, hw⟩ := intBits_range lib.IntSize hsz k
    have hrule := int_rule lib mt k raw x hs ht hd
    have hiff := ParseInt_ok_iff raw (k.Bits lib.IntSize) hw2 hw
    have h1 : ∀ i : Int, processField lib (.int mt k) raw x = (.int i, .nil) ↔
        ParseInt raw (k.Bits lib.IntSize) = .ok i := by
      intro i
      rw [hrule]
      cases ParseInt raw (k.Bits lib.IntSize) with
      | error e => simp
      | ok j => simp
    refine ⟨fun i => (h1 i).trans (hiff i), ?_⟩
    intro hno
    have hne : (processField lib (.int mt k) raw x).2 ≠ .nil := by
      rw [hrule]
      cases hp : ParseInt raw (k.Bits lib.IntSize) with
      | error e => simp
      | ok j => exact absurd ((hiff j).mp hp) (hno j)
    exact ⟨hne, processField_fail_unchanged lib _ raw x rfl hs ht hne⟩
  · intro mt k hs ht
    obtain ⟨hw2, hw⟩ := uintBits_range lib.IntSize hsz k
    have hrule := uint_rule lib mt k raw x hs ht
    have hpos : 0 < 2 ^ k.Bits lib.IntSize := Nat.two_pow_pos _
    have hiff : ∀ n : Nat, ParseUint raw (k.Bits lib.IntSize) = .ok n ↔
        (uintLiteral raw = some n ∧ n < 2 ^ k.Bits lib.IntSize) := by
      intro n
      rw [ParseUint_ok_iff raw (k.Bits lib.IntSize) hw n]
      constructor
      · rintro ⟨h1, h2⟩; exact ⟨h1, by omega⟩
      · rintro ⟨h1, h2⟩; exact ⟨h1, by omega⟩
    have h1 : ∀ n : Nat, processField lib (.uint mt k) raw x = (.uint n, .nil) ↔
        ParseUint raw (k.Bits lib.IntSize) = .ok n := by
      intro n
      rw [hrule]
      cases ParseUint raw (k.Bits lib.IntSize) with
      | error e => simp
      | ok j => simp
    have hfail : (∀ n : Nat, ¬(uintLiteral raw = some n ∧ n < 2 ^ k.Bits lib.IntSize)) →
        (processField lib (.uint mt k) raw x).2 ≠ .nil ∧
        (processField lib (.uint mt k) raw x).1 = x := by
      intro hno
      have hne : (processField lib (.uint mt k) raw x).2 ≠ .nil := by
        rw [hrule]
        cases hp : ParseUint raw (k.Bits lib.IntSize) with
        | error e => simp
        | ok j => exact absurd ((hiff j).mp hp) (hno j)
      exact ⟨hne, processField_fail_unchanged lib _ raw x rfl hs ht hne⟩
    refine ⟨fun n => (h1 n).trans (hiff n), hfail, ?_⟩
    intro rest hrest
    apply hfail
    intro n hn
    rw [uintLiteral_minus raw rest hrest] at hn
    cases hn.1

/-- C16, on an `int` with the raw string `0x1F` (the field holds 31), on an
`int8` with `128` and `-129` (out of range: failure, the field keeps 0) and
`-128` (in range), and on a `uint` with `-30`, as in `TestParseErrorUint`
(failure, the field keeps 0). -/
theorem C16_integer_literals_witness :
    processField refLib tInt "0x1F" (.int 0) = (.int 31, .nil) ∧
    processField refLib (.int (um "int8") .Int8) "-128" (.int 0) = (.int (-128), .nil) ∧
    (processField refLib (.int (um "int8") .Int8) "128" (.int 0)).1 = .int 0 ∧
    (processField refLib (.int (um "int8") .Int8) "128" (.int 0)).2 ≠ .nil ∧
    (processField refLib (.uint (um "uint") .Uint) "-30" (.uint 0)).1 = .uint 0 ∧
    (processField refLib (.uint (um "uint") .Uint) "-30" (.uint 0)).2 ≠ .nil :=
  ⟨((C16_integer_literals refLib "0x1F" (.int 0) (Or.inr rfl)).1 (um "int") .Int
      (by rfl) (by rfl) (by decide)).1 31 |>.mpr ⟨by rfl, by decide, by decide⟩,
   ((C16_integer_literals refLib "-128" (.int 0) (Or.inr rfl)).1 (um "int8") .Int8
      (by rfl) (by rfl) (by decide)).1 (-128) |>.mpr ⟨by rfl, by decide, by decide⟩,
   (((C16_integer_literals refLib "128" (.int 0) (Or.inr rfl)).1 (um "int8") .Int8
      (by rfl) (by rfl) (by decide)).2 (by
        intro i h
        rw [show intLiteral "128" = some 128 from rfl] at h
        simp only [Option.some.injEq] at h
        obtain ⟨h1, h2, h3⟩ := h
        rw [← h1] at h3
        revert h3
        decide)).2,
   (((C16_integer_literals refLib "128" (.int 0) (Or.inr rfl)).1 (um "int8") .Int8
      (by rfl) (by rfl) (by decide)).2 (by
        intro i h
        rw [show intLiteral "128" = some 128 from rfl] at h
        simp only [Option.some.injEq] at h
        obtain ⟨h1, h2, h3⟩ := h
        rw [← h1] at h3
        revert h3
        decide)).1,
   (((C16_integer_literals refLib "-30" (.uint 0) (Or.inr rfl)).2 (um "uint") .Uint
      (by rfl) (by rfl)).2.2 ['3', '0'] (by rfl)).2,
   (((C16_integer_literals refLib "-30" (.uint 0) (Or.inr rfl)).2 (um "uint") .Uint
      (by rfl) (by rfl)).2.2 ['3', '0'] (by rfl)).1⟩

end EnvVars
